import Mathlib

/-!
# HarfBuzz open-type core: the sanitize context, offsets and arrays

A shallow embedding of `src/hb-open-type-private.hh`.

* Pointers are natural-number addresses; `0` is `nullptr`.
* Memory is a map from addresses to bytes (`uint8_t`).
* `unsigned int` is 32 bits wide and `int` is a 32-bit two's complement integer;
  `ptrdiff_t` is wider than 32 bits, so a pointer difference cast to `unsigned int`
  is reduced modulo `2 ^ 32`.
* A C++ method that changes the context or the blob bytes returns the new
  context and the new memory next to its C++ return value.
-/

namespace OT

/-! ## Memory and machine integers -/

/-- Byte-addressed memory: the `uint8_t` stored at every address. -/
abbrev Memory := Nat → Fin 256

/-- Conversion of an `int` value to `uint8_t` (reduction modulo 256). -/
def to_uint8 (x : Int) : Fin 256 :=
  ⟨(x % 256).toNat, by omega⟩

/-- Store one byte. -/
def Memory.write (m : Memory) (p : Nat) (b : Fin 256) : Memory :=
  fun a => if a = p then b else m a

/-- The width of `unsigned int`, in bits. -/
def UINT_BITS : Nat := 32

/-- Conversion to `unsigned int`: reduction modulo `2 ^ 32`. -/
def to_unsigned (x : Int) : Nat :=
  (x % (2 ^ UINT_BITS : Nat)).toNat

/-- Conversion of an `unsigned int` value to `int` (two's complement). -/
def to_int (u : Nat) : Int :=
  if u % 2 ^ UINT_BITS < 2 ^ (UINT_BITS - 1) then ((u % 2 ^ UINT_BITS : Nat) : Int)
  else ((u % 2 ^ UINT_BITS : Nat) : Int) - (2 ^ UINT_BITS : Nat)

/-- An integral C type: its signedness and `sizeof`. -/
structure c_int_type where
  is_signed : Bool
  size : Nat
deriving DecidableEq

def uint8_t : c_int_type := ⟨false, 1⟩
def int8_t : c_int_type := ⟨true, 1⟩
def uint16_t : c_int_type := ⟨false, 2⟩
def int16_t : c_int_type := ⟨true, 2⟩
def uint32_t : c_int_type := ⟨false, 4⟩
def int32_t : c_int_type := ⟨true, 4⟩

/-- Conversion of an integer value to the C type `t` (two's complement for a
signed `t`). -/
def c_int_type.convert (t : c_int_type) (x : Int) : Int :=
  let m : Int := ((2 ^ (8 * t.size) : Nat) : Int)
  let r := x % m
  if t.is_signed && decide (m ≤ 2 * r) then r - m else r

/-! ## Big-endian integers (`BEInt`, `IntType`) -/

/-- Source: `BEInt<Type, Bytes>::set (V)`: the bytes are stored most significant first.
Masking with `0xFF` is reduction modulo 256 (`to_uint8`); `>>` on a negative value
is the arithmetic shift. The template is specialised for 1, 2, 3 and 4 bytes
only. -/
def BEInt.set (Bytes : Nat) (V : Int) (m : Memory) (p : Nat) : Memory :=
  match Bytes with
  | 1 => m.write p (to_uint8 V)
  | 2 => (m.write p (to_uint8 (V >>> 8))).write (p + 1) (to_uint8 V)
  | 3 => ((m.write p (to_uint8 (V >>> 16))).write (p + 1) (to_uint8 (V >>> 8))).write (p + 2)
      (to_uint8 V)
  | 4 => (((m.write p (to_uint8 (V >>> 24))).write (p + 1) (to_uint8 (V >>> 16))).write (p + 2)
      (to_uint8 (V >>> 8))).write (p + 3) (to_uint8 V)
  | _ => m

/-- Source: `BEInt<Type, Bytes>::operator Type ()`: most-significant-first accumulation,
converted to `Type`. -/
def BEInt.get (T : c_int_type) (Bytes : Nat) (m : Memory) (p : Nat) : Int :=
  match Bytes with
  | 1 => T.convert (m p).val
  | 2 => T.convert ((((m p).val <<< 8) + (m (p + 1)).val : Nat) : Int)
  | 3 => T.convert ((((m p).val <<< 16) + ((m (p + 1)).val <<< 8) + (m (p + 2)).val : Nat) : Int)
  | 4 => T.convert ((((m p).val <<< 24) + ((m (p + 1)).val <<< 16) + ((m (p + 2)).val <<< 8)
      + (m (p + 3)).val : Nat) : Int)
  | _ => 0

/-- Source: `IntType<Type, Size>`: an integer of C type `Type` stored in `Size` bytes. -/
structure IntType where
  type : c_int_type
  Size : Nat
deriving DecidableEq

def HBUINT8 : IntType := ⟨uint8_t, 1⟩
def HBINT8 : IntType := ⟨int8_t, 1⟩
def HBUINT16 : IntType := ⟨uint16_t, 2⟩
def HBINT16 : IntType := ⟨int16_t, 2⟩
def HBUINT32 : IntType := ⟨uint32_t, 4⟩
def HBINT32 : IntType := ⟨int32_t, 4⟩
def HBUINT24 : IntType := ⟨uint32_t, 3⟩

/-- Source: `DEFINE_SIZE_STATIC (Size)`. -/
def IntType.static_size (I : IntType) : Nat := I.Size

/-- Source: `DEFINE_SIZE_STATIC (Size)`. -/
def IntType.min_size (I : IntType) : Nat := I.Size

/-- Source: `IntType::set (i)`: the value is first converted to the parameter type `Type`. -/
def IntType.set (I : IntType) (i : Int) (m : Memory) (p : Nat) : Memory :=
  BEInt.set I.Size (I.type.convert i) m p

/-- Source: `IntType::operator Type ()`. -/
def IntType.get (I : IntType) (m : Memory) (p : Nat) : Int :=
  BEInt.get I.type I.Size m p

/-! ## The blob provider -/

/-- Modelled from the spec: the `Blob` provider (`hb-blob-private.hh` is not part
of the sources). A blob owns `length` bytes starting at address `data`, has a
reference count, and a `locked` flag that freezes mutation. `length` is an
`unsigned int`. -/
structure hb_blob_t where
  data : Nat
  length : Nat
  locked : Bool
  ref_count : Nat
deriving DecidableEq

/-- Modelled from the spec: `reference (blob)`, refcount++ (`hb-blob-private.hh` is
not part of the sources). -/
def hb_blob_reference (b : hb_blob_t) : hb_blob_t :=
  { b with ref_count := b.ref_count + 1 }

/-- Modelled from the spec: `destroy (blob)`, refcount-- (`hb-blob-private.hh` is
not part of the sources). -/
def hb_blob_destroy (b : hb_blob_t) : hb_blob_t :=
  { b with ref_count := b.ref_count - 1 }

/-- Modelled from the spec: `get_data (blob)` (`hb-blob-private.hh` is not part of
the sources). For an empty blob the snapshot is null. -/
def hb_blob_get_data (b : hb_blob_t) : Nat :=
  if b.length = 0 then 0 else b.data

/-- Modelled from the spec: `lock (blob)` (`hb-blob-private.hh` is not part of the
sources). -/
def hb_blob_t.lock (b : hb_blob_t) : hb_blob_t :=
  { b with locked := true }

/-- Modelled from the spec: `get_empty ()`, the shared process-wide empty blob
(`hb-blob-private.hh` is not part of the sources). -/
def hb_blob_get_empty : hb_blob_t :=
  { data := 0, length := 0, locked := true, ref_count := 0 }

/-- Copy `n` bytes from `src` to `dst`. -/
def Memory.clone (m : Memory) (src dst n : Nat) : Memory :=
  fun a => if dst ≤ a ∧ a < dst + n then m (src + (a - dst)) else m a

/-- Modelled from the spec: `get_data_writable (blob)` (`hb-blob-private.hh` is not
part of the sources). A locked blob yields null, and so does an empty one, whose
data pointer is null. Otherwise the blob is replaced by a heap clone of its bytes
at address `heap`, the address the allocator hands out (`0` when the allocation
fails), and the clone's address is returned; the bytes at the old address are not
touched. -/
def hb_blob_get_data_writable (b : hb_blob_t) (m : Memory) (heap : Nat) :
    Nat × hb_blob_t × Memory :=
  if b.locked || decide (b.length = 0) || decide (heap = 0) then (0, b, m)
  else (heap, { b with data := heap }, m.clone b.data heap b.length)

/-! ## The sanitize context -/

def HB_SANITIZE_MAX_EDITS : Nat := 32
def HB_SANITIZE_MAX_OPS_FACTOR : Nat := 8
def HB_SANITIZE_MAX_OPS_MIN : Nat := 16384

/-- Modelled from the spec: `hb_unsigned_mul_overflows (count, size)` from
`hb-private.hh`, which is not part of the sources: whether `count * size` overflows
an unsigned machine word. -/
def hb_unsigned_mul_overflows (count size : Nat) : Bool :=
  decide (2 ^ UINT_BITS ≤ count * size)

/-- Source: `hb_sanitize_context_t`. `end_` is the C++ member `end`. `blob` records whether
the context holds its blob pointer (`false` is `nullptr`); the blob object itself,
which the caller's pointer aliases, is passed to the methods that use it.
`max_ops` is a C `int`. -/
structure hb_sanitize_context_t where
  debug_depth : Nat
  start : Nat
  end_ : Nat
  writable : Bool
  edit_count : Nat
  max_ops : Int
  blob : Bool
  num_glyphs : Nat
deriving DecidableEq

namespace hb_sanitize_context_t

/-- The constructor `hb_sanitize_context_t (void)`. -/
def new : hb_sanitize_context_t :=
  { debug_depth := 0, start := 0, end_ := 0, writable := false, edit_count := 0,
    max_ops := 0, blob := false, num_glyphs := 0 }

/-- Source: `init (b)`: take a reference on the blob, mark the context non-writable. -/
def init (c : hb_sanitize_context_t) (b : hb_blob_t) : hb_sanitize_context_t × hb_blob_t :=
  ({ c with blob := true, writable := false }, hb_blob_reference b)

def set_num_glyphs (c : hb_sanitize_context_t) (num_glyphs_ : Nat) : hb_sanitize_context_t :=
  { c with num_glyphs := num_glyphs_ }

def get_num_glyphs (c : hb_sanitize_context_t) : Nat := c.num_glyphs

/-- Source: `start_processing ()`. The product `(unsigned int) (end - start) * FACTOR` is
computed in `unsigned int`, `MAX` (from `hb-private.hh`, the larger of its two
arguments) is taken in `unsigned int`, and the result is converted to the `int`
member `max_ops`. -/
def start_processing (c : hb_sanitize_context_t) (b : hb_blob_t) : hb_sanitize_context_t :=
  let start := hb_blob_get_data b
  let end_ := start + b.length
  { c with
    start := start
    end_ := end_
    max_ops := to_int (max (((end_ - start) % 2 ^ UINT_BITS * HB_SANITIZE_MAX_OPS_FACTOR)
      % 2 ^ UINT_BITS) HB_SANITIZE_MAX_OPS_MIN)
    edit_count := 0
    debug_depth := 0 }

/-- Source: `end_processing ()`: release the blob reference, clear the snapshots. -/
def end_processing (c : hb_sanitize_context_t) (b : hb_blob_t) :
    hb_sanitize_context_t × hb_blob_t :=
  ({ c with blob := false, start := 0, end_ := 0 }, hb_blob_destroy b)

/-- Source: `check_range (base, len)`. `max_ops-- > 0` tests the value before the
decrement, and the decrement happens whatever the outcome of the other
conjuncts. The decrement is tracked without wraparound: it could only wrap at
`INT_MIN`, where signed overflow is undefined in C++. `end - p` is only evaluated
when `p <= end`, and is cast to `unsigned int`. -/
def check_range (c : hb_sanitize_context_t) (base len : Nat) : Bool × hb_sanitize_context_t :=
  let p := base
  let ok := decide (0 < c.max_ops) && decide (c.start ≤ p) && decide (p ≤ c.end_) &&
    decide (len ≤ (c.end_ - p) % 2 ^ UINT_BITS)
  (ok, { c with max_ops := c.max_ops - 1 })

/-- Source: `check_array (base, record_size, len)`. When the product overflows
`check_range` is not called. -/
def check_array (c : hb_sanitize_context_t) (base record_size len : Nat) :
    Bool × hb_sanitize_context_t :=
  let overflows := hb_unsigned_mul_overflows len record_size
  let array_size := (record_size * len) % 2 ^ UINT_BITS
  if overflows then (false, c) else c.check_range base array_size

/-- Source: `check_struct (obj)`, with `min_size` the `min_size` of the object's type. -/
def check_struct (c : hb_sanitize_context_t) (obj min_size : Nat) :
    Bool × hb_sanitize_context_t :=
  c.check_range obj min_size

/-- Source: `may_edit (base, len)`. -/
def may_edit (c : hb_sanitize_context_t) (_base _len : Nat) : Bool × hb_sanitize_context_t :=
  if HB_SANITIZE_MAX_EDITS ≤ c.edit_count then (false, c)
  else (c.writable, { c with edit_count := c.edit_count + 1 })

end hb_sanitize_context_t

/-- What a method `bool f (hb_sanitize_context_t *c ...)` leaves behind: its return
value, the context and the memory. -/
structure Outcome where
  ret : Bool
  c : hb_sanitize_context_t
  mem : Memory

/-- Source: `try_set (obj, v)` for an object of integer type `I` at address `obj`. -/
def hb_sanitize_context_t.try_set (c : hb_sanitize_context_t) (m : Memory) (I : IntType)
    (obj : Nat) (v : Int) : Outcome :=
  let r := c.may_edit obj I.static_size
  if r.1 then ⟨true, r.2, I.set v m obj⟩ else ⟨false, r.2, m⟩

/-- Source: `IntType::sanitize (c)`: `c->check_struct (this)`. -/
def IntType.sanitize (I : IntType) (this : Nat) (c : hb_sanitize_context_t) :
    Bool × hb_sanitize_context_t :=
  c.check_struct this I.min_size

/-! ## Structures reached through offsets -/

/-- The template parameter `Type` of `OffsetTo`: a structure type with its
`min_size` and its method `sanitize (c)`, called on the object at a given address. -/
structure TableType where
  min_size : Nat
  sanitize : Nat → hb_sanitize_context_t → Memory → Outcome

/-- An `IntType` used as the pointee of an offset. -/
def IntType.table (I : IntType) : TableType where
  min_size := I.min_size
  sanitize := fun this c m => ⟨(I.sanitize this c).1, (I.sanitize this c).2, m⟩

/-- Source: `StructAtOffset<Type> (P, offset)`: the address `P + offset`. -/
def StructAtOffset (P offset : Nat) : Nat := P + offset

/-- What a dereference returns: the shared `Null (Type)` object, the shared
`Crap (Type)` object, or the structure at an address. -/
inductive ObjRef where
  | Null
  | Crap
  | At (p : Nat)
deriving DecidableEq

namespace OffsetTo

/-- Source: `Offset::is_null ()`: `0 == *this`. -/
def is_null (OffsetType : IntType) (m : Memory) (this : Nat) : Bool :=
  decide (0 = OffsetType.get m this)

/-- Source: `OffsetTo::operator () (const void *base) const`. -/
def deref (OffsetType : IntType) (m : Memory) (this base : Nat) : ObjRef :=
  let offset := to_unsigned (OffsetType.get m this)
  if offset = 0 then ObjRef.Null else ObjRef.At (StructAtOffset base offset)

/-- Source: `OffsetTo::neuter (c)`: `c->try_set (this, 0)`. -/
def neuter (OffsetType : IntType) (this : Nat) (c : hb_sanitize_context_t) (m : Memory) :
    Outcome :=
  c.try_set m OffsetType this 0

/-- Source: `OffsetTo<Type, OffsetType>::sanitize (c, base)`. -/
def sanitize (T : TableType) (OffsetType : IntType) (this : Nat) (c : hb_sanitize_context_t)
    (m : Memory) (base : Nat) : Outcome :=
  let r1 := c.check_struct this OffsetType.min_size
  if !r1.1 then ⟨false, r1.2, m⟩ else
  let offset := to_unsigned (OffsetType.get m this)
  if offset = 0 then ⟨true, r1.2, m⟩ else
  let r2 := r1.2.check_range base offset
  if !r2.1 then ⟨false, r2.2, m⟩ else
  let obj := StructAtOffset base offset
  let r3 := T.sanitize obj r2.2 m
  if r3.ret then r3 else neuter OffsetType this r3.c r3.mem

end OffsetTo

/-! ## Arrays -/

namespace ArrayOf

/-- The address of `arrayZ`, the member placed after `len`. -/
def arrayZ (LenType : IntType) (this : Nat) : Nat := this + LenType.Size

/-- The member `len`, read as an `unsigned int`. -/
def len (LenType : IntType) (m : Memory) (this : Nat) : Nat :=
  to_unsigned (LenType.get m this)

/-- Source: `ArrayOf::sanitize_shallow (c)`:
`len.sanitize (c) && c->check_array (arrayZ, Type::static_size, len)`. -/
def sanitize_shallow (LenType : IntType) (static_size : Nat) (this : Nat)
    (c : hb_sanitize_context_t) (m : Memory) : Bool × hb_sanitize_context_t :=
  let r1 := LenType.sanitize this c
  if !r1.1 then (false, r1.2)
  else r1.2.check_array (arrayZ LenType this) static_size (len LenType m this)

/-- Source: `ArrayOf::sanitize (c)`, for an element type of size `static_size` that
references no other structure. -/
def sanitize (LenType : IntType) (static_size : Nat) (this : Nat)
    (c : hb_sanitize_context_t) (m : Memory) : Bool × hb_sanitize_context_t :=
  let r := sanitize_shallow LenType static_size this c m
  if !r.1 then (false, r.2) else (true, r.2)

end ArrayOf

/-! ## `sanitize_blob` -/

/-- The pointer `sanitize_blob` returns: its argument `blob`, or the shared empty
blob `hb_blob_get_empty ()`. -/
inductive hb_blob_ptr where
  | arg
  | empty
deriving DecidableEq

/-- The state `sanitize_blob` leaves behind: the pointer returned, the blob object
that was passed in, the context and the memory. -/
structure sanitize_blob_result where
  ret : hb_blob_ptr
  blob : hb_blob_t
  c : hb_sanitize_context_t
  mem : Memory

namespace hb_sanitize_context_t

/-- The tail of `sanitize_blob`, from `end_processing ()` on. -/
def sanitize_blob_finish (sane : Bool) (c : hb_sanitize_context_t) (blob : hb_blob_t)
    (m : Memory) : sanitize_blob_result :=
  let e := c.end_processing blob
  if sane then ⟨hb_blob_ptr.arg, e.2.lock, e.1, m⟩
  else ⟨hb_blob_ptr.empty, hb_blob_destroy e.2, e.1, m⟩

/-- The body of `sanitize_blob` from the label `retry:` on; every `goto retry`
takes one unit of fuel. `heap` is the address the allocator hands out for a
writable copy. -/
def sanitize_blob_retry (T : TableType) (heap : Nat) :
    Nat → hb_sanitize_context_t → hb_blob_t → Memory → Option sanitize_blob_result
  | 0, _, _, _ => none
  | fuel + 1, c, blob, m =>
    let c := c.start_processing blob
    if c.start = 0 then
      let e := c.end_processing blob
      some ⟨hb_blob_ptr.arg, e.2, e.1, m⟩
    else
      let t := c.start
      let r := T.sanitize t c m
      if r.ret then
        if r.c.edit_count ≠ 0 then
          let r2 := T.sanitize t { r.c with edit_count := 0 } r.mem
          some (sanitize_blob_finish (r2.ret && decide (r2.c.edit_count = 0)) r2.c blob r2.mem)
        else some (sanitize_blob_finish true r.c blob r.mem)
      else
        if r.c.edit_count ≠ 0 ∧ r.c.writable = false then
          let w := hb_blob_get_data_writable blob r.mem heap
          let c2 := { r.c with start := w.1, end_ := w.1 + w.2.1.length }
          if w.1 ≠ 0 then sanitize_blob_retry T heap fuel { c2 with writable := true } w.2.1 w.2.2
          else some (sanitize_blob_finish false c2 w.2.1 w.2.2)
        else some (sanitize_blob_finish false r.c blob r.mem)

/-- Source: `sanitize_blob<Type> (blob)`. -/
def sanitize_blob (T : TableType) (heap : Nat) (fuel : Nat) (c : hb_sanitize_context_t)
    (blob : hb_blob_t) (m : Memory) : Option sanitize_blob_result :=
  let i := c.init blob
  sanitize_blob_retry T heap fuel i.1 i.2 m

end hb_sanitize_context_t

/-! ## Auxiliary definitions for the statements -/

/-- Memory holding `bytes` from address `base` on, and zero elsewhere. -/
def Memory.of_bytes (base : Nat) (bytes : List (Fin 256)) : Memory :=
  fun a => if base ≤ a then bytes.getD (a - base) 0 else 0

/-- A blob of `length` bytes at address `data`, with one reference. -/
def hb_blob_t.mk_unlocked (data length : Nat) : hb_blob_t :=
  { data := data, length := length, locked := false, ref_count := 1 }

/-- The snapshots of the context span at most an `unsigned int`: `end - start` is a
blob length. It holds of a fresh context and `start_processing`,
`end_processing` and `sanitize_blob` keep it. -/
def hb_sanitize_context_t.spans_blob (c : hb_sanitize_context_t) : Prop :=
  c.end_ - c.start < 2 ^ UINT_BITS

instance (c : hb_sanitize_context_t) : Decidable c.spans_blob :=
  inferInstanceAs (Decidable (c.end_ - c.start < 2 ^ UINT_BITS))

/-- The outcome of the pointee's `sanitize` as `OffsetTo::sanitize` calls it: on the
structure at `base + offset`, with the context left by the two range checks. -/
def OffsetTo.pointee_outcome (T : TableType) (OffsetType : IntType) (this : Nat)
    (c : hb_sanitize_context_t) (m : Memory) (base : Nat) : Outcome :=
  T.sanitize (base + to_unsigned (OffsetType.get m this))
    ((c.check_struct this OffsetType.min_size).2.check_range base
      (to_unsigned (OffsetType.get m this))).2 m

/-- Memory `m'` is `m` with some bytes set to zero. The only write a `sanitize` method of
this file performs is that of `neuter`, which stores zero. -/
def Memory.zeroed (m m' : Memory) : Prop :=
  ∀ a, m' a = m a ∨ m' a = 0

/-- A structure type of `min_size` bytes that references no other structure: its
`sanitize (c)` is `c->check_struct (this)`, as for `LONGDATETIME`, `FixedVersion`
and `BinSearchHeader`. -/
def plain_struct (min_size : Nat) : TableType where
  min_size := min_size
  sanitize := fun this c m => ⟨(c.check_struct this min_size).1, (c.check_struct this min_size).2, m⟩

/-- A parent structure whose only member is an `OffsetTo<T, OffsetType>` measured
from the parent itself, with
`sanitize (c) = c->check_struct (this) && child.sanitize (c, this)`. -/
def parent_struct (T : TableType) (OffsetType : IntType) : TableType where
  min_size := OffsetType.Size
  sanitize := fun this c m =>
    let r1 := c.check_struct this OffsetType.Size
    if !r1.1 then ⟨false, r1.2, m⟩ else OffsetTo.sanitize T OffsetType this r1.2 m this

/-- One call of a checking method of the context. -/
inductive check_call where
  | check_range (base len : Nat)
  | check_array (base record_size len : Nat)
  | check_struct (obj min_size : Nat)

/-- Make the call on the context `c`. -/
def check_call.run (c : hb_sanitize_context_t) : check_call → Bool × hb_sanitize_context_t
  | check_call.check_range base len => c.check_range base len
  | check_call.check_array base record_size len => c.check_array base record_size len
  | check_call.check_struct obj min_size => c.check_struct obj min_size

/-- One validation round on the context `c` (after `start_processing`): the pass
succeeded with `edit_count = 0`, or it succeeded with edits and the immediately
repeated pass, started with `edit_count` reset, succeeded with `edit_count = 0`. -/
def round_accepts (T : TableType) (c : hb_sanitize_context_t) (m : Memory) : Bool :=
  let r := T.sanitize c.start c m
  let r2 := T.sanitize c.start { r.c with edit_count := 0 } r.mem
  r.ret && (decide (r.c.edit_count = 0) || (r2.ret && decide (r2.c.edit_count = 0)))

/-- The context on which the first round runs. -/
def first_round_ctx (c : hb_sanitize_context_t) (blob : hb_blob_t) : hb_sanitize_context_t :=
  (c.init blob).1.start_processing (c.init blob).2

/-- The first pass failed after requesting edits, and the blob handed out a
writable copy: the round is run again on that copy. -/
def retries_writable (T : TableType) (heap : Nat) (c : hb_sanitize_context_t) (blob : hb_blob_t)
    (m : Memory) : Bool :=
  let c0 := first_round_ctx c blob
  let r := T.sanitize c0.start c0 m
  !r.ret && decide (r.c.edit_count ≠ 0) &&
    decide ((hb_blob_get_data_writable (c.init blob).2 r.mem heap).1 ≠ 0)

/-- The context on which the round on the writable copy runs. -/
def second_round_ctx (T : TableType) (heap : Nat) (c : hb_sanitize_context_t) (blob : hb_blob_t)
    (m : Memory) : hb_sanitize_context_t :=
  let c0 := first_round_ctx c blob
  let r := T.sanitize c0.start c0 m
  let w := hb_blob_get_data_writable (c.init blob).2 r.mem heap
  ({ r.c with start := w.1, end_ := w.1 + w.2.1.length, writable := true }).start_processing w.2.1

/-- The memory on which the round on the writable copy runs. -/
def second_round_mem (T : TableType) (heap : Nat) (c : hb_sanitize_context_t) (blob : hb_blob_t)
    (m : Memory) : Memory :=
  let c0 := first_round_ctx c blob
  let r := T.sanitize c0.start c0 m
  (hb_blob_get_data_writable (c.init blob).2 r.mem heap).2.2

/-- The pointer `sanitize_blob` is specified to return: the blob itself when it is
empty or when a round accepts it, the shared empty blob in every other case. -/
def sanitize_blob_expected (T : TableType) (heap : Nat) (c : hb_sanitize_context_t)
    (blob : hb_blob_t) (m : Memory) : hb_blob_ptr :=
  if hb_blob_get_data blob = 0 then hb_blob_ptr.arg
  else if round_accepts T (first_round_ctx c blob) m then hb_blob_ptr.arg
  else if retries_writable T heap c blob m &&
      round_accepts T (second_round_ctx T heap c blob m) (second_round_mem T heap c blob m)
    then hb_blob_ptr.arg
  else hb_blob_ptr.empty

/-- The representable range of the integer stored by `I`: `Size` bytes, two's
complement when the value type is signed. -/
def IntType.in_range (I : IntType) (v : Int) : Prop :=
  if I.type.is_signed then -(2 ^ (8 * I.Size - 1) : Int) ≤ v ∧ v < 2 ^ (8 * I.Size - 1)
  else 0 ≤ v ∧ v < 2 ^ (8 * I.Size)

instance (I : IntType) (v : Int) : Decidable (I.in_range v) := by
  unfold IntType.in_range
  infer_instance

/-- The named scalar types of the source. -/
def named_scalars : List IntType :=
  [HBUINT8, HBINT8, HBUINT16, HBINT16, HBUINT24, HBUINT32, HBINT32]

/-- Integral promotion: a type narrower than `int` (4 bytes) is promoted to `int`. -/
def c_int_type.promote (t : c_int_type) : c_int_type :=
  if t.size < 4 then int32_t else t

/-- The usual arithmetic conversions for two integer types of at most 32 bits: both
are promoted, and the common type is `unsigned int` as soon as one of them is. -/
def usual_arithmetic_type (t1 t2 : c_int_type) : c_int_type :=
  if t1.promote.is_signed && t2.promote.is_signed then int32_t else uint32_t

/-- Source: `IntType::cmp (Type2 a)`, for a key `a` of the integer type `Type2`: the
subtraction in `int` when both types are narrower than `int`, the three-way
comparison, made in the common type, otherwise. -/
def IntType.cmp (I : IntType) (Type2 : c_int_type) (a : Int) (m : Memory) (this : Nat) : Int :=
  let b := I.get m this
  if I.type.size < 4 ∧ Type2.size < 4 then
    int32_t.convert (int32_t.convert a - int32_t.convert b)
  else
    let t := usual_arithmetic_type Type2 I.type
    if t.convert a < t.convert b then -1 else if t.convert a = t.convert b then 0 else 1

/-- Source: `IntType::cmp (const IntType *a, const IntType *b)`, the static
comparator: `b->cmp (*a)`. -/
def IntType.cmp_static (I : IntType) (m : Memory) (a b : Nat) : Int :=
  I.cmp I.type (I.get m a) m b

/-- Source: `IntType::operator == (o)`: `(Type) v == (Type) o.v`. -/
def IntType.eq (I : IntType) (m : Memory) (this o : Nat) : Bool :=
  decide (I.get m this = I.get m o)

/-- An array element type that is compared with a key: its `static_size` and its
method `cmp (x)`, called on the element at a given address. -/
structure KeyedType (Key : Type) where
  static_size : Nat
  cmp : Memory → Nat → Key → Int

/-- An `IntType` as an array element searched by a key of its value type. -/
def IntType.keyed (I : IntType) : KeyedType Int where
  static_size := I.Size
  cmp := fun m this a => I.cmp I.type a m this

namespace SortedArrayOf

/-- The loop of `SortedArrayOf::bsearch`, where `cmp mid` stands for
`arr[mid].cmp (x)`; every iteration takes one unit of fuel. `min`, `max` and `mid`
are `int`s; with a 16-bit length `min + max` stays far below `INT_MAX`. -/
def bsearch_loop (cmp : Int → Int) : Nat → Int → Int → Option Int
  | 0, _, _ => none
  | fuel + 1, min, max =>
    if min ≤ max then
      let mid := (min + max).tdiv 2
      let c := cmp mid
      if c < 0 then bsearch_loop cmp fuel min (mid - 1)
      else if c > 0 then bsearch_loop cmp fuel (mid + 1) max
      else some mid
    else some (-1)

/-- Source: `SortedArrayOf::bsearch (x)`: `min = 0`, `max = (int) len - 1`, and
`arr[mid]` is the element at `arrayZ + mid * static_size`. -/
def bsearch {Key : Type} (LenType : IntType) (E : KeyedType Key) (m : Memory) (this : Nat)
    (x : Key) (fuel : Nat) : Option Int :=
  bsearch_loop (fun mid => E.cmp m (ArrayOf.arrayZ LenType this + mid.toNat * E.static_size) x)
    fuel 0 (to_int (ArrayOf.len LenType m this) - 1)

end SortedArrayOf

/-- The `n` elements at `arr` are strictly ascending as the key `x` sees them
through `cmp`: an element that is not below the key (`cmp ≤ 0`) is followed only
by elements above the key (`cmp < 0`). -/
def SortedArrayOf.ascending_for {Key : Type} (E : KeyedType Key) (m : Memory) (arr n : Nat)
    (x : Key) : Prop :=
  ∀ i j : Nat, i < j → j < n →
    E.cmp m (arr + i * E.static_size) x ≤ 0 → E.cmp m (arr + j * E.static_size) x < 0


/-! ## Null objects -/

/-- An on-disk type as `Null(Type)` sees it: its `static_size`, and the bytes that a
`DEFINE_NULL_DATA (OT, Type, data)` line of the source gives to its Null object, if
there is such a line. -/
structure OnDiskType where
  static_size : Nat
  null_data : Option (List (Fin 256))
deriving DecidableEq

/-- A scalar `IntType<Type, Size>` as an on-disk type; the source has no
`DEFINE_NULL_DATA` line for the plain scalars. -/
def IntType.on_disk (I : IntType) : OnDiskType :=
  { static_size := I.Size, null_data := none }

/-- Source: `struct F2DOT14 : HBINT16`, of static size 2. -/
def F2DOT14 : OnDiskType := { static_size := 2, null_data := none }

/-- Source: `struct Fixed : HBINT32`, of static size 4. -/
def Fixed : OnDiskType := { static_size := 4, null_data := none }

/-- Source: `struct LONGDATETIME`, of static size 8. -/
def LONGDATETIME : OnDiskType := { static_size := 8, null_data := none }

/-- Source: `struct Tag : HBUINT32` with `DEFINE_NULL_DATA (OT, Tag, "    ")`: four
space characters. -/
def Tag : OnDiskType := { static_size := 4, null_data := some [0x20, 0x20, 0x20, 0x20] }

/-- Source: `struct Index : HBUINT16` with `DEFINE_NULL_DATA (OT, Index, "\xff\xff")`. -/
def Index : OnDiskType := { static_size := 2, null_data := some [0xFF, 0xFF] }

/-- Source: `Index::NOT_FOUND_INDEX = 0xFFFFu`. -/
def Index.NOT_FOUND_INDEX : Nat := 0xFFFF

/-- Source: `struct CheckSum : HBUINT32`, of static size 4. -/
def CheckSum : OnDiskType := { static_size := 4, null_data := none }

/-- The scalar and fixed-size types that the source declares up to `CheckSum`. -/
def core_types : List OnDiskType :=
  [HBUINT8.on_disk, HBINT8.on_disk, HBUINT16.on_disk, HBINT16.on_disk, HBUINT32.on_disk,
   HBINT32.on_disk, HBUINT24.on_disk, F2DOT14, Fixed, LONGDATETIME, Tag, Index, CheckSum]

/-- Modelled from the spec: `Null(Type)`, whose template and whose `DEFINE_NULL_DATA`
macro are in the absent `hb-private.hh`. The shared Null object of a type is a
zero-initialized instance of `static_size` bytes, except that a type with a
`DEFINE_NULL_DATA` line has the bytes of that line. -/
def Null (T : OnDiskType) : List (Fin 256) :=
  match T.null_data with
  | some data => data
  | none => List.replicate T.static_size 0

/-- The bytes of the object that a reference returned by a read accessor designates:
the Null object of `T`, or the `static_size` bytes at the address. The Crap pool is
scratch for writes and has no defined content. -/
def ObjRef.bytes (T : OnDiskType) (m : Memory) : ObjRef → Option (List (Fin 256))
  | ObjRef.Null => some (OT.Null T)
  | ObjRef.Crap => none
  | ObjRef.At p => some ((List.range T.static_size).map (fun k => m (p + k)))

/-- The value that the scalar `I` has when laid over `bytes`. -/
def IntType.of_bytes (I : IntType) (bytes : List (Fin 256)) : Int :=
  I.get (Memory.of_bytes 0 bytes) 0

/-- Source: `ArrayOf::operator [] (unsigned int i) const`:
`if (unlikely (i >= len)) return Null(Type); return arrayZ[i];`. -/
def ArrayOf.index (LenType : IntType) (static_size : Nat) (m : Memory) (this : Nat) (i : Nat) :
    ObjRef :=
  if i ≥ ArrayOf.len LenType m this then ObjRef.Null
  else ObjRef.At (ArrayOf.arrayZ LenType this + i * static_size)


/-! ## `HeadlessArrayOf` -/

namespace HeadlessArrayOf

/-- The address of `arrayZ`, the member placed after `len`. -/
def arrayZ (LenType : IntType) (this : Nat) : Nat := this + LenType.Size

/-- The member `len`, read as an `unsigned int`. -/
def len (LenType : IntType) (m : Memory) (this : Nat) : Nat :=
  to_unsigned (LenType.get m this)

/-- Source: `HeadlessArrayOf::operator [] (unsigned int i) const`:
`if (unlikely (i >= len || !i)) return Null(Type); return arrayZ[i-1];`. -/
def index (LenType : IntType) (static_size : Nat) (m : Memory) (this : Nat) (i : Nat) : ObjRef :=
  if i ≥ len LenType m this ∨ i = 0 then ObjRef.Null
  else ObjRef.At (arrayZ LenType this + (i - 1) * static_size)

/-- Source: `HeadlessArrayOf::sanitize_shallow (c)`:
`len.sanitize (c) && (!len || c->check_array (arrayZ, Type::static_size, len - 1))`. -/
def sanitize_shallow (LenType : IntType) (static_size : Nat) (this : Nat)
    (c : hb_sanitize_context_t) (m : Memory) : Bool × hb_sanitize_context_t :=
  let r1 := LenType.sanitize this c
  if !r1.1 then (false, r1.2)
  else if LenType.get m this = 0 then (true, r1.2)
  else r1.2.check_array (arrayZ LenType this) static_size (to_unsigned (LenType.get m this - 1))

/-- Source: `HeadlessArrayOf::sanitize (c)`: the shallow check only; the element
`sanitize` sits in an unevaluated `false && ...`. -/
def sanitize (LenType : IntType) (static_size : Nat) (this : Nat)
    (c : hb_sanitize_context_t) (m : Memory) : Bool × hb_sanitize_context_t :=
  let r := sanitize_shallow LenType static_size this c m
  if !r.1 then (false, r.2) else (true, r.2)

end HeadlessArrayOf


/-! ## `BinSearchHeader` -/

/-- The loop behind `hb_bit_storage`: one bit per halving, at most `fuel` of them. -/
def hb_bit_storage_loop : Nat → Nat → Nat
  | 0, _ => 0
  | fuel + 1, v => if v = 0 then 0 else hb_bit_storage_loop fuel (v / 2) + 1

/-- Modelled from the spec: `hb_bit_storage (v)`, from the absent `hb-private.hh`:
the number of bits needed to represent the `unsigned int` `v` (0 for `v = 0`). -/
def hb_bit_storage (v : Nat) : Nat := hb_bit_storage_loop UINT_BITS v

/-- Modelled from the spec: the macro `MAX (a, b)` of the absent `hb-private.hh`, the
larger of its arguments. -/
def MAX (a b : Nat) : Nat := if a > b then a else b

namespace BinSearchHeader

/-- The address of the member `len`, the first of four `HBUINT16`. -/
def len (this : Nat) : Nat := this

/-- The address of the member `searchRange`. -/
def searchRange (this : Nat) : Nat := this + 2

/-- The address of the member `entrySelector`. -/
def entrySelector (this : Nat) : Nat := this + 4

/-- The address of the member `rangeShift`. -/
def rangeShift (this : Nat) : Nat := this + 6

/-- Source: `BinSearchHeader::set (unsigned int v)`. The result is `none` when
`assert (len == v)` fails. The members are read back where the source reads them,
and the arithmetic is that of `unsigned int`. -/
def set (v : Nat) (m : Memory) (this : Nat) : Option Memory :=
  let m1 := HBUINT16.set (v : Int) m (len this)
  if to_unsigned (HBUINT16.get m1 (len this)) ≠ v then none else
  let m2 := HBUINT16.set ((MAX 1 (hb_bit_storage v) - 1 : Nat) : Int) m1 (entrySelector this)
  let e := to_unsigned (HBUINT16.get m2 (entrySelector this))
  let m3 := HBUINT16.set (((16 * ((1 <<< e) % 2 ^ UINT_BITS)) % 2 ^ UINT_BITS : Nat) : Int) m2
    (searchRange this)
  let sr := to_unsigned (HBUINT16.get m3 (searchRange this))
  let m4 := HBUINT16.set
    (if (v * 16) % 2 ^ UINT_BITS > sr then (to_unsigned ((16 * v : Nat) - (sr : Int)) : Int) else 0)
    m3 (rangeShift this)
  some m4

end BinSearchHeader


/-! ## The serialize context -/

/-- Fill the `n` bytes at `p` with the byte `b` (`memset`). -/
def Memory.memset (m : Memory) (p : Nat) (b : Fin 256) (n : Nat) : Memory :=
  fun a => if p ≤ a ∧ a < p + n then b else m a

/-- Source: `hb_serialize_context_t`. `end_` is the C++ member `end`. -/
structure hb_serialize_context_t where
  debug_depth : Nat
  start : Nat
  end_ : Nat
  head : Nat
  ran_out_of_room : Bool
deriving DecidableEq

/-- What a method of the serialize context leaves behind: the pointer it returns
(0 is `nullptr`), the context and the memory. -/
structure SerializeOutcome where
  ret : Nat
  c : hb_serialize_context_t
  mem : Memory

namespace hb_serialize_context_t

/-- The constructor `hb_serialize_context_t (void *start_, unsigned int size)`. -/
def new (start_ size : Nat) : hb_serialize_context_t :=
  { start := start_, end_ := start_ + size, ran_out_of_room := false, head := start_,
    debug_depth := 0 }

/-- Source: `allocate_size<Type> (size)`. The test is
`ran_out_of_room || end - head < ptrdiff_t (size)`, a signed comparison;
`ptrdiff_t` is wider than `unsigned int`, so the conversion keeps the value. -/
def allocate_size (c : hb_serialize_context_t) (m : Memory) (size : Nat) : SerializeOutcome :=
  if c.ran_out_of_room = true ∨ (c.end_ : Int) - (c.head : Int) < (size : Int) then
    ⟨0, { c with ran_out_of_room := true }, m⟩
  else
    let m1 := m.memset c.head 0 size
    let ret := c.head
    ⟨ret, { c with head := c.head + size }, m1⟩

/-- Source: `allocate_min<Type> ()`: `allocate_size<Type> (Type::min_size)`. -/
def allocate_min (c : hb_serialize_context_t) (m : Memory) (min_size : Nat) : SerializeOutcome :=
  c.allocate_size m min_size

/-- Source: `start_embed<Type> ()`: the current `head`; nothing changes. -/
def start_embed (c : hb_serialize_context_t) (m : Memory) : SerializeOutcome :=
  ⟨c.head, c, m⟩

/-- Source: `start_serialize<Type> ()`: `start_embed<Type> ()`. -/
def start_serialize (c : hb_serialize_context_t) (m : Memory) : SerializeOutcome :=
  c.start_embed m

/-- Source: `embed (obj)` for an object at address `obj` with `obj.get_size () = size`:
`allocate_size`, then `memcpy (ret, obj, size)`. The source hands `obj` itself to
`memcpy`, which takes the object's bytes for a type that converts to a pointer to
them; the copy is from the object's address. -/
def embed (c : hb_serialize_context_t) (m : Memory) (obj size : Nat) : SerializeOutcome :=
  let r := c.allocate_size m size
  if r.ret = 0 then ⟨0, r.c, r.mem⟩
  else ⟨r.ret, r.c, r.mem.clone obj r.ret size⟩

/-- Source: `extend_min (obj)` with `obj.min_size = min_size`. The result is `none`
when the assertion
`start <= &obj && &obj <= head && &obj + size >= head` fails. The argument of
`allocate_size` is converted to `unsigned int`. -/
def extend_min (c : hb_serialize_context_t) (m : Memory) (obj min_size : Nat) :
    Option SerializeOutcome :=
  let size := min_size
  if ¬ (c.start ≤ obj ∧ obj ≤ c.head ∧ obj + size ≥ c.head) then none else
  let r := c.allocate_size m (to_unsigned (((obj + size : Nat) : Int) - (c.head : Int)))
  if r.ret = 0 then some ⟨0, r.c, r.mem⟩ else some ⟨obj, r.c, r.mem⟩

/-- Source: `extend (obj)` with `obj.get_size () = size`. The result is `none` when
the assertion `start < &obj && &obj <= head && &obj + size >= head` fails. -/
def extend (c : hb_serialize_context_t) (m : Memory) (obj size : Nat) :
    Option SerializeOutcome :=
  if ¬ (c.start < obj ∧ obj ≤ c.head ∧ obj + size ≥ c.head) then none else
  let r := c.allocate_size m (to_unsigned (((obj + size : Nat) : Int) - (c.head : Int)))
  if r.ret = 0 then some ⟨0, r.c, r.mem⟩ else some ⟨obj, r.c, r.mem⟩

/-- Source: `truncate (new_head)`. The result is `none` when the assertion
`start < new_head && new_head <= head` fails. -/
def truncate (c : hb_serialize_context_t) (new_head : Nat) : Option hb_serialize_context_t :=
  if ¬ (c.start < new_head ∧ new_head ≤ c.head) then none
  else some { c with head := new_head }

/-- The invariant `start ≤ head ≤ end` of the serialize context. -/
def valid (c : hb_serialize_context_t) : Prop :=
  c.start ≤ c.head ∧ c.head ≤ c.end_

instance (c : hb_serialize_context_t) : Decidable c.valid := by
  unfold valid
  infer_instance

end hb_serialize_context_t


/-! ## Serializing offsets -/

/-- Source: `typedef Offset<HBUINT16> Offset16`. -/
def Offset16 : IntType := HBUINT16

/-- Source: `typedef Offset<HBUINT32> Offset32`. -/
def Offset32 : IntType := HBUINT32

/-- Source: `Offset<Type>::serialize (c, base)` on the offset at address `this`:
`t = c->start_embed<void> (); this->set ((char *) t - (char *) base); return t;`.
`set` converts the pointer difference to the value type of the offset. -/
def Offset.serialize (OffsetType : IntType) (this : Nat) (c : hb_serialize_context_t)
    (m : Memory) (base : Nat) : SerializeOutcome :=
  let t := c.start_embed m
  ⟨t.ret, t.c, OffsetType.set ((t.ret : Int) - (base : Int)) t.mem this⟩

/-- Source: `OffsetTo::serialize (c, base)`: the object at the address that
`Offset<OffsetType>::serialize (c, base)` returns. -/
def OffsetTo.serialize (OffsetType : IntType) (this : Nat) (c : hb_serialize_context_t)
    (m : Memory) (base : Nat) : SerializeOutcome :=
  Offset.serialize OffsetType this c m base


/-- The body of `sanitize_blob` from the label `retry:` on, as `sanitize_blob_retry`,
together with two counters: the number of validation passes, that is of runs of
`start_processing ()`, and the number of invocations of `T::sanitize`. -/
def hb_sanitize_context_t.sanitize_blob_retry_counted (T : TableType) (heap : Nat) :
    Nat → hb_sanitize_context_t → hb_blob_t → Memory → Option (sanitize_blob_result × Nat × Nat)
  | 0, _, _, _ => none
  | fuel + 1, c, blob, m =>
    let c := c.start_processing blob
    if c.start = 0 then
      let e := c.end_processing blob
      some (⟨hb_blob_ptr.arg, e.2, e.1, m⟩, 1, 0)
    else
      let t := c.start
      let r := T.sanitize t c m
      if r.ret then
        if r.c.edit_count ≠ 0 then
          let r2 := T.sanitize t { r.c with edit_count := 0 } r.mem
          some (hb_sanitize_context_t.sanitize_blob_finish
            (r2.ret && decide (r2.c.edit_count = 0)) r2.c blob r2.mem, 1, 2)
        else some (hb_sanitize_context_t.sanitize_blob_finish true r.c blob r.mem, 1, 1)
      else
        if r.c.edit_count ≠ 0 ∧ r.c.writable = false then
          let w := hb_blob_get_data_writable blob r.mem heap
          let c2 := { r.c with start := w.1, end_ := w.1 + w.2.1.length }
          if w.1 ≠ 0 then
            (sanitize_blob_retry_counted T heap fuel { c2 with writable := true } w.2.1 w.2.2).map
              (fun x => (x.1, x.2.1 + 1, x.2.2 + 1))
          else some (hb_sanitize_context_t.sanitize_blob_finish false c2 w.2.1 w.2.2, 1, 1)
        else some (hb_sanitize_context_t.sanitize_blob_finish false r.c blob r.mem, 1, 1)

/-- Source: `sanitize_blob<Type> (blob)`, with the counters of
`sanitize_blob_retry_counted`. -/
def hb_sanitize_context_t.sanitize_blob_counted (T : TableType) (heap : Nat) (fuel : Nat)
    (c : hb_sanitize_context_t) (blob : hb_blob_t) (m : Memory) :
    Option (sanitize_blob_result × Nat × Nat) :=
  let i := c.init blob
  hb_sanitize_context_t.sanitize_blob_retry_counted T heap fuel i.1 i.2 m


/-! ## `bsearch` with the indices it reads -/

/-- The loop of `SortedArrayOf::bsearch`, as `bsearch_loop`, together with the list
of the indices `mid` at which `arr[mid].cmp (x)` is evaluated, in the order of
evaluation. -/
def SortedArrayOf.bsearch_loop_traced (cmp : Int → Int) : Nat → Int → Int → Option (Int × List Int)
  | 0, _, _ => none
  | fuel + 1, min, max =>
    if min ≤ max then
      let mid := (min + max).tdiv 2
      let c := cmp mid
      if c < 0 then
        (bsearch_loop_traced cmp fuel min (mid - 1)).map (fun r => (r.1, mid :: r.2))
      else if c > 0 then
        (bsearch_loop_traced cmp fuel (mid + 1) max).map (fun r => (r.1, mid :: r.2))
      else some (mid, [mid])
    else some (-1, [])

/-- Source: `SortedArrayOf::bsearch (x)`, as `bsearch`, together with the indices
read. -/
def SortedArrayOf.bsearch_traced {Key : Type} (LenType : IntType) (E : KeyedType Key)
    (m : Memory) (this : Nat) (x : Key) (fuel : Nat) : Option (Int × List Int) :=
  SortedArrayOf.bsearch_loop_traced
    (fun mid => E.cmp m (ArrayOf.arrayZ LenType this + mid.toNat * E.static_size) x)
    fuel 0 (to_int (ArrayOf.len LenType m this) - 1)


/-! ## Per-element sanitization of an array -/

/-- The loop of per-element sanitization for an element type without offsets, whose
own `sanitize (c)` is `c->check_struct (this)` on its `static_size` bytes: the
elements are sanitized in order, `n` of them being left before element `i`, and the
first false ends the loop. -/
def ArrayOf.per_element_loop (static_size arr : Nat) :
    Nat → Nat → hb_sanitize_context_t → Bool × hb_sanitize_context_t
  | 0, _, c => (true, c)
  | n + 1, i, c =>
    let r := c.check_struct (arr + i * static_size) static_size
    if !r.1 then (false, r.2) else per_element_loop static_size arr n (i + 1) r.2

/-- Per-element sanitization as the specification words it: sanitize the length
field, then call each of the `len` elements' own `sanitize` in order, failing on the
first false. -/
def ArrayOf.sanitize_per_element (LenType : IntType) (static_size : Nat) (this : Nat)
    (c : hb_sanitize_context_t) (m : Memory) : Bool × hb_sanitize_context_t :=
  let r1 := LenType.sanitize this c
  if !r1.1 then (false, r1.2)
  else ArrayOf.per_element_loop static_size (ArrayOf.arrayZ LenType this)
    (ArrayOf.len LenType m this) 0 r1.2


/-! ## Paint extents (`hb-paint-extents.hh`) -/

/-- Modelled from the spec: `hb_vector_t<Type>` (`hb-vector.hh` is not among the
sources), the stack behind the three members of the paint-extents context: `push`
appends an entry, `pop` removes the last entry and returns it, `tail` is the last
entry. -/
structure hb_vector_t (α : Type) where
  arrayZ : List α
deriving DecidableEq

namespace hb_vector_t

/-- Modelled from the spec: the empty `hb_vector_t` a member starts as
(`hb-vector.hh` is not among the sources). -/
def init {α : Type} : hb_vector_t α := ⟨[]⟩

/-- Modelled from the spec: `push (v)` adds `v` on top (`hb-vector.hh` is not among
the sources). -/
def push {α : Type} (this : hb_vector_t α) (v : α) : hb_vector_t α :=
  ⟨this.arrayZ ++ [v]⟩

/-- Modelled from the spec: `tail ()`, the entry on top (`hb-vector.hh` is not among
the sources); `null` stands for what an empty vector yields. -/
def tail {α : Type} (this : hb_vector_t α) (null : α) : α :=
  this.arrayZ.getLastD null

/-- Modelled from the spec: `pop ()` removes the entry on top and returns it
(`hb-vector.hh` is not among the sources); `null` stands for what an empty vector
yields, and an empty vector stays empty. -/
def pop {α : Type} (this : hb_vector_t α) (null : α) : α × hb_vector_t α :=
  (this.arrayZ.getLastD null, ⟨this.arrayZ.dropLast⟩)

end hb_vector_t

/-- Source: `hb_transform_t`. `F` is the type of the coefficients, `float` in the
source, with its addition and multiplication. -/
structure hb_transform_t (F : Type) where
  xx : F
  yx : F
  xy : F
  yy : F
  x0 : F
  y0 : F
deriving DecidableEq

namespace hb_transform_t

/-- Source: `hb_transform_t ()` with the default member initializers
`xx = 1, yx = 0, xy = 0, yy = 1, x0 = 0, y0 = 0`: the identity. -/
def new {F : Type} [Zero F] [One F] : hb_transform_t F :=
  { xx := 1, yx := 0, xy := 0, yy := 1, x0 := 0, y0 := 0 }

/-- The zeroed transform, what the shared Null and Crap objects hold. -/
def zeroed {F : Type} [Zero F] : hb_transform_t F :=
  { xx := 0, yx := 0, xy := 0, yy := 0, x0 := 0, y0 := 0 }

/-- Source: `hb_transform_t::multiply (o)`; the result is the new value of `*this`. -/
def multiply {F : Type} [Add F] [Mul F] (this o : hb_transform_t F) : hb_transform_t F :=
  { xx := o.xx * this.xx + o.yx * this.xy
    yx := o.xx * this.yx + o.yx * this.yy
    xy := o.xy * this.xx + o.yy * this.xy
    yy := o.xy * this.yx + o.yy * this.yy
    x0 := o.x0 * this.xx + o.y0 * this.xy + this.x0
    y0 := o.x0 * this.yx + o.y0 * this.yy + this.y0 }

end hb_transform_t

/-- Modelled from the spec: `hb_glyph_extents_t`, four positions (`hb-font.h` is not
among the sources). -/
structure hb_glyph_extents_t where
  x_bearing : Int
  y_bearing : Int
  width : Int
  height : Int
deriving DecidableEq

/-- Source: `hb_bounds_t`. -/
structure hb_bounds_t where
  bounded : Bool
  extents : hb_glyph_extents_t
deriving DecidableEq

/-- Source: `hb_bounds_t ()` with the default member initializers
`bounded = false, extents = {0, 0, 0, 0}`: unbounded. -/
def hb_bounds_t.new : hb_bounds_t :=
  { bounded := false, extents := ⟨0, 0, 0, 0⟩ }

/-- Source: `hb_bounds_t (extents)`: `bounded (true), extents (extents)`. -/
def hb_bounds_t.of_extents (extents : hb_glyph_extents_t) : hb_bounds_t :=
  { bounded := true, extents := extents }

/-- Source: `hb_paint_extents_context_t`. -/
structure hb_paint_extents_context_t (F : Type) where
  clips : hb_vector_t hb_bounds_t
  bounds : hb_vector_t hb_bounds_t
  transforms : hb_vector_t (hb_transform_t F)
deriving DecidableEq

namespace hb_paint_extents_context_t

/-- Source: the constructor `hb_paint_extents_context_t ()`. -/
def new {F : Type} [Zero F] [One F] : hb_paint_extents_context_t F :=
  { clips := hb_vector_t.init.push hb_bounds_t.new
    bounds := hb_vector_t.init.push hb_bounds_t.new
    transforms := hb_vector_t.init.push hb_transform_t.new }

/-- Source: `push_transform (trans)`:
`r = transforms.tail (); r.multiply (trans); transforms.push (r);`. -/
def push_transform {F : Type} [Zero F] [Add F] [Mul F] (c : hb_paint_extents_context_t F)
    (trans : hb_transform_t F) : hb_paint_extents_context_t F :=
  let r := c.transforms.tail hb_transform_t.zeroed
  let r := r.multiply trans
  { c with transforms := c.transforms.push r }

/-- Source: `pop_transform ()`: `transforms.pop ();`. -/
def pop_transform {F : Type} [Zero F] (c : hb_paint_extents_context_t F) :
    hb_paint_extents_context_t F :=
  { c with transforms := (c.transforms.pop hb_transform_t.zeroed).2 }

/-- Source: `push_clip (extents)`: `hb_bounds_t b {extents}; clips.push (b);`. -/
def push_clip {F : Type} (c : hb_paint_extents_context_t F) (extents : hb_glyph_extents_t) :
    hb_paint_extents_context_t F :=
  let b := hb_bounds_t.of_extents extents
  { c with clips := c.clips.push b }

/-- Source: `pop_clip ()`: `clips.pop ();`. -/
def pop_clip {F : Type} (c : hb_paint_extents_context_t F) : hb_paint_extents_context_t F :=
  { c with clips := (c.clips.pop hb_bounds_t.new).2 }

/-- Source: `push_group ()`: `bounds.push (hb_bounds_t{});`. -/
def push_group {F : Type} (c : hb_paint_extents_context_t F) : hb_paint_extents_context_t F :=
  { c with bounds := c.bounds.push hb_bounds_t.new }

/-- Source: `pop_group ()`: `return bounds.pop ();`. -/
def pop_group {F : Type} (c : hb_paint_extents_context_t F) :
    hb_bounds_t × hb_paint_extents_context_t F :=
  ((c.bounds.pop hb_bounds_t.new).1, { c with bounds := (c.bounds.pop hb_bounds_t.new).2 })

/-- Source: `add_extents (extents)`, whose body is a `TODO`: nothing happens. -/
def add_extents {F : Type} (c : hb_paint_extents_context_t F) (_extents : hb_glyph_extents_t) :
    hb_paint_extents_context_t F :=
  c

end hb_paint_extents_context_t

/-- One call of a method of the paint-extents context. -/
inductive paint_call (F : Type) where
  | push_transform (trans : hb_transform_t F)
  | pop_transform
  | push_clip (extents : hb_glyph_extents_t)
  | pop_clip
  | push_group
  | pop_group
  | add_extents (extents : hb_glyph_extents_t)

/-- Make the call on the context `c`. -/
def paint_call.run {F : Type} [Zero F] [Add F] [Mul F] (c : hb_paint_extents_context_t F) :
    paint_call F → hb_paint_extents_context_t F
  | paint_call.push_transform t => c.push_transform t
  | paint_call.pop_transform => c.pop_transform
  | paint_call.push_clip e => c.push_clip e
  | paint_call.pop_clip => c.pop_clip
  | paint_call.push_group => c.push_group
  | paint_call.pop_group => c.pop_group.2
  | paint_call.add_extents e => c.add_extents e

section lemmas

open hb_sanitize_context_t

theorem check_range_fst (c : hb_sanitize_context_t) (p n : Nat) :
    (c.check_range p n).1 = (decide (0 < c.max_ops) && decide (c.start ≤ p) &&
      decide (p ≤ c.end_) && decide (n ≤ (c.end_ - p) % 2 ^ UINT_BITS)) := rfl

theorem check_range_true_iff (c : hb_sanitize_context_t) (p n : Nat) (hc : c.spans_blob) :
    (c.check_range p n).1 = true ↔ 0 < c.max_ops ∧ c.start ≤ p ∧ p + n ≤ c.end_ := by
  unfold spans_blob UINT_BITS at hc
  simp only [check_range_fst, UINT_BITS, Bool.and_eq_true, decide_eq_true_eq]
  constructor
  · rintro ⟨⟨⟨h0, h1⟩, h2⟩, h3⟩
    have h4 : (c.end_ - p) % 2 ^ 32 = c.end_ - p := Nat.mod_eq_of_lt (by omega)
    rw [h4] at h3
    omega
  · rintro ⟨h0, h1, h2⟩
    have h4 : (c.end_ - p) % 2 ^ 32 = c.end_ - p := Nat.mod_eq_of_lt (by omega)
    rw [h4]
    refine ⟨⟨⟨h0, h1⟩, ?_⟩, ?_⟩ <;> omega

theorem start_processing_spans_blob (c : hb_sanitize_context_t) (b : hb_blob_t)
    (h : b.length < 2 ^ 32) : (c.start_processing b).spans_blob := by
  show hb_blob_get_data b + b.length - hb_blob_get_data b < 2 ^ UINT_BITS
  unfold UINT_BITS
  omega

theorem check_range_spans_blob (c : hb_sanitize_context_t) (p n : Nat) (hc : c.spans_blob) :
    (c.check_range p n).2.spans_blob := hc

theorem check_array_eq_of_lt (c : hb_sanitize_context_t) (base rs n : Nat)
    (h : rs * n < 2 ^ UINT_BITS) :
    c.check_array base rs n = c.check_range base (rs * n) := by
  have h1 : hb_unsigned_mul_overflows n rs = false := by
    simp only [hb_unsigned_mul_overflows, decide_eq_false_iff_not, not_le]
    rwa [Nat.mul_comm]
  simp only [check_array, h1, Nat.mod_eq_of_lt h]
  rfl

theorem check_array_of_overflow (c : hb_sanitize_context_t) (base rs n : Nat)
    (h : 2 ^ UINT_BITS ≤ rs * n) :
    c.check_array base rs n = (false, c) := by
  have h1 : hb_unsigned_mul_overflows n rs = true := by
    simp only [hb_unsigned_mul_overflows, decide_eq_true_eq]
    rwa [Nat.mul_comm]
  simp only [check_array, h1]
  rfl

theorem check_array_true_iff (c : hb_sanitize_context_t) (base rs n : Nat) (hc : c.spans_blob) :
    (c.check_array base rs n).1 = true ↔
      0 < c.max_ops ∧ c.start ≤ base ∧ base + rs * n ≤ c.end_ := by
  by_cases h : rs * n < 2 ^ UINT_BITS
  · rw [check_array_eq_of_lt c base rs n h, check_range_true_iff c base _ hc]
  · rw [check_array_of_overflow c base rs n (by omega)]
    unfold spans_blob at hc
    constructor
    · intro h1
      exact absurd h1 (by simp)
    · rintro ⟨_, h1, h2⟩
      omega

theorem IntType.set_frame (I : IntType) (v : Int) (m : Memory) (p a : Nat)
    (h : a < p ∨ p + I.Size ≤ a) : I.set v m p a = m a := by
  obtain ⟨t, S⟩ := I
  simp only at h
  rcases S with _ | _ | _ | _ | _ | S <;>
    simp only [IntType.set, BEInt.set, Memory.write] <;>
    (repeat' split) <;> first | rfl | omega

theorem IntType.get_congr (I : IntType) (m1 m2 : Memory) (p : Nat)
    (h : ∀ a, p ≤ a → a < p + I.Size → m1 a = m2 a) : I.get m1 p = I.get m2 p := by
  obtain ⟨t, S⟩ := I
  simp only at h
  rcases S with _ | _ | _ | _ | _ | S
  · rfl
  · simp only [IntType.get, BEInt.get, h p (by omega) (by omega)]
  · simp only [IntType.get, BEInt.get, h p (by omega) (by omega), h (p + 1) (by omega) (by omega)]
  · simp only [IntType.get, BEInt.get, h p (by omega) (by omega), h (p + 1) (by omega) (by omega),
      h (p + 2) (by omega) (by omega)]
  · simp only [IntType.get, BEInt.get, h p (by omega) (by omega), h (p + 1) (by omega) (by omega),
      h (p + 2) (by omega) (by omega), h (p + 3) (by omega) (by omega)]
  · rfl

theorem c_int_type.convert_zero (t : c_int_type) : t.convert 0 = 0 := by
  simp [c_int_type.convert]

theorem to_uint8_zero : to_uint8 0 = 0 := rfl

theorem IntType.get_set_zero (I : IntType) (m : Memory) (p : Nat) :
    I.get (I.set 0 m p) p = 0 := by
  obtain ⟨t, S⟩ := I
  rcases S with _ | _ | _ | _ | _ | S <;>
    simp [IntType.get, IntType.set, BEInt.get, BEInt.set, Memory.write, c_int_type.convert_zero,
      to_uint8_zero]

theorem to_unsigned_zero : to_unsigned 0 = 0 := rfl

/-- What `try_set` does, by the two outcomes of `may_edit`. -/
theorem try_set_eq (c : hb_sanitize_context_t) (m : Memory) (I : IntType) (obj : Nat) (v : Int) :
    c.try_set m I obj v =
      if c.edit_count < HB_SANITIZE_MAX_EDITS then
        (if c.writable then ⟨true, { c with edit_count := c.edit_count + 1 }, I.set v m obj⟩
         else ⟨false, { c with edit_count := c.edit_count + 1 }, m⟩)
      else ⟨false, c, m⟩ := by
  unfold try_set may_edit
  by_cases h : HB_SANITIZE_MAX_EDITS ≤ c.edit_count
  · simp [h, Nat.not_lt.mpr h]
  · simp only [h, if_false, Nat.lt_of_not_le h, if_true]

theorem try_set_frame (c : hb_sanitize_context_t) (m : Memory) (I : IntType) (obj : Nat)
    (v : Int) (a : Nat) (h : a < obj ∨ obj + I.Size ≤ a) : (c.try_set m I obj v).mem a = m a := by
  rw [try_set_eq]
  split
  · split
    · exact IntType.set_frame I v m obj a h
    · rfl
  · rfl

/-- The five ways through `OffsetTo::sanitize`. -/
theorem OffsetTo_sanitize_cases (T : TableType) (O : IntType) (this : Nat)
    (c : hb_sanitize_context_t) (m : Memory) (base : Nat) :
    ((c.check_struct this O.min_size).1 = false ∧
      OffsetTo.sanitize T O this c m base = ⟨false, (c.check_struct this O.min_size).2, m⟩) ∨
    ((c.check_struct this O.min_size).1 = true ∧ to_unsigned (O.get m this) = 0 ∧
      OffsetTo.sanitize T O this c m base = ⟨true, (c.check_struct this O.min_size).2, m⟩) ∨
    ((c.check_struct this O.min_size).1 = true ∧ to_unsigned (O.get m this) ≠ 0 ∧
      ((c.check_struct this O.min_size).2.check_range base (to_unsigned (O.get m this))).1 = false ∧
      OffsetTo.sanitize T O this c m base =
        ⟨false, ((c.check_struct this O.min_size).2.check_range base
          (to_unsigned (O.get m this))).2, m⟩) ∨
    ((c.check_struct this O.min_size).1 = true ∧ to_unsigned (O.get m this) ≠ 0 ∧
      ((c.check_struct this O.min_size).2.check_range base (to_unsigned (O.get m this))).1 = true ∧
      (T.sanitize (base + to_unsigned (O.get m this))
        ((c.check_struct this O.min_size).2.check_range base
          (to_unsigned (O.get m this))).2 m).ret = true ∧
      OffsetTo.sanitize T O this c m base =
        T.sanitize (base + to_unsigned (O.get m this))
          ((c.check_struct this O.min_size).2.check_range base
            (to_unsigned (O.get m this))).2 m) ∨
    ((c.check_struct this O.min_size).1 = true ∧ to_unsigned (O.get m this) ≠ 0 ∧
      ((c.check_struct this O.min_size).2.check_range base (to_unsigned (O.get m this))).1 = true ∧
      (T.sanitize (base + to_unsigned (O.get m this))
        ((c.check_struct this O.min_size).2.check_range base
          (to_unsigned (O.get m this))).2 m).ret = false ∧
      OffsetTo.sanitize T O this c m base =
        OffsetTo.neuter O this
          (T.sanitize (base + to_unsigned (O.get m this))
            ((c.check_struct this O.min_size).2.check_range base
              (to_unsigned (O.get m this))).2 m).c
          (T.sanitize (base + to_unsigned (O.get m this))
            ((c.check_struct this O.min_size).2.check_range base
              (to_unsigned (O.get m this))).2 m).mem) := by
  unfold OffsetTo.sanitize StructAtOffset
  simp only [Bool.not_eq_true']
  split_ifs with h1 h2 h3 h4 <;> simp_all

theorem neuter_mem_get (O : IntType) (this : Nat) (c : hb_sanitize_context_t) (m : Memory)
    (h : (OffsetTo.neuter O this c m).ret = true) :
    O.get (OffsetTo.neuter O this c m).mem this = 0 := by
  unfold OffsetTo.neuter at h ⊢
  rw [try_set_eq] at h ⊢
  split_ifs at h ⊢ with h1 h2
  exact IntType.get_set_zero O m this

theorem sanitize_blob_retry_empty (T : TableType) (heap f : Nat) (c : hb_sanitize_context_t)
    (blob : hb_blob_t) (m : Memory) (h : (c.start_processing blob).start = 0) :
    sanitize_blob_retry T heap (f + 1) c blob m =
      some ⟨hb_blob_ptr.arg, hb_blob_destroy blob,
        ((c.start_processing blob).end_processing blob).1, m⟩ := by
  rw [sanitize_blob_retry]
  simp only [h, if_true]
  rfl

/-- A round that does not `goto retry` ends in the tail of `sanitize_blob`, with
`sane` as the specification words it. -/
theorem sanitize_blob_retry_final (T : TableType) (heap f : Nat) (c : hb_sanitize_context_t)
    (blob : hb_blob_t) (m : Memory) (hs : (c.start_processing blob).start ≠ 0)
    (h : (T.sanitize (c.start_processing blob).start (c.start_processing blob) m).ret = true ∨
      (T.sanitize (c.start_processing blob).start (c.start_processing blob) m).c.edit_count = 0 ∨
      (T.sanitize (c.start_processing blob).start (c.start_processing blob) m).c.writable = true ∨
      (hb_blob_get_data_writable blob
        (T.sanitize (c.start_processing blob).start (c.start_processing blob) m).mem heap).1 = 0) :
    ∃ c1 m1, sanitize_blob_retry T heap (f + 1) c blob m =
      some (sanitize_blob_finish (round_accepts T (c.start_processing blob) m) c1 blob m1) := by
  rw [sanitize_blob_retry]
  simp only [hs, if_false, round_accepts]
  by_cases h1 : (T.sanitize (c.start_processing blob).start (c.start_processing blob) m).ret = true
  · simp only [h1, if_true, Bool.true_and]
    by_cases h2 : (T.sanitize (c.start_processing blob).start (c.start_processing blob)
        m).c.edit_count = 0
    · simp only [h2, ne_eq, not_true_eq_false, if_false, decide_True, Bool.true_or]
      exact ⟨_, _, rfl⟩
    · simp only [h2, ne_eq, not_false_eq_true, if_true, decide_False, Bool.false_or]
      exact ⟨_, _, rfl⟩
  · have h1f : (T.sanitize (c.start_processing blob).start (c.start_processing blob) m).ret
        = false := by simpa using h1
    simp only [h1f, Bool.false_and, Bool.false_eq_true, if_false]
    by_cases h2 : (T.sanitize (c.start_processing blob).start (c.start_processing blob)
        m).c.edit_count ≠ 0 ∧
        (T.sanitize (c.start_processing blob).start (c.start_processing blob)
        m).c.writable = false
    · have h3 : (hb_blob_get_data_writable blob
        (T.sanitize (c.start_processing blob).start (c.start_processing blob) m).mem heap).1
          = 0 := by
        rcases h with h | h | h | h
        · exact absurd h h1
        · exact absurd h h2.1
        · rw [h2.2] at h; exact absurd h (by simp)
        · exact h
      have h4 : (hb_blob_get_data_writable blob
        (T.sanitize (c.start_processing blob).start (c.start_processing blob) m).mem heap).2.1
          = blob := by
        unfold hb_blob_get_data_writable at h3 ⊢
        split_ifs at h3 ⊢ with h5
        · rfl
        · simp only [Bool.or_eq_true, decide_eq_true_eq, not_or] at h5
          exact absurd h3 h5.2
      rw [if_pos h2]
      simp only [h3, ne_eq, not_true_eq_false, if_false, h4]
      exact ⟨_, _, rfl⟩
    · rw [if_neg h2]
      exact ⟨_, _, rfl⟩

theorem sanitize_blob_retry_again (T : TableType) (heap f : Nat) (c : hb_sanitize_context_t)
    (blob : hb_blob_t) (m : Memory) (hs : (c.start_processing blob).start ≠ 0)
    (h1 : (T.sanitize (c.start_processing blob).start (c.start_processing blob) m).ret = false)
    (h2 : (T.sanitize (c.start_processing blob).start (c.start_processing blob) m).c.edit_count
      ≠ 0)
    (h3 : (T.sanitize (c.start_processing blob).start (c.start_processing blob) m).c.writable
      = false)
    (h4 : (hb_blob_get_data_writable blob
        (T.sanitize (c.start_processing blob).start (c.start_processing blob) m).mem heap).1 ≠ 0) :
    sanitize_blob_retry T heap (f + 1) c blob m =
      sanitize_blob_retry T heap f
        { (T.sanitize (c.start_processing blob).start (c.start_processing blob) m).c with
          start := (hb_blob_get_data_writable blob
            (T.sanitize (c.start_processing blob).start (c.start_processing blob) m).mem heap).1
          end_ := (hb_blob_get_data_writable blob
            (T.sanitize (c.start_processing blob).start (c.start_processing blob) m).mem heap).1 +
            (hb_blob_get_data_writable blob
            (T.sanitize (c.start_processing blob).start (c.start_processing blob)
              m).mem heap).2.1.length
          writable := true }
        (hb_blob_get_data_writable blob
          (T.sanitize (c.start_processing blob).start (c.start_processing blob) m).mem heap).2.1
        (hb_blob_get_data_writable blob
          (T.sanitize (c.start_processing blob).start (c.start_processing blob) m).mem heap).2.2
      := by
  rw [sanitize_blob_retry]
  simp only [hs, if_false, h1, Bool.false_eq_true, h2, h3, ne_eq, not_false_eq_true, and_self,
    if_true, h4]

theorem sanitize_blob_finish_true (c : hb_sanitize_context_t) (b : hb_blob_t) (m : Memory) :
    (sanitize_blob_finish true c b m).ret = hb_blob_ptr.arg ∧
    (sanitize_blob_finish true c b m).blob.locked = true ∧
    (sanitize_blob_finish true c b m).blob.ref_count = b.ref_count - 1 :=
  ⟨rfl, rfl, rfl⟩

theorem sanitize_blob_finish_false (c : hb_sanitize_context_t) (b : hb_blob_t) (m : Memory) :
    (sanitize_blob_finish false c b m).ret = hb_blob_ptr.empty ∧
    (sanitize_blob_finish false c b m).blob.ref_count = b.ref_count - 1 - 1 :=
  ⟨rfl, rfl⟩

theorem hb_blob_get_data_writable_ok (b : hb_blob_t) (m : Memory) (heap : Nat)
    (h : (hb_blob_get_data_writable b m heap).1 ≠ 0) :
    (hb_blob_get_data_writable b m heap).1 = heap ∧
    (hb_blob_get_data_writable b m heap).2.1 = { b with data := heap } ∧
    (hb_blob_get_data_writable b m heap).2.2 = m.clone b.data heap b.length ∧
    b.locked = false ∧ b.length ≠ 0 ∧ heap ≠ 0 := by
  unfold hb_blob_get_data_writable at h ⊢
  split_ifs at h ⊢ with h5
  · exact absurd rfl h
  · simp only [Bool.or_eq_true, decide_eq_true_eq, not_or, Bool.not_eq_true] at h5
    exact ⟨rfl, rfl, rfl, h5.1.1, h5.1.2, h5.2⟩

theorem HBUINT16_get_eq (m : Memory) (p : Nat) :
    to_unsigned (HBUINT16.get m p) = (m p).val * 256 + (m (p + 1)).val := by
  have h0 := (m p).isLt
  have h1 := (m (p + 1)).isLt
  simp only [to_unsigned, UINT_BITS, HBUINT16, IntType.get, BEInt.get, uint16_t,
    c_int_type.convert, Bool.false_and, Bool.false_eq_true, if_false, Nat.shiftLeft_eq]
  omega

theorem may_edit_edit_count (c : hb_sanitize_context_t) (base len : Nat)
    (h : c.edit_count ≤ HB_SANITIZE_MAX_EDITS) :
    (c.may_edit base len).2.edit_count ≤ HB_SANITIZE_MAX_EDITS := by
  unfold may_edit
  split
  · exact h
  · show c.edit_count + 1 ≤ HB_SANITIZE_MAX_EDITS
    omega

theorem try_set_edit_count (c : hb_sanitize_context_t) (m : Memory) (I : IntType) (obj : Nat)
    (v : Int) (h : c.edit_count ≤ HB_SANITIZE_MAX_EDITS) :
    (c.try_set m I obj v).c.edit_count ≤ HB_SANITIZE_MAX_EDITS := by
  rw [try_set_eq]
  split
  · split
    · show c.edit_count + 1 ≤ HB_SANITIZE_MAX_EDITS
      omega
    · show c.edit_count + 1 ≤ HB_SANITIZE_MAX_EDITS
      omega
  · exact h

theorem OffsetTo_sanitize_edit_count (T : TableType) (O : IntType) (this : Nat)
    (c : hb_sanitize_context_t) (m : Memory) (base : Nat)
    (hT : ∀ p d mm, d.edit_count ≤ HB_SANITIZE_MAX_EDITS →
      (T.sanitize p d mm).c.edit_count ≤ HB_SANITIZE_MAX_EDITS)
    (h : c.edit_count ≤ HB_SANITIZE_MAX_EDITS) :
    (OffsetTo.sanitize T O this c m base).c.edit_count ≤ HB_SANITIZE_MAX_EDITS := by
  rcases OffsetTo_sanitize_cases T O this c m base with
    ⟨_, e⟩ | ⟨_, _, e⟩ | ⟨_, _, _, e⟩ | ⟨_, _, _, _, e⟩ | ⟨_, _, _, _, e⟩
  · rw [e]; exact h
  · rw [e]; exact h
  · rw [e]; exact h
  · rw [e]; exact hT _ _ _ h
  · rw [e]
    exact try_set_edit_count _ _ _ _ _ (hT _ _ _ h)

theorem sanitize_blob_finish_edit_count (sane : Bool) (c : hb_sanitize_context_t)
    (b : hb_blob_t) (m : Memory) :
    (sanitize_blob_finish sane c b m).c.edit_count = c.edit_count := by
  cases sane <;> rfl

/-- Every way out of `sanitize_blob` leaves `edit_count ≤ 32`, with any fuel. -/
theorem sanitize_blob_retry_edit_count (T : TableType) (heap : Nat)
    (hT : ∀ p d mm, d.edit_count ≤ HB_SANITIZE_MAX_EDITS →
      (T.sanitize p d mm).c.edit_count ≤ HB_SANITIZE_MAX_EDITS) :
    ∀ (fuel : Nat) (c : hb_sanitize_context_t) (blob : hb_blob_t) (m : Memory)
      (r : sanitize_blob_result),
      sanitize_blob_retry T heap fuel c blob m = some r →
      r.c.edit_count ≤ HB_SANITIZE_MAX_EDITS := by
  intro fuel
  induction fuel with
  | zero =>
    intro c blob m r h
    simp [sanitize_blob_retry] at h
  | succ fuel ih =>
    intro c blob m r h
    have h0 : (c.start_processing blob).edit_count ≤ HB_SANITIZE_MAX_EDITS := Nat.zero_le _
    have h1 := hT (c.start_processing blob).start (c.start_processing blob) m h0
    have h2 := hT (c.start_processing blob).start
      { (T.sanitize (c.start_processing blob).start (c.start_processing blob) m).c with
        edit_count := 0 }
      (T.sanitize (c.start_processing blob).start (c.start_processing blob) m).mem
      (Nat.zero_le _)
    rw [sanitize_blob_retry] at h
    simp only at h
    split_ifs at h with g1 g2 g3 g4 g5
    · cases h; exact Nat.zero_le _
    · cases h
      rw [sanitize_blob_finish_edit_count]
      exact h2
    · cases h
      rw [sanitize_blob_finish_edit_count]
      exact h1
    · exact ih _ _ _ r h
    · cases h
      rw [sanitize_blob_finish_edit_count]
      exact h1
    · cases h
      rw [sanitize_blob_finish_edit_count]
      exact h1

theorem Int.land_255 (x : Int) : Int.land x 255 = x % 256 := by
  cases x with
  | ofNat n =>
    show ((n &&& 255 : Nat) : Int) = (n : Int) % 256
    have h := Nat.and_pow_two_sub_one_eq_mod n 8
    norm_num at h
    rw [h]
    omega
  | negSucc n =>
    show ((Nat.ldiff 255 n : Nat) : Int) = Int.negSucc n % 256
    have h : Nat.ldiff 255 n = 255 - n % 256 := by
      apply Nat.eq_of_testBit_eq
      intro i
      rw [Nat.testBit_ldiff]
      have h1 : 255 - n % 256 = 2 ^ 8 - (n % 2 ^ 8 + 1) := by norm_num; omega
      rw [h1, Nat.testBit_two_pow_sub_succ (Nat.mod_lt _ (by norm_num)), Nat.testBit_mod_two_pow]
      have h2 : (255 : Nat) = 2 ^ 8 - 1 := by norm_num
      rw [h2, Nat.testBit_two_pow_sub_one]
      by_cases hi : i < 8 <;> simp [hi]
    rw [h, Int.negSucc_eq]
    omega

theorem to_uint8_val (x : Int) : ((to_uint8 x).val : Int) = x % 256 := by
  show (((x % 256).toNat : Nat) : Int) = x % 256
  omega

theorem Memory.write_same (m : Memory) (p : Nat) (b : Fin 256) : m.write p b p = b := by
  simp [Memory.write]

theorem Memory.write_other (m : Memory) (p q : Nat) (b : Fin 256) (h : q ≠ p) :
    m.write p b q = m q := by
  simp [Memory.write, h]

theorem int_shiftRight_eq (v : Int) (k : Nat) : v >>> (k : Int) = v / ((2 ^ k : Nat) : Int) := by
  rw [← Int.shiftRight_eq_div_pow]
  cases v with
  | ofNat n => rw [Int.ofNat_eq_coe, Int.shiftRight_coe_nat]; rfl
  | negSucc n => rw [Int.shiftRight_negSucc]; rfl

theorem int_shiftRight_zero (v : Int) : v >>> (0 : Int) = v := by
  have h := int_shiftRight_eq v 0
  simpa using h

theorem int_shiftRight_8 (v : Int) : v >>> (8 : Int) = v / 256 := by
  have h := int_shiftRight_eq v 8
  norm_num at h
  exact h

theorem int_shiftRight_16 (v : Int) : v >>> (16 : Int) = v / 65536 := by
  have h := int_shiftRight_eq v 16
  norm_num at h
  exact h

theorem int_shiftRight_24 (v : Int) : v >>> (24 : Int) = v / 16777216 := by
  have h := int_shiftRight_eq v 24
  norm_num at h
  exact h

theorem BEInt.get_set_1 (T : c_int_type) (V : Int) (m : Memory) (p : Nat) :
    BEInt.get T 1 (BEInt.set 1 V m p) p = T.convert (V % 256) := by
  simp only [BEInt.get, BEInt.set, Memory.write_same, to_uint8_val]

theorem BEInt.get_set_2 (T : c_int_type) (V : Int) (m : Memory) (p : Nat) :
    BEInt.get T 2 (BEInt.set 2 V m p) p = T.convert (V % 65536) := by
  simp only [BEInt.get, BEInt.set, Nat.shiftLeft_eq]
  simp (disch := omega) only [Memory.write_same, Memory.write_other]
  push_cast
  rw [to_uint8_val, to_uint8_val, int_shiftRight_8]
  congr 1
  omega

theorem BEInt.get_set_3 (T : c_int_type) (V : Int) (m : Memory) (p : Nat) :
    BEInt.get T 3 (BEInt.set 3 V m p) p = T.convert (V % 16777216) := by
  simp only [BEInt.get, BEInt.set, Nat.shiftLeft_eq]
  simp (disch := omega) only [Memory.write_same, Memory.write_other]
  push_cast
  rw [to_uint8_val, to_uint8_val, to_uint8_val, int_shiftRight_8, int_shiftRight_16]
  congr 1
  omega

theorem BEInt.get_set_4 (T : c_int_type) (V : Int) (m : Memory) (p : Nat) :
    BEInt.get T 4 (BEInt.set 4 V m p) p = T.convert (V % 4294967296) := by
  simp only [BEInt.get, BEInt.set, Nat.shiftLeft_eq]
  simp (disch := omega) only [Memory.write_same, Memory.write_other]
  push_cast
  rw [to_uint8_val, to_uint8_val, to_uint8_val, to_uint8_val, int_shiftRight_8,
    int_shiftRight_16, int_shiftRight_24]
  congr 1
  omega

/-- Reading back what `set` stored gives the value back, for a value in range. -/
theorem IntType.get_set (I : IntType) (hI : I ∈ named_scalars) (v : Int) (m : Memory)
    (p : Nat) (hv : I.in_range v) : I.get (I.set v m p) p = v := by
  simp only [named_scalars, List.mem_cons, List.mem_singleton, List.not_mem_nil, or_false] at hI
  rcases hI with h | h | h | h | h | h | h <;> subst h <;>
    simp only [IntType.in_range, HBUINT8, HBINT8, HBUINT16, HBINT16, HBUINT24, HBUINT32, HBINT32,
      uint8_t, int8_t, uint16_t, int16_t, uint32_t, int32_t, Bool.false_eq_true, if_false,
      if_true] at hv <;>
    norm_num at hv <;>
    simp only [IntType.get, IntType.set, HBUINT8, HBINT8, HBUINT16, HBINT16, HBUINT24, HBUINT32,
      HBINT32, BEInt.get_set_1, BEInt.get_set_2, BEInt.get_set_3, BEInt.get_set_4] <;>
    simp only [c_int_type.convert, uint8_t, int8_t, uint16_t, int16_t, uint32_t, int32_t,
      Bool.false_and, Bool.true_and, Bool.false_eq_true, if_false, decide_eq_true_eq] <;>
    norm_num <;>
    (try split) <;> omega

theorem IntType.get_eq_convert (I : IntType) (hI : I ∈ named_scalars) (m : Memory) (p : Nat) :
    ∃ x, I.get m p = I.type.convert x := by
  simp only [named_scalars, List.mem_cons, List.mem_singleton, List.not_mem_nil, or_false] at hI
  rcases hI with h | h | h | h | h | h | h <;> subst h <;> exact ⟨_, rfl⟩

/-- The sign of `cmp` for a key and a stored value of the same named scalar type. -/
theorem IntType.cmp_sign (I : IntType) (hI : I ∈ named_scalars) (a : Int)
    (ha : I.type.convert a = a) (m : Memory) (p : Nat) :
    (I.cmp I.type a m p < 0 ↔ a < I.get m p) ∧
    (I.cmp I.type a m p = 0 ↔ a = I.get m p) ∧
    (0 < I.cmp I.type a m p ↔ I.get m p < a) ∧
    (I.type.size < 4 → I.cmp I.type a m p = a - I.get m p) ∧
    (¬ I.type.size < 4 → I.cmp I.type a m p = -1 ∨ I.cmp I.type a m p = 0 ∨
      I.cmp I.type a m p = 1) := by
  obtain ⟨x, hx⟩ := IntType.get_eq_convert I hI m p
  simp only [IntType.cmp, hx]
  generalize hb : I.type.convert x = b
  have hb2 : I.type.convert b = b := by
    rw [← hb]
    simp only [named_scalars, List.mem_cons, List.mem_singleton, List.not_mem_nil, or_false] at hI
    rcases hI with h | h | h | h | h | h | h <;> subst h <;>
      simp only [c_int_type.convert, HBUINT8, HBINT8, HBUINT16, HBINT16, HBUINT24, HBUINT32,
        HBINT32, uint8_t, int8_t, uint16_t, int16_t, uint32_t, int32_t,
        Bool.false_and, Bool.true_and, Bool.false_eq_true, if_false, decide_eq_true_eq] <;>
      norm_num <;> (try split_ifs) <;> omega
  clear hb hx x
  simp only [named_scalars, List.mem_cons, List.mem_singleton, List.not_mem_nil, or_false] at hI
  rcases hI with h | h | h | h | h | h | h <;> subst h <;>
    simp only [c_int_type.convert, usual_arithmetic_type, c_int_type.promote,
      HBUINT8, HBINT8, HBUINT16, HBINT16, HBUINT24, HBUINT32,
      HBINT32, uint8_t, int8_t, uint16_t, int16_t, uint32_t, int32_t,
      Bool.false_and, Bool.true_and, Bool.and_self, Bool.and_false, Bool.false_eq_true,
      if_false, if_true, decide_eq_true_eq] at ha hb2 ⊢ <;>
    norm_num at ha hb2 ⊢ <;>
    split_ifs at ha hb2 ⊢ <;> first | omega | (simp; omega)

/-- The loop of `bsearch` on a range that still holds every match: it ends, on `-1`
when nothing matches and on a matching index otherwise. -/
theorem bsearch_loop_spec (c : Int → Int) (n : Nat)
    (hs : ∀ i j : Nat, i < j → j < n → c i ≤ 0 → c j < 0) :
    ∀ (fuel : Nat) (min max : Int), 0 ≤ min → max < n → (max + 1 - min).toNat < fuel →
      (∀ i : Nat, (i : Int) < min → 0 < c i) →
      (∀ i : Nat, i < n → max < (i : Int) → c i < 0) →
      ∃ r, SortedArrayOf.bsearch_loop c fuel min max = some r ∧
        ((r = -1 ∧ ∀ i : Nat, i < n → c i ≠ 0) ∨
         (∃ k : Nat, r = k ∧ k < n ∧ c k = 0)) := by
  intro fuel
  induction fuel with
  | zero =>
    intro min max h0 hn hf
    exact absurd hf (Nat.not_lt_zero _)
  | succ fuel ih =>
    intro min max h0 hn hf hlo hhi
    rw [SortedArrayOf.bsearch_loop]
    by_cases h : min ≤ max
    · rw [if_pos h]
      have hmid : (min + max).tdiv 2 = (min + max) / 2 :=
        Int.tdiv_eq_ediv (by omega) (by decide)
      simp only [hmid]
      have hm1 : min ≤ (min + max) / 2 := by omega
      have hm2 : (min + max) / 2 ≤ max := by omega
      obtain ⟨k, hk⟩ : ∃ k : Nat, (min + max) / 2 = (k : Int) :=
        ⟨((min + max) / 2).toNat, by omega⟩
      rw [hk] at hm1 hm2 ⊢
      have hkn : k < n := by omega
      by_cases hc1 : c k < 0
      · rw [if_pos hc1]
        refine ih min (k - 1) h0 (by omega) (by omega) hlo ?_
        intro i hi hgt
        by_cases hik : i = k
        · rw [hik]; exact hc1
        · exact hs k i (by omega) hi (by omega)
      · rw [if_neg hc1]
        by_cases hc2 : c k > 0
        · rw [if_pos hc2]
          refine ih (k + 1) max (by omega) hn (by omega) ?_ hhi
          intro i hi
          by_cases hik : i = k
          · rw [hik]; exact hc2
          · by_contra hneg
            have := hs i k (by omega) hkn (by omega)
            omega
        · rw [if_neg hc2]
          exact ⟨k, rfl, Or.inr ⟨k, rfl, hkn, by omega⟩⟩
    · rw [if_neg h]
      refine ⟨-1, rfl, Or.inl ⟨rfl, ?_⟩⟩
      intro i hi
      by_cases hlt : (i : Int) < min
      · have := hlo i hlt
        omega
      · have := hhi i hi (by omega)
        omega

theorem ArrayOf.len_HBUINT16_lt (m : Memory) (this : Nat) :
    ArrayOf.len HBUINT16 m this < 65536 := by
  unfold ArrayOf.len
  rw [HBUINT16_get_eq]
  have h0 := (m this).isLt
  have h1 := (m (this + 1)).isLt
  omega

theorem to_int_of_lt (u : Nat) (h : u < 2 ^ 31) : to_int u = u := by
  unfold to_int UINT_BITS
  have h1 : u % 2 ^ 32 = u := Nat.mod_eq_of_lt (by omega)
  rw [h1, if_pos (by omega)]

/-- What `bsearch` returns on an array of 16-bit length that is ascending for the
key. -/
theorem bsearch_spec {Key : Type} (E : KeyedType Key) (m : Memory) (this : Nat) (x : Key)
    (fuel : Nat) (hfuel : ArrayOf.len HBUINT16 m this < fuel)
    (hasc : SortedArrayOf.ascending_for E m (ArrayOf.arrayZ HBUINT16 this)
      (ArrayOf.len HBUINT16 m this) x) :
    ∃ r, SortedArrayOf.bsearch HBUINT16 E m this x fuel = some r ∧
      (∀ i : Nat, i < ArrayOf.len HBUINT16 m this →
        E.cmp m (ArrayOf.arrayZ HBUINT16 this + i * E.static_size) x = 0 → r = i) ∧
      (r = -1 ↔ ∀ i : Nat, i < ArrayOf.len HBUINT16 m this →
        E.cmp m (ArrayOf.arrayZ HBUINT16 this + i * E.static_size) x ≠ 0) ∧
      (r ≠ -1 → ∃ k : Nat, r = k ∧ k < ArrayOf.len HBUINT16 m this ∧
        E.cmp m (ArrayOf.arrayZ HBUINT16 this + k * E.static_size) x = 0) := by
  have hlen := ArrayOf.len_HBUINT16_lt m this
  have hti : to_int (ArrayOf.len HBUINT16 m this) = (ArrayOf.len HBUINT16 m this : Int) :=
    to_int_of_lt _ (by omega)
  have hc : ∀ i : Nat, (fun mid : Int => E.cmp m
      (ArrayOf.arrayZ HBUINT16 this + mid.toNat * E.static_size) x) (i : Int) =
      E.cmp m (ArrayOf.arrayZ HBUINT16 this + i * E.static_size) x := by
    intro i
    simp only [Int.toNat_ofNat]
  obtain ⟨r, hr, hcases⟩ := bsearch_loop_spec
    (fun mid : Int => E.cmp m (ArrayOf.arrayZ HBUINT16 this + mid.toNat * E.static_size) x)
    (ArrayOf.len HBUINT16 m this)
    (by
      intro i j hij hj
      rw [hc i, hc j]
      exact hasc i j hij hj)
    fuel 0 (to_int (ArrayOf.len HBUINT16 m this) - 1) (le_refl _) (by rw [hti]; omega)
    (by rw [hti]; omega)
    (by intro i hi; omega)
    (by intro i hi hgt; rw [hti] at hgt; omega)
  simp only [Int.toNat_ofNat] at hcases
  refine ⟨r, hr, ?_, ?_, ?_⟩
  · intro i hi hz
    rcases hcases with ⟨_, hnone⟩ | ⟨k, hk, hkn, hkz⟩
    · exact absurd hz (hnone i hi)
    · rw [hk]
      rcases Nat.lt_trichotomy i k with h | h | h
      · have := hasc i k h hkn (by omega)
        omega
      · rw [h]
      · have := hasc k i h hi (by omega)
        omega
  · constructor
    · intro hneg i hi
      rcases hcases with ⟨_, hnone⟩ | ⟨k, hk, _, _⟩
      · exact hnone i hi
      · omega
    · intro hall
      rcases hcases with ⟨h, _⟩ | ⟨k, hk, hkn, hkz⟩
      · exact h
      · exact absurd hkz (hall k hkn)
  · intro hne
    rcases hcases with ⟨h, _⟩ | ⟨k, hk, hkn, hkz⟩
    · exact absurd h hne
    · exact ⟨k, hk, hkn, hkz⟩

theorem IntType.convert_get (I : IntType) (hI : I ∈ named_scalars) (m : Memory) (p : Nat) :
    I.type.convert (I.get m p) = I.get m p := by
  obtain ⟨x, hx⟩ := IntType.get_eq_convert I hI m p
  rw [hx]
  simp only [named_scalars, List.mem_cons, List.mem_singleton, List.not_mem_nil, or_false] at hI
  rcases hI with h | h | h | h | h | h | h <;> subst h <;>
    simp only [c_int_type.convert, HBUINT8, HBINT8, HBUINT16, HBINT16, HBUINT24, HBUINT32,
      HBINT32, uint8_t, int8_t, uint16_t, int16_t, uint32_t, int32_t,
      Bool.false_and, Bool.true_and, Bool.false_eq_true, if_false, decide_eq_true_eq] <;>
    norm_num <;> (try split_ifs) <;> omega

/-- Scalars that are ascending under the static comparator have strictly
increasing values. -/
theorem IntType.values_ascending (I : IntType) (hI : I ∈ named_scalars) (m : Memory)
    (arr n : Nat)
    (h : ∀ i : Nat, i + 1 < n →
      I.cmp_static m (arr + i * I.Size) (arr + (i + 1) * I.Size) < 0) :
    ∀ j i : Nat, i < j → j < n → I.get m (arr + i * I.Size) < I.get m (arr + j * I.Size) := by
  have step : ∀ i : Nat, i + 1 < n →
      I.get m (arr + i * I.Size) < I.get m (arr + (i + 1) * I.Size) := by
    intro i hi
    exact ((IntType.cmp_sign I hI _ (IntType.convert_get I hI m _) m _).1).1 (h i hi)
  intro j
  induction j with
  | zero => intro i hi; omega
  | succ j ih =>
    intro i hij hj
    rcases Nat.eq_or_lt_of_le (Nat.lt_succ_iff.mp hij) with e | l
    · rw [e]; exact step j hj
    · exact lt_trans (ih i l (by omega)) (step j hj)


theorem hb_bit_storage_loop_spec : ∀ (fuel v : Nat), v < 2 ^ fuel → v ≠ 0 →
    1 ≤ hb_bit_storage_loop fuel v ∧ hb_bit_storage_loop fuel v ≤ fuel ∧
    2 ^ (hb_bit_storage_loop fuel v - 1) ≤ v ∧ v < 2 ^ hb_bit_storage_loop fuel v := by
  intro fuel
  induction fuel with
  | zero =>
    intro v hv hv0
    simp only [pow_zero, Nat.lt_one_iff] at hv
    exact absurd hv hv0
  | succ fuel ih =>
    intro v hv hv0
    simp only [hb_bit_storage_loop, hv0, if_false]
    by_cases h2 : v / 2 = 0
    · have hv1 : v = 1 := by omega
      subst hv1
      cases fuel <;> simp [hb_bit_storage_loop]
    · have hlt : v / 2 < 2 ^ fuel := by
        rw [pow_succ] at hv
        omega
      obtain ⟨a, b, c, d⟩ := ih (v / 2) hlt h2
      refine ⟨by omega, by omega, ?_, ?_⟩
      · have e : hb_bit_storage_loop fuel (v / 2) + 1 - 1 =
            (hb_bit_storage_loop fuel (v / 2) - 1) + 1 := by omega
        rw [e, pow_succ]
        omega
      · rw [pow_succ]
        omega

theorem to_unsigned_natCast (n : Nat) (h : n < 2 ^ 32) : to_unsigned (n : Int) = n := by
  unfold to_unsigned UINT_BITS
  omega

theorem HBUINT16.get_set_nat (x : Nat) (m : Memory) (p : Nat) :
    HBUINT16.get (HBUINT16.set (x : Int) m p) p = ((x % 65536 : Nat) : Int) := by
  show BEInt.get uint16_t 2 (BEInt.set 2 (uint16_t.convert (x : Int)) m p) p = _
  rw [BEInt.get_set_2]
  simp only [c_int_type.convert, uint16_t, Bool.false_and, Bool.false_eq_true, if_false]
  norm_num

theorem HBUINT16.get_set_other (V : Int) (m : Memory) (p q : Nat)
    (h : p + 2 ≤ q ∨ q + 2 ≤ p) :
    HBUINT16.get (HBUINT16.set V m q) p = HBUINT16.get m p := by
  simp only [IntType.get, IntType.set, HBUINT16, BEInt.get, BEInt.set]
  simp (disch := omega) only [Memory.write_other]

/-- What the four members read back as after `set (v)`, for `1 ≤ v ≤ 65535`. -/
theorem BinSearchHeader.set_spec (v : Nat) (h1 : 1 ≤ v) (h2 : v ≤ 65535) (m : Memory)
    (this : Nat) :
    ∃ m2, BinSearchHeader.set v m this = some m2 ∧
      HBUINT16.get m2 (BinSearchHeader.len this) = (v : Int) ∧
      HBUINT16.get m2 (BinSearchHeader.entrySelector this) = ((hb_bit_storage v - 1 : Nat) : Int) ∧
      HBUINT16.get m2 (BinSearchHeader.searchRange this) =
        (((16 * 2 ^ (hb_bit_storage v - 1)) % 65536 : Nat) : Int) ∧
      HBUINT16.get m2 (BinSearchHeader.rangeShift this) =
        (((if 16 * v > (16 * 2 ^ (hb_bit_storage v - 1)) % 65536
          then 16 * v - (16 * 2 ^ (hb_bit_storage v - 1)) % 65536 else 0) % 65536 : Nat) : Int) ∧
      2 ^ (hb_bit_storage v - 1) ≤ v ∧ v < 2 ^ (hb_bit_storage v - 1 + 1) ∧
      hb_bit_storage v - 1 ≤ 15 := by
  obtain ⟨b1, b2, b3, b4⟩ := hb_bit_storage_loop_spec 32 v (by norm_num; omega) (by omega)
  change 1 ≤ hb_bit_storage v at b1
  change hb_bit_storage v ≤ 32 at b2
  change 2 ^ (hb_bit_storage v - 1) ≤ v at b3
  change v < 2 ^ hb_bit_storage v at b4
  have hbs : hb_bit_storage v - 1 + 1 = hb_bit_storage v := by omega
  have he15 : hb_bit_storage v - 1 ≤ 15 := by
    by_contra hcon
    have : 2 ^ 16 ≤ 2 ^ (hb_bit_storage v - 1) := Nat.pow_le_pow_right (by decide) (by omega)
    have h16 : (2 : Nat) ^ 16 = 65536 := by norm_num
    omega
  have hmax : MAX 1 (hb_bit_storage v) - 1 = hb_bit_storage v - 1 := by
    unfold MAX
    split_ifs <;> omega
  generalize he : hb_bit_storage v - 1 = e at *
  generalize hX : 2 ^ e = X at *
  have hXpos : 0 < X := by rw [← hX]; exact Nat.pow_pos (by decide)
  -- the members, one store after the other
  have g1 : HBUINT16.get (HBUINT16.set (v : Int) m (BinSearchHeader.len this))
      (BinSearchHeader.len this) = (v : Int) := by
    rw [HBUINT16.get_set_nat, Nat.mod_eq_of_lt (by omega)]
  have u1 : to_unsigned (HBUINT16.get (HBUINT16.set (v : Int) m (BinSearchHeader.len this))
      (BinSearchHeader.len this)) = v := by
    rw [g1]; exact to_unsigned_natCast v (by omega)
  have g2 : ∀ mm, HBUINT16.get (HBUINT16.set ((e : Nat) : Int) mm
      (BinSearchHeader.entrySelector this)) (BinSearchHeader.entrySelector this) = (e : Int) := by
    intro mm
    rw [HBUINT16.get_set_nat, Nat.mod_eq_of_lt (by omega)]
  have u2 : ∀ mm, to_unsigned (HBUINT16.get (HBUINT16.set ((e : Nat) : Int) mm
      (BinSearchHeader.entrySelector this)) (BinSearchHeader.entrySelector this)) = e := by
    intro mm
    rw [g2]; exact to_unsigned_natCast e (by omega)
  have hsh : (16 * ((1 <<< e) % 2 ^ UINT_BITS)) % 2 ^ UINT_BITS = 16 * X := by
    rw [Nat.one_shiftLeft, hX]
    unfold UINT_BITS
    omega
  have g3 : ∀ mm, HBUINT16.get (HBUINT16.set (((16 * X : Nat)) : Int) mm
      (BinSearchHeader.searchRange this)) (BinSearchHeader.searchRange this) =
      (((16 * X) % 65536 : Nat) : Int) := by
    intro mm
    rw [HBUINT16.get_set_nat]
  have u3 : ∀ mm, to_unsigned (HBUINT16.get (HBUINT16.set (((16 * X : Nat)) : Int) mm
      (BinSearchHeader.searchRange this)) (BinSearchHeader.searchRange this)) =
      (16 * X) % 65536 := by
    intro mm
    rw [g3]; exact to_unsigned_natCast _ (by omega)
  have hv16 : (v * 16) % 2 ^ UINT_BITS = 16 * v := by
    unfold UINT_BITS
    omega
  simp only [BinSearchHeader.set, u1, ne_eq, not_true_eq_false, if_false, hmax, u2, hsh, u3, hv16]
  refine ⟨_, rfl, ?_, ?_, ?_, ?_, b3, by rw [hbs] at *; exact b4, he15⟩
  · rw [HBUINT16.get_set_other _ _ _ _ (by unfold BinSearchHeader.len BinSearchHeader.rangeShift; omega),
      HBUINT16.get_set_other _ _ _ _ (by unfold BinSearchHeader.len BinSearchHeader.searchRange; omega),
      HBUINT16.get_set_other _ _ _ _ (by unfold BinSearchHeader.len BinSearchHeader.entrySelector; omega),
      g1]
  · rw [HBUINT16.get_set_other _ _ _ _
        (by unfold BinSearchHeader.entrySelector BinSearchHeader.rangeShift; omega),
      HBUINT16.get_set_other _ _ _ _
        (by unfold BinSearchHeader.entrySelector BinSearchHeader.searchRange; omega),
      g2]
  · rw [HBUINT16.get_set_other _ _ _ _
        (by unfold BinSearchHeader.searchRange BinSearchHeader.rangeShift; omega),
      g3]
  · by_cases hgt : 16 * v > 16 * X % 65536
    · simp only [hgt, if_true]
      have hu : to_unsigned (((16 * v : Nat) : Int) - ((16 * X % 65536 : Nat) : Int)) =
          16 * v - 16 * X % 65536 := by
        unfold to_unsigned UINT_BITS
        omega
      rw [hu, HBUINT16.get_set_nat]
    · simp only [hgt, if_false]
      have := HBUINT16.get_set_nat 0 (HBUINT16.set (((16 * X : Nat)) : Int)
        (HBUINT16.set ((e : Nat) : Int) (HBUINT16.set (v : Int) m (BinSearchHeader.len this))
          (BinSearchHeader.entrySelector this)) (BinSearchHeader.searchRange this))
        (BinSearchHeader.rangeShift this)
      simpa using this


theorem allocate_size_cases (c : hb_serialize_context_t) (m : Memory) (n : Nat) :
    (c.allocate_size m n = ⟨0, { c with ran_out_of_room := true }, m⟩ ∧
      (c.ran_out_of_room = true ∨ (c.end_ : Int) - (c.head : Int) < (n : Int))) ∨
    (c.allocate_size m n = ⟨c.head, { c with head := c.head + n }, m.memset c.head 0 n⟩ ∧
      c.ran_out_of_room = false ∧ c.head + n ≤ c.end_) := by
  by_cases h : c.ran_out_of_room = true ∨ (c.end_ : Int) - (c.head : Int) < (n : Int)
  · left
    refine ⟨?_, h⟩
    simp only [hb_serialize_context_t.allocate_size, h, if_true]
  · right
    refine ⟨?_, ?_, ?_⟩
    · simp only [hb_serialize_context_t.allocate_size, h, if_false]
    · cases hc : c.ran_out_of_room
      · rfl
      · exact absurd (Or.inl hc) h
    · have : ¬ ((c.end_ : Int) - (c.head : Int) < (n : Int)) := fun h2 => h (Or.inr h2)
      omega

theorem allocate_size_valid (c : hb_serialize_context_t) (m : Memory) (n : Nat)
    (hc : c.valid) :
    (c.allocate_size m n).c.valid ∧ c.head ≤ (c.allocate_size m n).c.head ∧
    (c.allocate_size m n).c.start = c.start ∧ (c.allocate_size m n).c.end_ = c.end_ := by
  unfold hb_serialize_context_t.valid at *
  rcases allocate_size_cases c m n with ⟨h, _⟩ | ⟨h, _, hroom⟩
  · rw [h]
    exact ⟨hc, le_refl _, rfl, rfl⟩
  · rw [h]
    refine ⟨⟨?_, ?_⟩, ?_, rfl, rfl⟩
    · show c.start ≤ c.head + n
      omega
    · show c.head + n ≤ c.end_
      exact hroom
    · show c.head ≤ c.head + n
      omega

theorem to_unsigned_sub (a b : Nat) (h1 : b ≤ a) (h2 : a - b < 2 ^ 32) :
    to_unsigned ((a : Int) - (b : Int)) = a - b := by
  unfold to_unsigned UINT_BITS
  omega

/-- What `extend_min` and `extend` do once their assertion has passed: they grow the
buffer up to `obj + size`. -/
theorem extend_grow (c : hb_serialize_context_t) (m : Memory) (obj size : Nat)
    (h1 : obj ≤ c.head) (h2 : c.head ≤ obj + size) (hs : size < 2 ^ 32) :
    ((c.ran_out_of_room = false ∧ obj + size ≤ c.end_) →
      (c.allocate_size m (to_unsigned (((obj + size : Nat) : Int) - (c.head : Int)))).ret = c.head ∧
      (c.allocate_size m (to_unsigned (((obj + size : Nat) : Int) - (c.head : Int)))).c.head
        = obj + size ∧
      (c.allocate_size m (to_unsigned (((obj + size : Nat) : Int) - (c.head : Int)))).c.ran_out_of_room
        = false ∧
      (∀ a, c.head ≤ a → a < obj + size →
        (c.allocate_size m (to_unsigned (((obj + size : Nat) : Int) - (c.head : Int)))).mem a = 0) ∧
      (∀ a, a < c.head →
        (c.allocate_size m (to_unsigned (((obj + size : Nat) : Int) - (c.head : Int)))).mem a = m a)) ∧
    (¬ (c.ran_out_of_room = false ∧ obj + size ≤ c.end_) →
      (c.allocate_size m (to_unsigned (((obj + size : Nat) : Int) - (c.head : Int)))).ret = 0 ∧
      (c.allocate_size m (to_unsigned (((obj + size : Nat) : Int) - (c.head : Int)))).c.ran_out_of_room
        = true ∧
      (c.allocate_size m (to_unsigned (((obj + size : Nat) : Int) - (c.head : Int)))).c.head
        = c.head ∧
      (c.allocate_size m (to_unsigned (((obj + size : Nat) : Int) - (c.head : Int)))).mem = m) := by
  have e : to_unsigned (((obj + size : Nat) : Int) - (c.head : Int)) = obj + size - c.head :=
    to_unsigned_sub _ _ h2 (by omega)
  rw [e]
  constructor
  · rintro ⟨hf, hroom⟩
    rcases allocate_size_cases c m (obj + size - c.head) with ⟨_, hbad⟩ | ⟨h, _, _⟩
    · rcases hbad with hbad | hbad
      · rw [hf] at hbad
        exact absurd hbad (by decide)
      · omega
    · rw [h]
      refine ⟨rfl, by simp only; omega, hf, ?_, ?_⟩
      · intro a ha1 ha2
        have : c.head ≤ a ∧ a < c.head + (obj + size - c.head) := by omega
        simp only [Memory.memset, this, and_self, if_true]
      · intro a ha
        have : ¬ (c.head ≤ a ∧ a < c.head + (obj + size - c.head)) := by omega
        simp only [Memory.memset, this, if_false]
  · intro hno
    rcases allocate_size_cases c m (obj + size - c.head) with ⟨h, _⟩ | ⟨_, hf, hroom⟩
    · rw [h]
      exact ⟨rfl, rfl, rfl, rfl⟩
    · exact absurd ⟨hf, by omega⟩ hno

/-- The part of the `extend_min` / `extend` contract that `extend_min` meets: an
object anywhere in `[start, head]`, `start` included, passes the assertion. -/
theorem extend_min_spec (c : hb_serialize_context_t) (m : Memory) (obj min_size : Nat)
    (h0 : c.start ≤ obj) (h1 : obj ≤ c.head) (h2 : c.head ≤ obj + min_size)
    (hs : min_size < 2 ^ 32) (hbuf : c.head ≠ 0) :
    ∃ r, c.extend_min m obj min_size = some r ∧
      ((c.ran_out_of_room = false ∧ obj + min_size ≤ c.end_) →
        r.ret = obj ∧ r.c.head = obj + min_size ∧ r.c.ran_out_of_room = false ∧
        (∀ a, c.head ≤ a → a < obj + min_size → r.mem a = 0) ∧
        (∀ a, a < c.head → r.mem a = m a)) ∧
      (¬ (c.ran_out_of_room = false ∧ obj + min_size ≤ c.end_) →
        r.ret = 0 ∧ r.c.ran_out_of_room = true ∧ r.c.head = c.head ∧ r.mem = m) := by
  have hg := extend_grow c m obj min_size h1 h2 hs
  have hassert : c.start ≤ obj ∧ obj ≤ c.head ∧ obj + min_size ≥ c.head := ⟨h0, h1, h2⟩
  simp only [hb_serialize_context_t.extend_min, hassert, and_self, not_true_eq_false, if_false]
  by_cases hroom : c.ran_out_of_room = false ∧ obj + min_size ≤ c.end_
  · obtain ⟨a1, a2, a3, a4, a5⟩ := hg.1 hroom
    have hne : ¬ (c.allocate_size m
        (to_unsigned (((obj + min_size : Nat) : Int) - (c.head : Int)))).ret = 0 := by
      rw [a1]; exact hbuf
    simp only [hne, if_false]
    exact ⟨_, rfl, fun _ => ⟨rfl, a2, a3, a4, a5⟩, fun h => absurd hroom h⟩
  · obtain ⟨a1, a2, a3, a4⟩ := hg.2 hroom
    simp only [a1, if_true]
    exact ⟨_, rfl, fun h => absurd h hroom, fun _ => ⟨rfl, a2, a3, a4⟩⟩

/-- The part of the contract that `extend` meets: an object strictly after
`start`. -/
theorem extend_spec (c : hb_serialize_context_t) (m : Memory) (obj size : Nat)
    (h0 : c.start < obj) (h1 : obj ≤ c.head) (h2 : c.head ≤ obj + size)
    (hs : size < 2 ^ 32) :
    ∃ r, c.extend m obj size = some r ∧
      ((c.ran_out_of_room = false ∧ obj + size ≤ c.end_) →
        r.ret = obj ∧ r.c.head = obj + size ∧ r.c.ran_out_of_room = false ∧
        (∀ a, c.head ≤ a → a < obj + size → r.mem a = 0) ∧
        (∀ a, a < c.head → r.mem a = m a)) ∧
      (¬ (c.ran_out_of_room = false ∧ obj + size ≤ c.end_) →
        r.ret = 0 ∧ r.c.ran_out_of_room = true ∧ r.c.head = c.head ∧ r.mem = m) := by
  have hg := extend_grow c m obj size h1 h2 hs
  have hassert : c.start < obj ∧ obj ≤ c.head ∧ obj + size ≥ c.head := ⟨h0, h1, h2⟩
  have hbuf : c.head ≠ 0 := by omega
  simp only [hb_serialize_context_t.extend, hassert, and_self, not_true_eq_false, if_false]
  by_cases hroom : c.ran_out_of_room = false ∧ obj + size ≤ c.end_
  · obtain ⟨a1, a2, a3, a4, a5⟩ := hg.1 hroom
    have hne : ¬ (c.allocate_size m
        (to_unsigned (((obj + size : Nat) : Int) - (c.head : Int)))).ret = 0 := by
      rw [a1]; exact hbuf
    simp only [hne, if_false]
    exact ⟨_, rfl, fun _ => ⟨rfl, a2, a3, a4, a5⟩, fun h => absurd hroom h⟩
  · obtain ⟨a1, a2, a3, a4⟩ := hg.2 hroom
    simp only [a1, if_true]
    exact ⟨_, rfl, fun h => absurd h hroom, fun _ => ⟨rfl, a2, a3, a4⟩⟩


/-- The counted body computes the result of `sanitize_blob_retry`. -/
theorem sanitize_blob_retry_counted_fst (T : TableType) (heap : Nat) :
    ∀ (fuel : Nat) (c : hb_sanitize_context_t) (blob : hb_blob_t) (m : Memory),
      (sanitize_blob_retry_counted T heap fuel c blob m).map (fun x => x.1) =
        sanitize_blob_retry T heap fuel c blob m := by
  intro fuel
  induction fuel with
  | zero => intro c blob m; rfl
  | succ fuel ih =>
    intro c blob m
    rw [sanitize_blob_retry_counted, sanitize_blob_retry]
    simp only []
    split_ifs <;> simp only [Option.map_some', Option.map_map]
    rw [← ih]
    congr 1

/-- One step of the counted body, with the outcome `r` of the first invocation of
`T::sanitize` named. -/
theorem sanitize_blob_retry_counted_step (T : TableType) (heap fuel : Nat)
    (c : hb_sanitize_context_t) (blob : hb_blob_t) (m : Memory) (r : Outcome)
    (hr : T.sanitize (c.start_processing blob).start (c.start_processing blob) m = r) :
    sanitize_blob_retry_counted T heap (fuel + 1) c blob m =
      if (c.start_processing blob).start = 0 then
        some (⟨hb_blob_ptr.arg, ((c.start_processing blob).end_processing blob).2,
          ((c.start_processing blob).end_processing blob).1, m⟩, 1, 0)
      else if r.ret = true then
        (if r.c.edit_count ≠ 0 then
          some (sanitize_blob_finish
            ((T.sanitize (c.start_processing blob).start { r.c with edit_count := 0 } r.mem).ret &&
              decide ((T.sanitize (c.start_processing blob).start { r.c with edit_count := 0 }
                r.mem).c.edit_count = 0))
            (T.sanitize (c.start_processing blob).start { r.c with edit_count := 0 } r.mem).c blob
            (T.sanitize (c.start_processing blob).start { r.c with edit_count := 0 } r.mem).mem,
            1, 2)
        else some (sanitize_blob_finish true r.c blob r.mem, 1, 1))
      else if r.c.edit_count ≠ 0 ∧ r.c.writable = false then
        (if (hb_blob_get_data_writable blob r.mem heap).1 ≠ 0 then
          (sanitize_blob_retry_counted T heap fuel
            { r.c with
              start := (hb_blob_get_data_writable blob r.mem heap).1
              end_ := (hb_blob_get_data_writable blob r.mem heap).1 +
                (hb_blob_get_data_writable blob r.mem heap).2.1.length
              writable := true }
            (hb_blob_get_data_writable blob r.mem heap).2.1
            (hb_blob_get_data_writable blob r.mem heap).2.2).map
            (fun x => (x.1, x.2.1 + 1, x.2.2 + 1))
        else some (sanitize_blob_finish false
          { r.c with
            start := (hb_blob_get_data_writable blob r.mem heap).1
            end_ := (hb_blob_get_data_writable blob r.mem heap).1 +
              (hb_blob_get_data_writable blob r.mem heap).2.1.length }
          (hb_blob_get_data_writable blob r.mem heap).2.1
          (hb_blob_get_data_writable blob r.mem heap).2.2, 1, 1))
      else some (sanitize_blob_finish false r.c blob r.mem, 1, 1) := by
  subst hr
  rfl

/-- On a writable context the body runs one pass, with at most two invocations of
`T::sanitize`, provided that `T::sanitize` leaves `writable` alone. -/
theorem sanitize_blob_retry_counted_writable (T : TableType)
    (hT : ∀ p d mm, (T.sanitize p d mm).c.writable = d.writable) (heap fuel : Nat)
    (c : hb_sanitize_context_t) (blob : hb_blob_t) (m : Memory) (hw : c.writable = true) :
    ∃ r calls, sanitize_blob_retry_counted T heap (fuel + 1) c blob m = some (r, 1, calls) ∧
      calls ≤ 2 := by
  have hw1 : (c.start_processing blob).writable = true := hw
  have hw2 : (T.sanitize (c.start_processing blob).start (c.start_processing blob) m).c.writable
      = true := by rw [hT]; exact hw1
  rw [sanitize_blob_retry_counted_step T heap fuel c blob m _ rfl]
  generalize T.sanitize (c.start_processing blob).start (c.start_processing blob) m = r at hw2 ⊢
  by_cases h1 : (c.start_processing blob).start = 0
  · rw [if_pos h1]
    exact ⟨_, 0, rfl, by omega⟩
  · rw [if_neg h1]
    by_cases h2 : r.ret = true
    · rw [if_pos h2]
      by_cases h3 : r.c.edit_count ≠ 0
      · rw [if_pos h3]
        exact ⟨_, 2, rfl, by omega⟩
      · rw [if_neg h3]
        exact ⟨_, 1, rfl, by omega⟩
    · rw [if_neg h2]
      have h4 : ¬ (r.c.edit_count ≠ 0 ∧ r.c.writable = false) := by
        rw [hw2]
        intro h
        exact absurd h.2 (by decide)
      rw [if_neg h4]
      exact ⟨_, 1, rfl, by omega⟩

/-- With two units of fuel the body returns, after at most two passes and at most
three invocations of `T::sanitize`. -/
theorem sanitize_blob_retry_counted_bound (T : TableType)
    (hT : ∀ p d mm, (T.sanitize p d mm).c.writable = d.writable) (heap fuel : Nat)
    (c : hb_sanitize_context_t) (blob : hb_blob_t) (m : Memory) :
    ∃ r passes calls,
      sanitize_blob_retry_counted T heap (fuel + 2) c blob m = some (r, passes, calls) ∧
      passes ≤ 2 ∧ calls ≤ 3 ∧ (passes = 1 → calls ≤ 2) := by
  rw [sanitize_blob_retry_counted_step T heap (fuel + 1) c blob m _ rfl]
  generalize T.sanitize (c.start_processing blob).start (c.start_processing blob) m = r
  by_cases h1 : (c.start_processing blob).start = 0
  · rw [if_pos h1]
    exact ⟨_, 1, 0, rfl, by omega, by omega, by omega⟩
  · rw [if_neg h1]
    by_cases h2 : r.ret = true
    · rw [if_pos h2]
      by_cases h3 : r.c.edit_count ≠ 0
      · rw [if_pos h3]
        exact ⟨_, 1, 2, rfl, by omega, by omega, by omega⟩
      · rw [if_neg h3]
        exact ⟨_, 1, 1, rfl, by omega, by omega, by omega⟩
    · rw [if_neg h2]
      by_cases h4 : r.c.edit_count ≠ 0 ∧ r.c.writable = false
      · rw [if_pos h4]
        by_cases h5 : (hb_blob_get_data_writable blob r.mem heap).1 ≠ 0
        · rw [if_pos h5]
          obtain ⟨r3, calls, hr3, hc⟩ := sanitize_blob_retry_counted_writable T hT heap fuel
            { r.c with
              start := (hb_blob_get_data_writable blob r.mem heap).1
              end_ := (hb_blob_get_data_writable blob r.mem heap).1 +
                (hb_blob_get_data_writable blob r.mem heap).2.1.length
              writable := true }
            (hb_blob_get_data_writable blob r.mem heap).2.1
            (hb_blob_get_data_writable blob r.mem heap).2.2 rfl
          rw [hr3]
          exact ⟨r3, 2, calls + 1, rfl, by omega, by omega, by omega⟩
        · rw [if_neg h5]
          exact ⟨_, 1, 1, rfl, by omega, by omega, by omega⟩
      · rw [if_neg h4]
        exact ⟨_, 1, 1, rfl, by omega, by omega, by omega⟩

/-- On a writable context the fuel beyond one unit is not used. -/
theorem sanitize_blob_retry_counted_writable_fuel (T : TableType)
    (hT : ∀ p d mm, (T.sanitize p d mm).c.writable = d.writable) (heap fuel : Nat)
    (c : hb_sanitize_context_t) (blob : hb_blob_t) (m : Memory) (hw : c.writable = true) :
    sanitize_blob_retry_counted T heap (fuel + 1) c blob m =
      sanitize_blob_retry_counted T heap 1 c blob m := by
  have hw1 : (c.start_processing blob).writable = true := hw
  have hw2 : (T.sanitize (c.start_processing blob).start (c.start_processing blob) m).c.writable
      = true := by rw [hT]; exact hw1
  rw [sanitize_blob_retry_counted_step T heap fuel c blob m _ rfl,
    sanitize_blob_retry_counted_step T heap 0 c blob m _ rfl]
  generalize T.sanitize (c.start_processing blob).start (c.start_processing blob) m = r at hw2 ⊢
  have h4 : ¬ (r.c.edit_count ≠ 0 ∧ r.c.writable = false) := by
    rw [hw2]
    intro h
    exact absurd h.2 (by decide)
  rw [if_neg h4, if_neg h4]

/-- Two units of fuel are all the body ever uses. -/
theorem sanitize_blob_retry_counted_fuel (T : TableType)
    (hT : ∀ p d mm, (T.sanitize p d mm).c.writable = d.writable) (heap fuel : Nat)
    (c : hb_sanitize_context_t) (blob : hb_blob_t) (m : Memory) :
    sanitize_blob_retry_counted T heap (fuel + 2) c blob m =
      sanitize_blob_retry_counted T heap 2 c blob m := by
  rw [sanitize_blob_retry_counted_step T heap (fuel + 1) c blob m _ rfl,
    sanitize_blob_retry_counted_step T heap 1 c blob m _ rfl]
  generalize T.sanitize (c.start_processing blob).start (c.start_processing blob) m = r
  rw [sanitize_blob_retry_counted_writable_fuel T hT heap fuel _ _ _ rfl]


/-- The traced loop computes the result of `bsearch_loop`. -/
theorem bsearch_loop_traced_fst (c : Int → Int) :
    ∀ (fuel : Nat) (min max : Int),
      (SortedArrayOf.bsearch_loop_traced c fuel min max).map (fun r => r.1) =
        SortedArrayOf.bsearch_loop c fuel min max := by
  intro fuel
  induction fuel with
  | zero => intro min max; rfl
  | succ fuel ih =>
    intro min max
    rw [SortedArrayOf.bsearch_loop_traced, SortedArrayOf.bsearch_loop]
    simp only []
    split_ifs
    · rw [Option.map_map, ← ih]
      rfl
    · rw [Option.map_map, ← ih]
      rfl
    · rfl
    · rfl

/-- Whatever `cmp` answers, the loop returns within `max + 1 - min` iterations, reads
only indices of `[min, max]`, and returns `-1` or an index read last at which `cmp`
is zero. -/
theorem bsearch_loop_traced_safe (c : Int → Int) (n : Nat) :
    ∀ (fuel : Nat) (min max : Int), 0 ≤ min → max < n → (max + 1 - min).toNat < fuel →
      ∃ r reads, SortedArrayOf.bsearch_loop_traced c fuel min max = some (r, reads) ∧
        (∀ i ∈ reads, 0 ≤ i ∧ i < (n : Int)) ∧
        (r = -1 ∨ (0 ≤ r ∧ r < (n : Int) ∧ c r = 0 ∧ r ∈ reads)) ∧
        reads.length ≤ (max + 1 - min).toNat := by
  intro fuel
  induction fuel with
  | zero =>
    intro min max _ _ hf
    exact absurd hf (Nat.not_lt_zero _)
  | succ fuel ih =>
    intro min max h0 hn hf
    rw [SortedArrayOf.bsearch_loop_traced]
    by_cases h : min ≤ max
    · rw [if_pos h]
      have hmid : (min + max).tdiv 2 = (min + max) / 2 :=
        Int.tdiv_eq_ediv (by omega) (by decide)
      simp only [hmid]
      have hm1 : min ≤ (min + max) / 2 := by omega
      have hm2 : (min + max) / 2 ≤ max := by omega
      generalize (min + max) / 2 = mid at hm1 hm2 ⊢
      by_cases hc1 : c mid < 0
      · rw [if_pos hc1]
        obtain ⟨r, reads, hr, hreads, hres, hl⟩ := ih min (mid - 1) h0 (by omega) (by omega)
        rw [hr]
        refine ⟨r, mid :: reads, rfl, ?_, ?_, ?_⟩
        · intro i hi
          rcases List.mem_cons.1 hi with e | e
          · rw [e]; omega
          · exact hreads i e
        · rcases hres with e | ⟨a, b, c0, d⟩
          · left; exact e
          · right; exact ⟨a, b, c0, List.mem_cons_of_mem _ d⟩
        · simp only [List.length_cons]
          omega
      · rw [if_neg hc1]
        by_cases hc2 : c mid > 0
        · rw [if_pos hc2]
          obtain ⟨r, reads, hr, hreads, hres, hl⟩ := ih (mid + 1) max (by omega) hn (by omega)
          rw [hr]
          refine ⟨r, mid :: reads, rfl, ?_, ?_, ?_⟩
          · intro i hi
            rcases List.mem_cons.1 hi with e | e
            · rw [e]; omega
            · exact hreads i e
          · rcases hres with e | ⟨a, b, c0, d⟩
            · left; exact e
            · right; exact ⟨a, b, c0, List.mem_cons_of_mem _ d⟩
          · simp only [List.length_cons]
            omega
        · rw [if_neg hc2]
          refine ⟨mid, [mid], rfl, ?_, ?_, ?_⟩
          · intro i hi
            rw [List.mem_singleton.1 hi]
            omega
          · right
            exact ⟨by omega, by omega, by omega, List.mem_singleton.2 rfl⟩
          · simp only [List.length_singleton]
            omega
    · rw [if_neg h]
      refine ⟨-1, [], rfl, ?_, Or.inl rfl, ?_⟩
      · intro i hi
        exact absurd hi (List.not_mem_nil _)
      · simp only [List.length_nil]
        omega


/-- With two ops of budget the aggregate check accepts exactly the arrays that lie
inside the blob. -/
theorem ArrayOf.sanitize_true_iff (L : IntType) (ss p : Nat) (c : hb_sanitize_context_t)
    (m : Memory) (hc : c.spans_blob) (hops : 2 ≤ c.max_ops) :
    (ArrayOf.sanitize L ss p c m).1 = true ↔
      (c.start ≤ p ∧ p + L.Size ≤ c.end_) ∧ p + L.Size + ArrayOf.len L m p * ss ≤ c.end_ := by
  have h1 := check_range_true_iff c p L.Size hc
  have h2 := check_array_true_iff (c.check_range p L.Size).2 (p + L.Size) ss
    (ArrayOf.len L m p) (check_range_spans_blob c p L.Size hc)
  have h3 : (c.check_range p L.Size).2.max_ops = c.max_ops - 1 := rfl
  have h4 : (c.check_range p L.Size).2.start = c.start := rfl
  have h5 : (c.check_range p L.Size).2.end_ = c.end_ := rfl
  rw [h3, h4, h5] at h2
  have e : (ArrayOf.sanitize L ss p c m).1 =
      ((c.check_range p L.Size).1 && ((c.check_range p L.Size).2.check_array (p + L.Size) ss
        (ArrayOf.len L m p)).1) := by
    simp only [ArrayOf.sanitize, ArrayOf.sanitize_shallow, IntType.sanitize,
      hb_sanitize_context_t.check_struct, ArrayOf.arrayZ, IntType.min_size]
    cases hA : (c.check_range p L.Size).1 <;>
      cases hB : ((c.check_range p L.Size).2.check_array (p + L.Size) ss
        (ArrayOf.len L m p)).1 <;> simp [hB]
  rw [e, Bool.and_eq_true, h1, h2, Nat.mul_comm ss]
  constructor
  · rintro ⟨⟨_, a, b⟩, _, _, d⟩
    exact ⟨⟨a, b⟩, d⟩
  · rintro ⟨⟨a, b⟩, d⟩
    exact ⟨⟨by omega, a, b⟩, by omega, by omega, d⟩

/-- With one op per element left, the per-element loop accepts exactly when every
element lies inside the blob. -/
theorem ArrayOf.per_element_loop_true_iff (ss arr : Nat) :
    ∀ (n i : Nat) (c : hb_sanitize_context_t), c.spans_blob → (n : Int) ≤ c.max_ops →
      c.start ≤ arr →
      ((ArrayOf.per_element_loop ss arr n i c).1 = true ↔
        ∀ j, j < n → arr + (i + j) * ss + ss ≤ c.end_) := by
  intro n
  induction n with
  | zero =>
    intro i c _ _ _
    simp only [ArrayOf.per_element_loop, true_iff]
    intro j hj
    omega
  | succ n ih =>
    intro i c hc hops hstart
    have h1 := check_range_true_iff c (arr + i * ss) ss hc
    have hih := ih (i + 1) (c.check_range (arr + i * ss) ss).2
      (check_range_spans_blob c _ _ hc)
      (by
        show (n : Int) ≤ c.max_ops - 1
        push_cast at hops
        omega)
      hstart
    have h5 : (c.check_range (arr + i * ss) ss).2.end_ = c.end_ := rfl
    rw [h5] at hih
    rw [ArrayOf.per_element_loop]
    simp only [hb_sanitize_context_t.check_struct]
    cases hA : (c.check_range (arr + i * ss) ss).1
    · simp only [Bool.not_false, if_true, Bool.false_eq_true, false_iff]
      intro hall
      have h0 := hall 0 (by omega)
      rw [Nat.add_zero] at h0
      have := h1.2 ⟨by push_cast at hops; omega, by
        have : 0 ≤ i * ss := Nat.zero_le _
        omega, h0⟩
      rw [hA] at this
      exact absurd this (by decide)
    · simp only [Bool.not_true, Bool.false_eq_true, if_false]
      rw [hih]
      have hA2 := (h1.1 hA).2.2
      constructor
      · intro hall j hj
        rcases Nat.eq_zero_or_pos j with hz | hpos
        · rw [hz, Nat.add_zero]
          exact hA2
        · have := hall (j - 1) (by omega)
          have e : i + 1 + (j - 1) = i + j := by omega
          rw [e] at this
          exact this
      · intro hall j hj
        have := hall (j + 1) (by omega)
        have e : i + (j + 1) = i + 1 + j := by omega
        rw [e] at this
        exact this

/-- All `n` elements end inside the blob exactly when the last one does. -/
theorem elements_fit_iff (arr ss n e : Nat) (harr : arr ≤ e) :
    (∀ j, j < n → arr + (0 + j) * ss + ss ≤ e) ↔ arr + n * ss ≤ e := by
  constructor
  · intro hall
    rcases Nat.eq_zero_or_pos n with hz | hpos
    · rw [hz, Nat.zero_mul]
      exact harr
    · have := hall (n - 1) (by omega)
      have e1 : (0 + (n - 1)) * ss + ss = n * ss := by
        rw [Nat.zero_add, ← Nat.succ_mul]
        congr 1
        omega
      omega
  · intro h j hj
    have h2 : (j + 1) * ss ≤ n * ss := Nat.mul_le_mul_right _ (by omega)
    rw [Nat.zero_add]
    rw [Nat.succ_mul] at h2
    omega

/-- With one op for the length and one per element, per-element sanitization
accepts exactly the arrays that lie inside the blob. -/
theorem ArrayOf.sanitize_per_element_true_iff (L : IntType) (ss p : Nat)
    (c : hb_sanitize_context_t) (m : Memory) (hc : c.spans_blob)
    (hops : (ArrayOf.len L m p : Int) + 1 ≤ c.max_ops) :
    (ArrayOf.sanitize_per_element L ss p c m).1 = true ↔
      (c.start ≤ p ∧ p + L.Size ≤ c.end_) ∧ p + L.Size + ArrayOf.len L m p * ss ≤ c.end_ := by
  have h1 := check_range_true_iff c p L.Size hc
  simp only [ArrayOf.sanitize_per_element, IntType.sanitize, hb_sanitize_context_t.check_struct,
    IntType.min_size, ArrayOf.arrayZ]
  cases hA : (c.check_range p L.Size).1
  · simp only [Bool.not_false, if_true, Bool.false_eq_true, false_iff]
    rintro ⟨⟨a, b⟩, _⟩
    have := h1.2 ⟨by omega, a, b⟩
    rw [hA] at this
    exact absurd this (by decide)
  · simp only [Bool.not_true, Bool.false_eq_true, if_false]
    obtain ⟨_, a, b⟩ := h1.1 hA
    have hl := ArrayOf.per_element_loop_true_iff ss (p + L.Size) (ArrayOf.len L m p) 0
      (c.check_range p L.Size).2 (check_range_spans_blob c _ _ hc)
      (by
        show (ArrayOf.len L m p : Int) ≤ c.max_ops - 1
        omega)
      (by
        show c.start ≤ p + L.Size
        omega)
    have h5 : (c.check_range p L.Size).2.end_ = c.end_ := rfl
    rw [h5] at hl
    rw [hl, elements_fit_iff (p + L.Size) ss (ArrayOf.len L m p) c.end_ b]
    constructor
    · intro h
      exact ⟨⟨a, b⟩, h⟩
    · intro h
      exact h.2


/-- Where the product does not overflow, for every blob of length below `2 ^ 28`,
`start_processing ()` leaves `max_ops = max (16384, (end - start) * 8)` as a
mathematical integer. For every 32-bit length the value stored is the
`unsigned int` `max (16384, (end - start) * 8 mod 2 ^ 32)` converted to `int`,
`edit_count = 0`, and `start`, `end` are the blob's data bounds, both null for an
empty blob. -/
theorem start_processing_spec (c : hb_sanitize_context_t) (b : hb_blob_t)
    (hlen : b.length < 2 ^ 32) :
    (b.length < 2 ^ 28 →
      (c.start_processing b).max_ops =
        max 16384 ((((c.start_processing b).end_ : Int) - (c.start_processing b).start) * 8)) ∧
    (c.start_processing b).max_ops = to_int (max ((b.length * 8) % 2 ^ 32) 16384) ∧
    (c.start_processing b).edit_count = 0 ∧
    (c.start_processing b).start = hb_blob_get_data b ∧
    (c.start_processing b).end_ = hb_blob_get_data b + b.length ∧
    (b.length ≠ 0 → (c.start_processing b).start = b.data ∧
      (c.start_processing b).end_ = b.data + b.length) ∧
    (b.length = 0 → (c.start_processing b).start = 0 ∧ (c.start_processing b).end_ = 0) ∧
    (c.start_processing b).writable = c.writable := by
  have hmo : (c.start_processing b).max_ops =
      to_int (max (((hb_blob_get_data b + b.length - hb_blob_get_data b) % 2 ^ UINT_BITS *
        HB_SANITIZE_MAX_OPS_FACTOR) % 2 ^ UINT_BITS) HB_SANITIZE_MAX_OPS_MIN) := rfl
  have hs : (c.start_processing b).start = hb_blob_get_data b := rfl
  have he : (c.start_processing b).end_ = hb_blob_get_data b + b.length := rfl
  have hsub : hb_blob_get_data b + b.length - hb_blob_get_data b = b.length := by omega
  rw [hsub] at hmo
  unfold UINT_BITS HB_SANITIZE_MAX_OPS_FACTOR HB_SANITIZE_MAX_OPS_MIN at hmo
  have hmod : b.length % 2 ^ 32 = b.length := Nat.mod_eq_of_lt hlen
  rw [hmod] at hmo
  refine ⟨?_, hmo, rfl, hs, he, ?_, ?_, rfl⟩
  · intro hsmall
    rw [hmo, hs, he]
    have h8 : (b.length * 8) % 2 ^ 32 = b.length * 8 := Nat.mod_eq_of_lt (by omega)
    rw [h8]
    unfold to_int UINT_BITS
    have hm : max (b.length * 8) 16384 % 2 ^ 32 = max (b.length * 8) 16384 :=
      Nat.mod_eq_of_lt (by omega)
    rw [hm, if_pos (by omega)]
    push_cast
    omega
  · intro hne
    rw [hs, he]
    simp only [hb_blob_get_data, hne, if_false, and_self]
  · intro hz
    rw [hs, he]
    simp only [hb_blob_get_data, hz, if_true, and_self]

/-- For a 12-byte blob at address 1000 `start_processing ()` leaves
`max_ops = max (16384, 96)`. -/
theorem start_processing_spec_witness :
    (hb_sanitize_context_t.new.start_processing (hb_blob_t.mk_unlocked 1000 12)).max_ops =
      max 16384
        ((((hb_sanitize_context_t.new.start_processing (hb_blob_t.mk_unlocked 1000 12)).end_ : Int) -
          (hb_sanitize_context_t.new.start_processing (hb_blob_t.mk_unlocked 1000 12)).start) * 8) :=
  (start_processing_spec hb_sanitize_context_t.new (hb_blob_t.mk_unlocked 1000 12)
    (by decide)).1 (by decide)

end lemmas

/-- C1: when `check_range (p, n)` returns true, `start ≤ p` and `p + n ≤ end` as
natural numbers (no wraparound), however large `n` is; the same for
`check_struct (obj)` with `n = min_size`. -/
theorem check_range_sound (c : hb_sanitize_context_t) (p n : Nat) (hc : c.spans_blob) :
    ((c.check_range p n).1 = true → c.start ≤ p ∧ p + n ≤ c.end_) ∧
    ((c.check_struct p n).1 = true → c.start ≤ p ∧ p + n ≤ c.end_) := by
  have h := check_range_true_iff c p n hc
  exact ⟨fun h1 => (h.1 h1).2, fun h1 => (h.1 h1).2⟩

/-- C1 at a 12-byte blob at address 1000: the range `[1004, 1012)` passes and lies
inside the blob. -/
theorem check_range_sound_witness :
    (((hb_sanitize_context_t.new.start_processing (hb_blob_t.mk_unlocked 1000 12)).check_range
        1004 8).1 = true ∧
      (hb_sanitize_context_t.new.start_processing (hb_blob_t.mk_unlocked 1000 12)).start ≤ 1004 ∧
      1004 + 8 ≤ (hb_sanitize_context_t.new.start_processing (hb_blob_t.mk_unlocked 1000 12)).end_) :=
  ⟨by decide, ((check_range_sound _ 1004 8 (by decide)).1 (by decide))⟩

/-- C3: with two ops of budget left, `ArrayOf<T, HBUINT16>::sanitize (c)` for an
offset-free `T` returns true exactly when the length field lies inside the blob and
`p + 2 + len * static_size ≤ end`; then every element lies wholly inside the blob.
A 12-byte blob with `len = 1` (one 16-bit element) is accepted and a 4-byte blob
with `len = 0xFFFF` is rejected. -/
theorem ArrayOf_sanitize_iff (static_size p : Nat) (c : hb_sanitize_context_t) (m : Memory)
    (hc : c.spans_blob) (hops : 2 ≤ c.max_ops) :
    ((ArrayOf.sanitize HBUINT16 static_size p c m).1 = true ↔
      (c.start ≤ p ∧ p + 2 ≤ c.end_) ∧
        p + 2 + ArrayOf.len HBUINT16 m p * static_size ≤ c.end_) ∧
    ((ArrayOf.sanitize HBUINT16 static_size p c m).1 = true →
      ∀ i, i < ArrayOf.len HBUINT16 m p →
        c.start ≤ ArrayOf.arrayZ HBUINT16 p + i * static_size ∧
        ArrayOf.arrayZ HBUINT16 p + i * static_size + static_size ≤ c.end_) ∧
    (ArrayOf.sanitize HBUINT16 2 1000
      (hb_sanitize_context_t.new.start_processing (hb_blob_t.mk_unlocked 1000 12))
      (Memory.of_bytes 1000 [0, 1, 0x12, 0x34, 0, 0, 0, 0, 0, 0, 0, 0])).1 = true ∧
    (0 < static_size →
      (ArrayOf.sanitize HBUINT16 static_size 1000
        (hb_sanitize_context_t.new.start_processing (hb_blob_t.mk_unlocked 1000 4))
        (Memory.of_bytes 1000 [0xFF, 0xFF, 0, 0])).1 = false) := by
  have key : ∀ (ss q : Nat) (d : hb_sanitize_context_t) (mm : Memory), d.spans_blob →
      2 ≤ d.max_ops →
      ((ArrayOf.sanitize HBUINT16 ss q d mm).1 = true ↔
        (d.start ≤ q ∧ q + 2 ≤ d.end_) ∧ q + 2 + ArrayOf.len HBUINT16 mm q * ss ≤ d.end_) := by
    intro ss q d mm hd hd2
    have h1 := check_range_true_iff d q 2 hd
    have h2 := check_array_true_iff (d.check_range q 2).2 (q + 2) ss
      (ArrayOf.len HBUINT16 mm q) (check_range_spans_blob d q 2 hd)
    have h3 : (d.check_range q 2).2.max_ops = d.max_ops - 1 := rfl
    have h4 : (d.check_range q 2).2.start = d.start := rfl
    have h5 : (d.check_range q 2).2.end_ = d.end_ := rfl
    rw [h3, h4, h5] at h2
    have e : (ArrayOf.sanitize HBUINT16 ss q d mm).1 =
        ((d.check_range q 2).1 && ((d.check_range q 2).2.check_array (q + 2) ss
          (ArrayOf.len HBUINT16 mm q)).1) := by
      simp only [ArrayOf.sanitize, ArrayOf.sanitize_shallow, IntType.sanitize,
        hb_sanitize_context_t.check_struct, ArrayOf.arrayZ, IntType.min_size, HBUINT16]
      cases hA : (d.check_range q 2).1 <;>
        cases hB : ((d.check_range q 2).2.check_array (q + 2) ss
          (ArrayOf.len { type := uint16_t, Size := 2 } mm q)).1 <;> simp [hB]
    rw [e, Bool.and_eq_true, h1, h2, Nat.mul_comm ss]
    constructor
    · rintro ⟨⟨_, a, b⟩, _, _, d⟩
      exact ⟨⟨a, b⟩, d⟩
    · rintro ⟨⟨a, b⟩, d⟩
      refine ⟨⟨by omega, a, b⟩, by omega, by omega, d⟩
  refine ⟨key static_size p c m hc hops, ?_, ?_, ?_⟩
  · intro h i hi
    have h1 := (key static_size p c m hc hops).1 h
    have h2 : i * static_size + static_size ≤ ArrayOf.len HBUINT16 m p * static_size := by
      calc i * static_size + static_size = (i + 1) * static_size := by ring
        _ ≤ ArrayOf.len HBUINT16 m p * static_size := Nat.mul_le_mul_right _ hi
    simp only [ArrayOf.arrayZ, HBUINT16]
    omega
  · decide
  · intro hss
    have h1 := key static_size 1000
      (hb_sanitize_context_t.new.start_processing (hb_blob_t.mk_unlocked 1000 4))
      (Memory.of_bytes 1000 [0xFF, 0xFF, 0, 0]) (by decide) (by decide)
    have h2 : ArrayOf.len HBUINT16 (Memory.of_bytes 1000 [0xFF, 0xFF, 0, 0]) 1000 = 65535 := by
      decide
    have h3 : (hb_sanitize_context_t.new.start_processing (hb_blob_t.mk_unlocked 1000 4)).end_
        = 1004 := by decide
    rw [h2, h3] at h1
    cases hr : (ArrayOf.sanitize HBUINT16 static_size 1000
        (hb_sanitize_context_t.new.start_processing (hb_blob_t.mk_unlocked 1000 4))
        (Memory.of_bytes 1000 [0xFF, 0xFF, 0, 0])).1
    · rfl
    · have h4 := (h1.1 hr).2
      have h5 : 65535 * 1 ≤ 65535 * static_size := Nat.mul_le_mul_left _ hss
      omega

/-- C3 at the 12-byte blob at address 1000 holding `len = 1` and the element
`0x1234`. -/
theorem ArrayOf_sanitize_iff_witness :
    (ArrayOf.sanitize HBUINT16 2 1000
        (hb_sanitize_context_t.new.start_processing (hb_blob_t.mk_unlocked 1000 12))
        (Memory.of_bytes 1000 [0, 1, 0x12, 0x34, 0, 0, 0, 0, 0, 0, 0, 0])).1 = true ↔
      ((hb_sanitize_context_t.new.start_processing (hb_blob_t.mk_unlocked 1000 12)).start ≤ 1000 ∧
        1000 + 2 ≤ (hb_sanitize_context_t.new.start_processing
          (hb_blob_t.mk_unlocked 1000 12)).end_) ∧
      1000 + 2 + ArrayOf.len HBUINT16
          (Memory.of_bytes 1000 [0, 1, 0x12, 0x34, 0, 0, 0, 0, 0, 0, 0, 0]) 1000 * 2 ≤
        (hb_sanitize_context_t.new.start_processing (hb_blob_t.mk_unlocked 1000 12)).end_ :=
  (ArrayOf_sanitize_iff 2 1000
    (hb_sanitize_context_t.new.start_processing (hb_blob_t.mk_unlocked 1000 12))
    (Memory.of_bytes 1000 [0, 1, 0x12, 0x34, 0, 0, 0, 0, 0, 0, 0, 0])
    (by decide) (by decide)).1

/-- C4: `check_array (base, record_size, n)` returns false whenever
`record_size * n` overflows 32 bits, whatever the other arguments and the context;
it returns false when `[base, base + record_size * n)` is not inside
`[start, end]`; and when the product does not overflow it is
`check_range (base, record_size * n)`. -/
theorem check_array_sound (c : hb_sanitize_context_t) (base record_size n : Nat) :
    (2 ^ 32 ≤ record_size * n → (c.check_array base record_size n).1 = false) ∧
    (c.spans_blob → ¬ (c.start ≤ base ∧ base + record_size * n ≤ c.end_) →
      (c.check_array base record_size n).1 = false) ∧
    (record_size * n < 2 ^ 32 →
      c.check_array base record_size n = c.check_range base (record_size * n)) := by
  refine ⟨?_, ?_, ?_⟩
  · intro h
    rw [check_array_of_overflow c base record_size n h]
  · intro hc h
    cases hr : (c.check_array base record_size n).1
    · rfl
    · have h1 := (check_array_true_iff c base record_size n hc).1 hr
      exact absurd ⟨h1.2.1, h1.2.2⟩ h
  · intro h
    exact check_array_eq_of_lt c base record_size n h

/-- C4 on a 12-byte blob at address 1000: a 64-byte record repeated `2 ^ 26` times
overflows and is refused; 4 records of 4 bytes at 1000 do not fit and are refused;
2 records of 4 bytes are checked as the 8-byte range. -/
theorem check_array_sound_witness :
    ((hb_sanitize_context_t.new.start_processing (hb_blob_t.mk_unlocked 1000 12)).check_array
        1000 64 (2 ^ 26)).1 = false ∧
    ((hb_sanitize_context_t.new.start_processing (hb_blob_t.mk_unlocked 1000 12)).check_array
        1000 4 4).1 = false ∧
    (hb_sanitize_context_t.new.start_processing (hb_blob_t.mk_unlocked 1000 12)).check_array
        1000 4 2 =
      (hb_sanitize_context_t.new.start_processing (hb_blob_t.mk_unlocked 1000 12)).check_range
        1000 (4 * 2) :=
  ⟨(check_array_sound _ 1000 64 (2 ^ 26)).1 (by decide),
   (check_array_sound _ 1000 4 4).2.1 (by decide) (by decide),
   (check_array_sound _ 1000 4 2).2.2 (by decide)⟩

/-- C5: `sanitize_blob<T> (blob)`, for any `T::sanitize` (which cannot reach the
private member `writable`), returns after at most one `goto retry`. It returns the
blob itself, untouched, when the blob is empty; the same blob, locked, when a
round accepts it (a pass succeeded with `edit_count = 0`, or succeeded with edits
and the repeated pass succeeded with `edit_count = 0`); and the shared empty blob,
the input being destroyed, in every other case. A repeated pass that records an
edit yields the empty blob even when it returned true. -/
theorem sanitize_blob_result_spec (T : TableType) (heap fuel : Nat) (c : hb_sanitize_context_t)
    (blob : hb_blob_t) (m : Memory)
    (hT : ∀ p d mm, (T.sanitize p d mm).c.writable = d.writable) :
    ∃ r, c.sanitize_blob T heap (fuel + 2) blob m = some r ∧
      r.ret = sanitize_blob_expected T heap c blob m ∧
      (hb_blob_get_data blob = 0 →
        r.ret = hb_blob_ptr.arg ∧ r.blob = blob ∧
        r.mem = m) ∧
      (hb_blob_get_data blob ≠ 0 → r.ret = hb_blob_ptr.arg →
        r.blob.locked = true ∧ r.blob.ref_count = blob.ref_count) ∧
      (r.ret = hb_blob_ptr.empty → r.blob.ref_count = blob.ref_count - 1) ∧
      ((T.sanitize (first_round_ctx c blob).start (first_round_ctx c blob) m).ret = true →
        (T.sanitize (first_round_ctx c blob).start (first_round_ctx c blob) m).c.edit_count ≠ 0 →
        (T.sanitize (first_round_ctx c blob).start
          { (T.sanitize (first_round_ctx c blob).start (first_round_ctx c blob) m).c with
            edit_count := 0 }
          (T.sanitize (first_round_ctx c blob).start (first_round_ctx c blob) m).mem).c.edit_count
          ≠ 0 →
        hb_blob_get_data blob ≠ 0 → r.ret = hb_blob_ptr.empty) := by
  have hd : hb_blob_destroy (hb_blob_reference blob) = blob := by
    simp [hb_blob_destroy, hb_blob_reference]
  have hrc : (hb_blob_reference blob).ref_count - 1 = blob.ref_count := by
    simp [hb_blob_reference]
  have hs0 : (first_round_ctx c blob).start = hb_blob_get_data blob := rfl
  have hunf : c.sanitize_blob T heap (fuel + 2) blob m =
      hb_sanitize_context_t.sanitize_blob_retry T heap (fuel + 1 + 1) (c.init blob).1
        (c.init blob).2 m := rfl
  have hfc : first_round_ctx c blob = (c.init blob).1.start_processing (c.init blob).2 := rfl
  rw [hunf]
  by_cases hempty : hb_blob_get_data blob = 0
  · rw [sanitize_blob_retry_empty T heap (fuel + 1) _ _ m (by rw [← hfc, hs0]; exact hempty)]
    refine ⟨_, rfl, ?_, ?_, ?_, ?_, ?_⟩
    · simp only [sanitize_blob_expected, hempty, if_true]
    · intro _
      exact ⟨rfl, hd, rfl⟩
    · intro h
      exact absurd hempty h
    · intro h
      exact absurd h (by simp)
    · intro _ _ _ h
      exact absurd hempty h
  · have hs : ((c.init blob).1.start_processing (c.init blob).2).start ≠ 0 := by
      rw [← hfc, hs0]; exact hempty
    have hw : (T.sanitize (first_round_ctx c blob).start (first_round_ctx c blob) m).c.writable
        = false := by
      rw [hT]; rfl
    by_cases hretry : retries_writable T heap c blob m = true
    · -- the round is run again on the writable copy
      have hr := hretry
      simp only [retries_writable, Bool.and_eq_true, Bool.not_eq_true', decide_eq_true_eq] at hr
      obtain ⟨⟨h1, h2⟩, h4⟩ := hr
      have hna : round_accepts T (first_round_ctx c blob) m = false := by
        simp only [round_accepts, h1, Bool.false_and]
      rw [sanitize_blob_retry_again T heap (fuel + 1) _ _ m hs h1 h2 hw h4]
      have hwk := hb_blob_get_data_writable_ok _ _ _ h4
      have hs2 : (second_round_ctx T heap c blob m).start ≠ 0 := by
        have e : (second_round_ctx T heap c blob m).start = hb_blob_get_data
            (hb_blob_get_data_writable (c.init blob).2
              (T.sanitize (first_round_ctx c blob).start (first_round_ctx c blob) m).mem
              heap).2.1 := rfl
        rw [e, hwk.2.1]
        simp only [hb_blob_get_data]
        rw [if_neg hwk.2.2.2.2.1]
        exact hwk.2.2.2.2.2
      obtain ⟨c1, m1, e⟩ := sanitize_blob_retry_final T heap fuel
        { (T.sanitize (first_round_ctx c blob).start (first_round_ctx c blob) m).c with
          start := (hb_blob_get_data_writable (c.init blob).2
            (T.sanitize (first_round_ctx c blob).start (first_round_ctx c blob) m).mem heap).1
          end_ := (hb_blob_get_data_writable (c.init blob).2
            (T.sanitize (first_round_ctx c blob).start (first_round_ctx c blob) m).mem heap).1 +
            (hb_blob_get_data_writable (c.init blob).2
            (T.sanitize (first_round_ctx c blob).start (first_round_ctx c blob)
              m).mem heap).2.1.length
          writable := true }
        (hb_blob_get_data_writable (c.init blob).2
          (T.sanitize (first_round_ctx c blob).start (first_round_ctx c blob) m).mem heap).2.1
        (hb_blob_get_data_writable (c.init blob).2
          (T.sanitize (first_round_ctx c blob).start (first_round_ctx c blob) m).mem heap).2.2
        hs2 (Or.inr (Or.inr (Or.inl (by rw [hT]; rfl))))
      rw [hfc] at e
      rw [e]
      have hrc2 : (hb_blob_get_data_writable (c.init blob).2
          (T.sanitize (first_round_ctx c blob).start (first_round_ctx c blob) m).mem
          heap).2.1.ref_count - 1 = blob.ref_count := by
        rw [hwk.2.1]; exact hrc
      have hexp : sanitize_blob_expected T heap c blob m =
          if round_accepts T (second_round_ctx T heap c blob m)
            (second_round_mem T heap c blob m) then hb_blob_ptr.arg else hb_blob_ptr.empty := by
        simp only [sanitize_blob_expected, hempty, if_false, hna, Bool.false_eq_true, hretry,
          Bool.true_and]
      have hacc : round_accepts T
          (({ (T.sanitize (first_round_ctx c blob).start (first_round_ctx c blob) m).c with
            start := (hb_blob_get_data_writable (c.init blob).2
              (T.sanitize (first_round_ctx c blob).start (first_round_ctx c blob) m).mem heap).1
            end_ := (hb_blob_get_data_writable (c.init blob).2
              (T.sanitize (first_round_ctx c blob).start (first_round_ctx c blob) m).mem heap).1 +
              (hb_blob_get_data_writable (c.init blob).2
              (T.sanitize (first_round_ctx c blob).start (first_round_ctx c blob)
                m).mem heap).2.1.length
            writable := true } : hb_sanitize_context_t).start_processing
            (hb_blob_get_data_writable (c.init blob).2
              (T.sanitize (first_round_ctx c blob).start (first_round_ctx c blob) m).mem
              heap).2.1)
          (hb_blob_get_data_writable (c.init blob).2
            (T.sanitize (first_round_ctx c blob).start (first_round_ctx c blob) m).mem heap).2.2
          = round_accepts T (second_round_ctx T heap c blob m)
            (second_round_mem T heap c blob m) := rfl
      rw [← hfc, hacc]
      cases hA : round_accepts T (second_round_ctx T heap c blob m)
          (second_round_mem T heap c blob m)
      · refine ⟨_, rfl, ?_, ?_, ?_, ?_, ?_⟩
        · rw [hexp, hA]; rfl
        · intro h; exact absurd h hempty
        · intro _ h; exact absurd h (by simp [hb_sanitize_context_t.sanitize_blob_finish])
        · intro _
          rw [(sanitize_blob_finish_false _ _ _).2, hrc2]
        · intro _ _ _ _
          rfl
      · refine ⟨_, rfl, ?_, ?_, ?_, ?_, ?_⟩
        · rw [hexp, hA]; rfl
        · intro h; exact absurd h hempty
        · intro _ _
          exact ⟨rfl, by rw [(sanitize_blob_finish_true _ _ _).2.2, hrc2]⟩
        · intro h; exact absurd h (by simp [hb_sanitize_context_t.sanitize_blob_finish])
        · intro h; rw [h1] at h; exact absurd h (by simp)
    · -- no retry
      have hretryf : retries_writable T heap c blob m = false := by simpa using hretry
      have hno : (T.sanitize (first_round_ctx c blob).start (first_round_ctx c blob) m).ret = true ∨
          (T.sanitize (first_round_ctx c blob).start (first_round_ctx c blob) m).c.edit_count
            = 0 ∨
          (T.sanitize (first_round_ctx c blob).start (first_round_ctx c blob) m).c.writable
            = true ∨
          (hb_blob_get_data_writable (c.init blob).2
            (T.sanitize (first_round_ctx c blob).start (first_round_ctx c blob) m).mem heap).1
            = 0 := by
        by_contra hcon
        simp only [not_or] at hcon
        apply hretry
        simp only [retries_writable, Bool.and_eq_true, Bool.not_eq_true', decide_eq_true_eq]
        exact ⟨⟨by simpa using hcon.1, hcon.2.1⟩, hcon.2.2.2⟩
      obtain ⟨c1, m1, e⟩ := sanitize_blob_retry_final T heap (fuel + 1) (c.init blob).1
        (c.init blob).2 m hs hno
      rw [e, ← hfc]
      have hexp : sanitize_blob_expected T heap c blob m =
          if round_accepts T (first_round_ctx c blob) m then hb_blob_ptr.arg
          else hb_blob_ptr.empty := by
        simp only [sanitize_blob_expected, hempty, if_false, hretryf, Bool.false_and,
          Bool.false_eq_true]
      have hrc1 : (c.init blob).2.ref_count - 1 = blob.ref_count := hrc
      cases hA : round_accepts T (first_round_ctx c blob) m
      · refine ⟨_, rfl, ?_, ?_, ?_, ?_, ?_⟩
        · rw [hexp, hA]; rfl
        · intro h; exact absurd h hempty
        · intro _ h; exact absurd h (by simp [hb_sanitize_context_t.sanitize_blob_finish])
        · intro _
          rw [(sanitize_blob_finish_false _ _ _).2, hrc1]
        · intro _ _ _ _
          rfl
      · refine ⟨_, rfl, ?_, ?_, ?_, ?_, ?_⟩
        · rw [hexp, hA]; rfl
        · intro h; exact absurd h hempty
        · intro _ _
          exact ⟨rfl, by rw [(sanitize_blob_finish_true _ _ _).2.2, hrc1]⟩
        · intro h; exact absurd h (by simp [hb_sanitize_context_t.sanitize_blob_finish])
        · intro h1 h2 h3 _
          exfalso
          simp only [round_accepts, h1, Bool.true_and, Bool.or_eq_true, decide_eq_true_eq,
            Bool.and_eq_true] at hA
          rcases hA with hA | hA
          · exact h2 hA
          · exact h3 hA.2

/-- C5 on a 12-byte blob at address 1000 with a 16-bit integer as root type: the
first pass succeeds without edits and the blob itself is returned. -/
theorem sanitize_blob_result_spec_witness :
    ∃ r, hb_sanitize_context_t.new.sanitize_blob HBUINT16.table 2000 2
        (hb_blob_t.mk_unlocked 1000 12)
        (Memory.of_bytes 1000 [0, 4, 0, 1, 0, 6, 0xAB, 0xCD, 0, 0, 0, 0]) = some r ∧
      r.ret = hb_blob_ptr.arg ∧ r.blob.locked = true :=
  match sanitize_blob_result_spec HBUINT16.table 2000 0 hb_sanitize_context_t.new
      (hb_blob_t.mk_unlocked 1000 12)
      (Memory.of_bytes 1000 [0, 4, 0, 1, 0, 6, 0xAB, 0xCD, 0, 0, 0, 0]) (fun _ _ _ => rfl) with
  | ⟨r, h1, h2, _, h4, _⟩ =>
    ⟨r, h1, h2.trans (by decide), (h4 (by decide) (h2.trans (by decide))).1⟩

/-- C6: when the offset field and the pointee start pass their range checks and the
pointee's `sanitize` fails, `OffsetTo::sanitize` neuters: on a writable context
with `edit_count < 32` it sets the offset to zero, raises `edit_count` by exactly
one and returns true; on a context that is not writable or whose `edit_count` has
reached 32 it returns false and the memory, the stored offset included, is
unchanged. `writable` and `edit_count` are those of the context the failed
pointee hands back. -/
theorem OffsetTo_sanitize_neuters (T : TableType) (O : IntType) (this : Nat)
    (c : hb_sanitize_context_t) (m : Memory) (base : Nat)
    (h1 : (c.check_struct this O.min_size).1 = true)
    (h0 : to_unsigned (O.get m this) ≠ 0)
    (h2 : ((c.check_struct this O.min_size).2.check_range base
      (to_unsigned (O.get m this))).1 = true)
    (h3 : (OffsetTo.pointee_outcome T O this c m base).ret = false) :
    ((OffsetTo.pointee_outcome T O this c m base).c.writable = true ∧
        (OffsetTo.pointee_outcome T O this c m base).c.edit_count < 32 →
      (OffsetTo.sanitize T O this c m base).ret = true ∧
      O.get (OffsetTo.sanitize T O this c m base).mem this = 0 ∧
      (OffsetTo.sanitize T O this c m base).c.edit_count =
        (OffsetTo.pointee_outcome T O this c m base).c.edit_count + 1) ∧
    ((OffsetTo.pointee_outcome T O this c m base).c.writable = false ∨
        32 ≤ (OffsetTo.pointee_outcome T O this c m base).c.edit_count →
      (OffsetTo.sanitize T O this c m base).ret = false ∧
      (OffsetTo.sanitize T O this c m base).mem =
        (OffsetTo.pointee_outcome T O this c m base).mem ∧
      O.get (OffsetTo.sanitize T O this c m base).mem this =
        O.get (OffsetTo.pointee_outcome T O this c m base).mem this) := by
  have e : OffsetTo.sanitize T O this c m base =
      OffsetTo.neuter O this (OffsetTo.pointee_outcome T O this c m base).c
        (OffsetTo.pointee_outcome T O this c m base).mem := by
    rcases OffsetTo_sanitize_cases T O this c m base with
      ⟨h, _⟩ | ⟨_, h, _⟩ | ⟨_, _, h, _⟩ | ⟨_, _, _, h, _⟩ | ⟨_, _, _, _, e⟩
    · rw [h1] at h; exact absurd h (by simp)
    · exact absurd h h0
    · rw [h2] at h; exact absurd h (by simp)
    · unfold OffsetTo.pointee_outcome at h3
      rw [h3] at h; exact absurd h (by simp)
    · exact e
  rw [e]
  unfold OffsetTo.neuter
  rw [try_set_eq]
  constructor
  · rintro ⟨hw, he⟩
    have he2 : (OffsetTo.pointee_outcome T O this c m base).c.edit_count
        < HB_SANITIZE_MAX_EDITS := he
    rw [if_pos he2, if_pos hw]
    exact ⟨rfl, IntType.get_set_zero O _ this, rfl⟩
  · intro h
    by_cases he : (OffsetTo.pointee_outcome T O this c m base).c.edit_count
        < HB_SANITIZE_MAX_EDITS
    · rw [if_pos he]
      rcases h with h | h
      · rw [h]; exact ⟨rfl, rfl, rfl⟩
      · exact absurd he (Nat.not_lt.mpr h)
    · rw [if_neg he]
      exact ⟨rfl, rfl, rfl⟩

/-- C6 on a 12-byte blob at address 1000 made writable: the offset `11` stored at
1000 points at a 16-bit integer that does not fit, and is neutered. -/
theorem OffsetTo_sanitize_neuters_witness :
    (OffsetTo.sanitize HBUINT16.table HBUINT16 1000
        { hb_sanitize_context_t.new.start_processing (hb_blob_t.mk_unlocked 1000 12) with
          writable := true }
        (Memory.of_bytes 1000 [0, 11, 0, 1, 0, 6, 0xAB, 0xCD, 0, 0, 0, 0]) 1000).ret = true ∧
    HBUINT16.get (OffsetTo.sanitize HBUINT16.table HBUINT16 1000
        { hb_sanitize_context_t.new.start_processing (hb_blob_t.mk_unlocked 1000 12) with
          writable := true }
        (Memory.of_bytes 1000 [0, 11, 0, 1, 0, 6, 0xAB, 0xCD, 0, 0, 0, 0]) 1000).mem 1000 = 0 ∧
    (OffsetTo.sanitize HBUINT16.table HBUINT16 1000
        { hb_sanitize_context_t.new.start_processing (hb_blob_t.mk_unlocked 1000 12) with
          writable := true }
        (Memory.of_bytes 1000 [0, 11, 0, 1, 0, 6, 0xAB, 0xCD, 0, 0, 0, 0]) 1000).c.edit_count =
      (OffsetTo.pointee_outcome HBUINT16.table HBUINT16 1000
        { hb_sanitize_context_t.new.start_processing (hb_blob_t.mk_unlocked 1000 12) with
          writable := true }
        (Memory.of_bytes 1000 [0, 11, 0, 1, 0, 6, 0xAB, 0xCD, 0, 0, 0, 0]) 1000).c.edit_count
        + 1 :=
  (OffsetTo_sanitize_neuters HBUINT16.table HBUINT16 1000
    { hb_sanitize_context_t.new.start_processing (hb_blob_t.mk_unlocked 1000 12) with
      writable := true }
    (Memory.of_bytes 1000 [0, 11, 0, 1, 0, 6, 0xAB, 0xCD, 0, 0, 0, 0]) 1000
    (by decide) (by decide) (by decide) (by decide)).1 ⟨by decide, by decide⟩

/-- C8: neutering is idempotent. After `OffsetTo::neuter` has succeeded, `is_null ()`
holds and the offset dereferences to `Null (Type)` against every base; and on any
memory that still holds the neutered field, `OffsetTo::sanitize (c, base)` whose
`check_struct` on the field passes returns true, leaves `edit_count` and the
memory (so the zero offset) unchanged, and its outcome does not depend on the
pointee type: the pointee is not inspected. -/
theorem neuter_idempotent (O : IntType) (this : Nat) (c : hb_sanitize_context_t) (m : Memory)
    (h : (OffsetTo.neuter O this c m).ret = true) :
    OffsetTo.is_null O (OffsetTo.neuter O this c m).mem this = true ∧
    (∀ base, OffsetTo.deref O (OffsetTo.neuter O this c m).mem this base = ObjRef.Null) ∧
    (∀ (T : TableType) (d : hb_sanitize_context_t) (m2 : Memory) (base : Nat),
      (∀ a, this ≤ a → a < this + O.Size → m2 a = (OffsetTo.neuter O this c m).mem a) →
      (d.check_struct this O.min_size).1 = true →
        (OffsetTo.sanitize T O this d m2 base).ret = true ∧
        (OffsetTo.sanitize T O this d m2 base).c.edit_count = d.edit_count ∧
        (OffsetTo.sanitize T O this d m2 base).mem = m2 ∧
        O.get (OffsetTo.sanitize T O this d m2 base).mem this = 0 ∧
        OffsetTo.sanitize T O this d m2 base = ⟨true, (d.check_struct this O.min_size).2, m2⟩) := by
  have hz := neuter_mem_get O this c m h
  refine ⟨?_, ?_, ?_⟩
  · simp only [OffsetTo.is_null, hz, decide_True]
  · intro base
    simp only [OffsetTo.deref, hz, to_unsigned_zero, if_true]
  · intro T d m2 base hm hd
    have hz2 : O.get m2 this = 0 := by
      rw [IntType.get_congr O m2 _ this hm]
      exact hz
    have e : OffsetTo.sanitize T O this d m2 base = ⟨true, (d.check_struct this O.min_size).2, m2⟩ := by
      rcases OffsetTo_sanitize_cases T O this d m2 base with
        ⟨h1, _⟩ | ⟨_, _, e⟩ | ⟨_, h1, _⟩ | ⟨_, h1, _⟩ | ⟨_, h1, _⟩
      · rw [hd] at h1; exact absurd h1 (by simp)
      · exact e
      · rw [hz2] at h1; exact absurd to_unsigned_zero h1
      · rw [hz2] at h1; exact absurd to_unsigned_zero h1
      · rw [hz2] at h1; exact absurd to_unsigned_zero h1
    rw [e]
    exact ⟨rfl, rfl, rfl, hz2, rfl⟩

/-- C8 on a 12-byte blob at address 1000 made writable, where the offset stored at
1000 is neutered: it then reads as null. -/
theorem neuter_idempotent_witness :
    OffsetTo.is_null HBUINT16
      (OffsetTo.neuter HBUINT16 1000
        { hb_sanitize_context_t.new.start_processing (hb_blob_t.mk_unlocked 1000 12) with
          writable := true }
        (Memory.of_bytes 1000 [0, 11, 0, 1, 0, 6, 0xAB, 0xCD, 0, 0, 0, 0])).mem 1000 = true :=
  (neuter_idempotent HBUINT16 1000
    { hb_sanitize_context_t.new.start_processing (hb_blob_t.mk_unlocked 1000 12) with
      writable := true }
    (Memory.of_bytes 1000 [0, 11, 0, 1, 0, 6, 0xAB, 0xCD, 0, 0, 0, 0]) (by decide)).1

/-- C9: on a context whose `writable` flag is false, `try_set` and
`OffsetTo::neuter` return false and leave the whole memory as it was, for every
object and value; and `OffsetTo::sanitize` leaves the whole memory as it was and
the context non-writable, and never succeeds by neutering, when the pointee's
`sanitize` itself writes nothing on a non-writable context. -/
theorem non_writable_writes_nothing (c : hb_sanitize_context_t) (m : Memory)
    (hw : c.writable = false) :
    (∀ (I : IntType) (obj : Nat) (v : Int),
      (c.try_set m I obj v).ret = false ∧ (c.try_set m I obj v).mem = m) ∧
    (∀ (O : IntType) (this : Nat),
      (OffsetTo.neuter O this c m).ret = false ∧ (OffsetTo.neuter O this c m).mem = m) ∧
    (∀ (T : TableType) (O : IntType) (this base : Nat),
      (∀ p d mm, d.writable = false →
        (T.sanitize p d mm).mem = mm ∧ (T.sanitize p d mm).c.writable = false) →
      (OffsetTo.sanitize T O this c m base).mem = m ∧
      (OffsetTo.sanitize T O this c m base).c.writable = false ∧
      ((OffsetTo.sanitize T O this c m base).ret = true →
        to_unsigned (O.get m this) = 0 ∨
        (OffsetTo.pointee_outcome T O this c m base).ret = true)) := by
  have key : ∀ (d : hb_sanitize_context_t) (mm : Memory) (I : IntType) (obj : Nat) (v : Int),
      d.writable = false →
      (d.try_set mm I obj v).ret = false ∧ (d.try_set mm I obj v).mem = mm ∧
      (d.try_set mm I obj v).c.writable = false := by
    intro d mm I obj v hd
    rw [try_set_eq]
    split
    · rw [hd]; exact ⟨rfl, rfl, rfl⟩
    · exact ⟨rfl, rfl, hd⟩
  refine ⟨fun I obj v => ⟨(key c m I obj v hw).1, (key c m I obj v hw).2.1⟩,
    fun O this => ⟨(key c m O this 0 hw).1, (key c m O this 0 hw).2.1⟩, ?_⟩
  intro T O this base hT
  have hw2 : ((c.check_struct this O.min_size).2.check_range base
      (to_unsigned (O.get m this))).2.writable = false := hw
  have hp := hT (base + to_unsigned (O.get m this)) _ m hw2
  rcases OffsetTo_sanitize_cases T O this c m base with
    ⟨_, e⟩ | ⟨_, h0, e⟩ | ⟨_, _, _, e⟩ | ⟨_, _, _, h4, e⟩ | ⟨_, _, _, _, e⟩
  · rw [e]; exact ⟨rfl, hw, fun h => absurd h (by simp)⟩
  · rw [e]; exact ⟨rfl, hw, fun _ => Or.inl h0⟩
  · rw [e]; exact ⟨rfl, hw, fun h => absurd h (by simp)⟩
  · rw [e]; exact ⟨hp.1, hp.2, fun _ => Or.inr h4⟩
  · rw [e]
    have hk := key _ (T.sanitize (base + to_unsigned (O.get m this))
      ((c.check_struct this O.min_size).2.check_range base (to_unsigned (O.get m this))).2 m).mem
      O this 0 hp.2
    unfold OffsetTo.neuter
    refine ⟨hk.2.1.trans hp.1, hk.2.2, fun h => ?_⟩
    rw [hk.1] at h
    exact absurd h (by simp)

/-- C9 on a 12-byte blob at address 1000, not writable: an attempt to store 7 in the
16-bit integer at 1000 is refused and the memory is unchanged. -/
theorem non_writable_writes_nothing_witness :
    ((hb_sanitize_context_t.new.start_processing (hb_blob_t.mk_unlocked 1000 12)).try_set
        (Memory.of_bytes 1000 [0, 11, 0, 1, 0, 6, 0xAB, 0xCD, 0, 0, 0, 0]) HBUINT16 1000 7).ret
      = false ∧
    ((hb_sanitize_context_t.new.start_processing (hb_blob_t.mk_unlocked 1000 12)).try_set
        (Memory.of_bytes 1000 [0, 11, 0, 1, 0, 6, 0xAB, 0xCD, 0, 0, 0, 0]) HBUINT16 1000 7).mem
      = Memory.of_bytes 1000 [0, 11, 0, 1, 0, 6, 0xAB, 0xCD, 0, 0, 0, 0] :=
  (non_writable_writes_nothing
    (hb_sanitize_context_t.new.start_processing (hb_blob_t.mk_unlocked 1000 12))
    (Memory.of_bytes 1000 [0, 11, 0, 1, 0, 6, 0xAB, 0xCD, 0, 0, 0, 0]) rfl).1 HBUINT16 1000 7

/-- C11: `edit_count ≤ 32` is an invariant of the sanitize context. It holds after
construction and after `start_processing`; `may_edit`, `try_set`,
`OffsetTo::neuter` and `OffsetTo::sanitize` preserve it, as do the checks; any
number of edit requests in a row leaves it in place; and every context
`sanitize_blob` goes through satisfies it: the contexts of both rounds, those the
passes hand back, and the one it ends with. `T::sanitize` reaches `edit_count`
through the context's methods only, so it preserves the invariant. -/
theorem edit_count_bounded (T : TableType)
    (hT : ∀ p d mm, d.edit_count ≤ 32 → (T.sanitize p d mm).c.edit_count ≤ 32) :
    hb_sanitize_context_t.new.edit_count ≤ 32 ∧
    (∀ (c : hb_sanitize_context_t) (b : hb_blob_t), (c.start_processing b).edit_count ≤ 32) ∧
    (∀ (c : hb_sanitize_context_t), c.edit_count ≤ 32 →
      (∀ base len, (c.may_edit base len).2.edit_count ≤ 32) ∧
      (∀ m I obj v, (c.try_set m I obj v).c.edit_count ≤ 32) ∧
      (∀ O this m, (OffsetTo.neuter O this c m).c.edit_count ≤ 32) ∧
      (∀ O this m base, (OffsetTo.sanitize T O this c m base).c.edit_count ≤ 32) ∧
      (∀ k : check_call, (k.run c).2.edit_count ≤ 32) ∧
      (∀ n : Nat, ((fun d : hb_sanitize_context_t => (d.may_edit 0 0).2)^[n] c).edit_count ≤ 32)) ∧
    (∀ (heap fuel : Nat) (c : hb_sanitize_context_t) (blob : hb_blob_t) (m : Memory),
      (first_round_ctx c blob).edit_count ≤ 32 ∧
      (T.sanitize (first_round_ctx c blob).start (first_round_ctx c blob) m).c.edit_count ≤ 32 ∧
      (T.sanitize (first_round_ctx c blob).start
        { (T.sanitize (first_round_ctx c blob).start (first_round_ctx c blob) m).c with
          edit_count := 0 }
        (T.sanitize (first_round_ctx c blob).start (first_round_ctx c blob) m).mem).c.edit_count
        ≤ 32 ∧
      (second_round_ctx T heap c blob m).edit_count ≤ 32 ∧
      (T.sanitize (second_round_ctx T heap c blob m).start (second_round_ctx T heap c blob m)
        (second_round_mem T heap c blob m)).c.edit_count ≤ 32 ∧
      ∀ r, c.sanitize_blob T heap fuel blob m = some r → r.c.edit_count ≤ 32) := by
  refine ⟨Nat.zero_le _, fun _ _ => Nat.zero_le _, fun c hc => ⟨?_, ?_, ?_, ?_, ?_, ?_⟩, ?_⟩
  · intro base len
    exact may_edit_edit_count c base len hc
  · intro m I obj v
    exact try_set_edit_count c m I obj v hc
  · intro O this m
    exact try_set_edit_count c m O this 0 hc
  · intro O this m base
    exact OffsetTo_sanitize_edit_count T O this c m base hT hc
  · intro k
    cases k with
    | check_range base len => exact hc
    | check_array base record_size len =>
      simp only [check_call.run, hb_sanitize_context_t.check_array]
      split
      · exact hc
      · exact hc
    | check_struct obj min_size => exact hc
  · intro n
    induction n with
    | zero => exact hc
    | succ n ih =>
      rw [Function.iterate_succ_apply']
      exact may_edit_edit_count _ 0 0 ih
  · intro heap fuel c blob m
    refine ⟨Nat.zero_le _, hT _ _ _ (Nat.zero_le _), hT _ _ _ (Nat.zero_le _), Nat.zero_le _,
      hT _ _ _ (Nat.zero_le _), fun r hr => ?_⟩
    exact sanitize_blob_retry_edit_count T heap hT fuel _ _ m r hr

/-- C11 on a 12-byte blob at address 1000 with a 16-bit integer as root type: forty
edit requests in a row leave `edit_count` at 32. -/
theorem edit_count_bounded_witness :
    ((fun d : hb_sanitize_context_t => (d.may_edit 0 0).2)^[40]
      (hb_sanitize_context_t.new.start_processing (hb_blob_t.mk_unlocked 1000 12))).edit_count
        ≤ 32 :=
  ((edit_count_bounded HBUINT16.table (fun _ _ _ h => h)).2.2.1
    (hb_sanitize_context_t.new.start_processing (hb_blob_t.mk_unlocked 1000 12))
    (by decide)).2.2.2.2.2 40

/-- C13: every scalar is stored most significant byte first. For `N` of 1 to 4
bytes the read returns `Σ b_i * 256 ^ (N - 1 - i)` converted to the value type `T`
(two's complement for a signed `T`), and `set (v)` stores
`b_i = (v >> 8 * (N - 1 - i)) & 0xFF` for every `i < N`; `IntType` reads and
stores through `BEInt`. -/
theorem BEInt_big_endian (T : c_int_type) (N : Nat) (hN : 1 ≤ N ∧ N ≤ 4) (m : Memory) (p : Nat)
    (v : Int) :
    BEInt.get T N m p =
      T.convert (∑ i in Finset.range N, ((m (p + i)).val : Int) * 256 ^ (N - 1 - i)) ∧
    (∀ i, i < N →
      (((BEInt.set N v m p) (p + i)).val : Int) = Int.land (v >>> ((8 * (N - 1 - i) : Nat) : Int)) 0xFF) ∧
    (∀ I : IntType, I.get m p = BEInt.get I.type I.Size m p ∧
      (I.type.convert v = v → I.set v m p = BEInt.set I.Size v m p)) := by
  obtain ⟨h1, h4⟩ := hN
  refine ⟨?_, ?_, fun I => ⟨rfl, fun h => by simp only [IntType.set, h]⟩⟩
  · interval_cases N
    · simp [BEInt.get, Finset.sum_range_succ]
    · simp only [BEInt.get, Finset.sum_range_succ, Finset.sum_range_zero, Nat.shiftLeft_eq]
      congr 1
      push_cast
      ring_nf
    · simp only [BEInt.get, Finset.sum_range_succ, Finset.sum_range_zero, Nat.shiftLeft_eq]
      congr 1
      push_cast
      ring_nf
    · simp only [BEInt.get, Finset.sum_range_succ, Finset.sum_range_zero, Nat.shiftLeft_eq]
      congr 1
      push_cast
      ring_nf
  · intro i hi
    rw [Int.land_255]
    interval_cases N <;> interval_cases i <;>
      simp [BEInt.set, Memory.write, to_uint8_val, int_shiftRight_zero]

/-- C13 for the two bytes `0x12 0x34` at address 1000: they read as `0x1234`. -/
theorem BEInt_big_endian_witness :
    BEInt.get uint16_t 2 (Memory.of_bytes 1000 [0x12, 0x34]) 1000 =
      uint16_t.convert (∑ i in Finset.range 2,
        (((Memory.of_bytes 1000 [0x12, 0x34]) (1000 + i)).val : Int) * 256 ^ (2 - 1 - i)) :=
  (BEInt_big_endian uint16_t 2 (by decide) (Memory.of_bytes 1000 [0x12, 0x34]) 1000 0).1

/-- C14: endianness round-trip. For each of `HBUINT8`, `HBINT8`, `HBUINT16`,
`HBINT16`, `HBUINT24`, `HBUINT32` and `HBINT32` and every value `v` in the type's
representable range (`0 … 2^24 − 1` for `HBUINT24`, negative values included for
the signed types), `set (v)` followed by a read returns `v`. -/
theorem set_get_roundtrip (I : IntType) (hI : I ∈ named_scalars) (v : Int) (hv : I.in_range v)
    (m : Memory) (p : Nat) : I.get (I.set v m p) p = v :=
  IntType.get_set I hI v m p hv

/-- C14 for `HBINT16` and the value `-2` stored at address 1000. -/
theorem set_get_roundtrip_witness :
    HBINT16.get (HBINT16.set (-2) (Memory.of_bytes 1000 [0, 0]) 1000) 1000 = -2 :=
  set_get_roundtrip HBINT16 (by decide) (-2) (by decide) (Memory.of_bytes 1000 [0, 0]) 1000

/-- C15: for every named scalar type holding the value `b` and every key `a` of the
type's value type, `x.cmp (a)` is negative iff `a < b`, zero iff `a = b` and
positive iff `a > b`, as mathematical integers: on the subtraction path of the
8- and 16-bit types, where it is `a - b`, and on the comparison path of the
32-bit types, where it is `-1`, `0` or `1`. And `operator ==` holds iff the two
stored values are equal. -/
theorem IntType_cmp_correct (I : IntType) (hI : I ∈ named_scalars) (a : Int)
    (ha : I.type.convert a = a) (m : Memory) (p : Nat) :
    (I.cmp I.type a m p < 0 ↔ a < I.get m p) ∧
    (I.cmp I.type a m p = 0 ↔ a = I.get m p) ∧
    (0 < I.cmp I.type a m p ↔ I.get m p < a) ∧
    (I.type.size < 4 → I.cmp I.type a m p = a - I.get m p) ∧
    (¬ I.type.size < 4 → I.cmp I.type a m p = -1 ∨ I.cmp I.type a m p = 0 ∨
      I.cmp I.type a m p = 1) ∧
    (∀ o, I.eq m p o = true ↔ I.get m p = I.get m o) := by
  obtain ⟨h1, h2, h3, h4, h5⟩ := IntType.cmp_sign I hI a ha m p
  exact ⟨h1, h2, h3, h4, h5, fun o => by simp only [IntType.eq, decide_eq_true_eq]⟩

/-- C15 for the `HBINT16` holding `-2` at address 1000 and the key `5`: `cmp` is
positive. -/
theorem IntType_cmp_correct_witness :
    0 < HBINT16.cmp HBINT16.type 5 (Memory.of_bytes 1000 [0xFF, 0xFE]) 1000 ↔
      HBINT16.get (Memory.of_bytes 1000 [0xFF, 0xFE]) 1000 < 5 :=
  (IntType_cmp_correct HBINT16 (by decide) 5 (by decide) (Memory.of_bytes 1000 [0xFF, 0xFE])
    1000).2.2.1

/-- C16: on a `SortedArrayOf<T, HBUINT16>` whose elements are strictly ascending
under `cmp`, `bsearch (x)` returns (with fuel above `len`) the unique index `i`
with `0 ≤ i < len` whose element equals `x`, that is, compares as zero, when
there is one, and returns `-1` exactly when no element equals `x`, `len = 0`
included. For the named scalar types, ascending under the static comparator,
"equals" is equality of the stored value and the key. -/
theorem bsearch_correct {Key : Type} (E : KeyedType Key) (m : Memory) (this : Nat) (x : Key)
    (fuel : Nat) (hfuel : ArrayOf.len HBUINT16 m this < fuel) :
    (SortedArrayOf.ascending_for E m (ArrayOf.arrayZ HBUINT16 this)
        (ArrayOf.len HBUINT16 m this) x →
      ∃ r, SortedArrayOf.bsearch HBUINT16 E m this x fuel = some r ∧
        (∀ i : Nat, i < ArrayOf.len HBUINT16 m this →
          E.cmp m (ArrayOf.arrayZ HBUINT16 this + i * E.static_size) x = 0 → r = i) ∧
        (r = -1 ↔ ∀ i : Nat, i < ArrayOf.len HBUINT16 m this →
          E.cmp m (ArrayOf.arrayZ HBUINT16 this + i * E.static_size) x ≠ 0) ∧
        (r ≠ -1 → ∃ k : Nat, r = k ∧ k < ArrayOf.len HBUINT16 m this ∧
          E.cmp m (ArrayOf.arrayZ HBUINT16 this + k * E.static_size) x = 0)) ∧
    (∀ (I : IntType) (a : Int), I ∈ named_scalars → I.type.convert a = a →
      (∀ i : Nat, i + 1 < ArrayOf.len HBUINT16 m this →
        I.cmp_static m (ArrayOf.arrayZ HBUINT16 this + i * I.Size)
          (ArrayOf.arrayZ HBUINT16 this + (i + 1) * I.Size) < 0) →
      ∃ r, SortedArrayOf.bsearch HBUINT16 I.keyed m this a fuel = some r ∧
        (∀ i : Nat, i < ArrayOf.len HBUINT16 m this →
          I.get m (ArrayOf.arrayZ HBUINT16 this + i * I.Size) = a → r = i) ∧
        (r = -1 ↔ ∀ i : Nat, i < ArrayOf.len HBUINT16 m this →
          I.get m (ArrayOf.arrayZ HBUINT16 this + i * I.Size) ≠ a) ∧
        (r ≠ -1 → ∃ k : Nat, r = k ∧ k < ArrayOf.len HBUINT16 m this ∧
          I.get m (ArrayOf.arrayZ HBUINT16 this + k * I.Size) = a)) := by
  refine ⟨fun hasc => bsearch_spec E m this x fuel hfuel hasc, fun I a hI ha hsorted => ?_⟩
  have hval := IntType.values_ascending I hI m (ArrayOf.arrayZ HBUINT16 this)
    (ArrayOf.len HBUINT16 m this) hsorted
  have hsign := fun p => IntType.cmp_sign I hI a ha m p
  have hasc : SortedArrayOf.ascending_for I.keyed m (ArrayOf.arrayZ HBUINT16 this)
      (ArrayOf.len HBUINT16 m this) a := by
    intro i j hij hj hle
    have hv := hval j i hij hj
    have h1 := hsign (ArrayOf.arrayZ HBUINT16 this + i * I.Size)
    have h2 := hsign (ArrayOf.arrayZ HBUINT16 this + j * I.Size)
    show I.cmp I.type a m (ArrayOf.arrayZ HBUINT16 this + j * I.Size) < 0
    have hle' : I.cmp I.type a m (ArrayOf.arrayZ HBUINT16 this + i * I.Size) ≤ 0 := hle
    rw [h2.1]
    rcases lt_or_eq_of_le hle' with h | h
    · exact lt_trans (h1.1.1 h) hv
    · rw [h1.2.1.1 h]; exact hv
  obtain ⟨r, hr, p1, p2, p3⟩ := bsearch_spec I.keyed m this a fuel hfuel hasc
  have hz : ∀ i : Nat, I.keyed.cmp m (ArrayOf.arrayZ HBUINT16 this + i * I.keyed.static_size) a
      = 0 ↔ I.get m (ArrayOf.arrayZ HBUINT16 this + i * I.Size) = a := by
    intro i
    have h := (hsign (ArrayOf.arrayZ HBUINT16 this + i * I.Size)).2.1
    constructor
    · intro h0; exact (h.1 h0).symm
    · intro h0; exact h.2 h0.symm
  refine ⟨r, hr, ?_, ?_, ?_⟩
  · intro i hi hv
    exact p1 i hi ((hz i).2 hv)
  · rw [p2]
    constructor
    · intro h i hi hv
      exact h i hi ((hz i).2 hv)
    · intro h i hi hv
      exact h i hi ((hz i).1 hv)
  · intro hne
    obtain ⟨k, hk, hkn, hkz⟩ := p3 hne
    exact ⟨k, hk, hkn, (hz k).1 hkz⟩

/-- C16 on the array of `HBUINT16` values 3, 7, 9 at address 1000: the key 7 is
found at index 1. -/
theorem bsearch_correct_witness :
    ∃ r, SortedArrayOf.bsearch HBUINT16 HBUINT16.keyed
        (Memory.of_bytes 1000 [0, 3, 0, 3, 0, 7, 0, 9]) 1000 7 4 = some r ∧
      (∀ i : Nat, i < ArrayOf.len HBUINT16 (Memory.of_bytes 1000 [0, 3, 0, 3, 0, 7, 0, 9]) 1000 →
        HBUINT16.get (Memory.of_bytes 1000 [0, 3, 0, 3, 0, 7, 0, 9])
          (ArrayOf.arrayZ HBUINT16 1000 + i * HBUINT16.Size) = 7 → r = i) :=
  match (bsearch_correct HBUINT16.keyed (Memory.of_bytes 1000 [0, 3, 0, 3, 0, 7, 0, 9]) 1000
      (7 : Int) 4 (by decide)).2 HBUINT16 7 (by decide) (by decide)
      (by
        have hlen : ArrayOf.len HBUINT16 (Memory.of_bytes 1000 [0, 3, 0, 3, 0, 7, 0, 9]) 1000
            = 3 := by decide
        intro i hi
        rw [hlen] at hi
        have h2 : i < 2 := by omega
        interval_cases i <;> decide) with
  | ⟨r, h1, h2, _⟩ => ⟨r, h1, h2⟩

/-- C17, as stated, fails: reading element 0 of an empty `ArrayOf<Index>` returns
the Null object of `Index`, whose two bytes are `0xFF` and which reads as
`NOT_FOUND_INDEX = 0xFFFF`, not as 0; and the Null object of `Tag` is four spaces. -/
theorem Null_Index_counterexample :
    ArrayOf.index HBUINT16 Index.static_size (Memory.of_bytes 1000 [0, 0]) 1000 0
        = ObjRef.Null ∧
      ObjRef.bytes Index (Memory.of_bytes 1000 [0, 0]) ObjRef.Null = some [0xFF, 0xFF] ∧
      HBUINT16.of_bytes (Null Index) = 0xFFFF ∧
      HBUINT32.of_bytes (Null Tag) = 0x20202020 ∧
      Index ∈ core_types ∧ Tag ∈ core_types ∧
      ¬ (∀ T ∈ core_types, ∀ b ∈ Null T, b = 0) := by
  refine ⟨by decide, by decide, by decide, by decide, by decide, by decide, ?_⟩
  intro h
  exact absurd (h Index (by decide) 0xFF (by decide)) (by decide)

/-- C17, amended: reading `ArrayOf<T>[i]` with `i ≥ len` and dereferencing a zero
`OffsetTo<T>` both return the shared Null-of-T. That instance is zero-initialized,
every byte 0 and reading as the value 0, for every type without null data of its
own, the plain scalars such as `HBUINT16` among them; Null-of-Tag is four space
bytes, reading as `0x20202020`, and Null-of-Index is `FF FF`, reading as
`NOT_FOUND_INDEX`. -/
theorem Null_object_spec :
    (∀ (LenType : IntType) (static_size : Nat) (m : Memory) (this i : Nat),
      i ≥ ArrayOf.len LenType m this →
        ArrayOf.index LenType static_size m this i = ObjRef.Null) ∧
    (∀ (O : IntType) (m : Memory) (this base : Nat), O.get m this = 0 →
      OffsetTo.deref O m this base = ObjRef.Null) ∧
    (∀ (T : OnDiskType) (m : Memory), ObjRef.bytes T m ObjRef.Null = some (Null T)) ∧
    (∀ T : OnDiskType, T.null_data = none →
      (Null T).length = T.static_size ∧ ∀ b ∈ Null T, b = 0) ∧
    (∀ T ∈ core_types, T ≠ Tag → T ≠ Index → ∀ b ∈ Null T, b = 0) ∧
    (∀ I ∈ named_scalars, I.of_bytes (Null I.on_disk) = 0) ∧
    (Null Tag = [0x20, 0x20, 0x20, 0x20] ∧ HBUINT32.of_bytes (Null Tag) = 0x20202020) ∧
    (Null Index = [0xFF, 0xFF] ∧ HBUINT16.of_bytes (Null Index) = Index.NOT_FOUND_INDEX) := by
  refine ⟨?_, ?_, ?_, ?_, ?_, ?_, ⟨by decide, by decide⟩, ⟨by decide, by decide⟩⟩
  · intro LenType static_size m this i hi
    simp only [ArrayOf.index, if_pos hi]
  · intro O m this base h
    simp only [OffsetTo.deref, h, to_unsigned]
    rfl
  · intro T m
    rfl
  · intro T hT
    simp only [Null, hT, List.length_replicate, true_and]
    intro b hb
    exact List.eq_of_mem_replicate hb
  · intro T hT hTag hIndex b hb
    simp only [core_types, List.mem_cons, List.mem_singleton, List.not_mem_nil, or_false] at hT
    rcases hT with h | h | h | h | h | h | h | h | h | h | h | h | h
    all_goals first
      | exact absurd h hTag
      | exact absurd h hIndex
      | (subst h; exact List.eq_of_mem_replicate hb)
  · intro I hI
    simp only [named_scalars, List.mem_cons, List.mem_singleton, List.not_mem_nil, or_false] at hI
    rcases hI with h | h | h | h | h | h | h <;> subst h <;> decide

/-- C17 on an `ArrayOf<HBUINT16>` of length 1 holding `0x1234`: reading index 1
gives the Null object, two zero bytes that read as 0. -/
theorem Null_object_spec_witness :
    ArrayOf.index HBUINT16 2 (Memory.of_bytes 1000 [0, 1, 0x12, 0x34]) 1000 1 = ObjRef.Null ∧
      (Null HBUINT16.on_disk).length = 2 ∧ (∀ b ∈ Null HBUINT16.on_disk, b = 0) ∧
      HBUINT16.of_bytes (Null HBUINT16.on_disk) = 0 :=
  ⟨Null_object_spec.1 HBUINT16 2 (Memory.of_bytes 1000 [0, 1, 0x12, 0x34]) 1000 1 (by decide),
   (Null_object_spec.2.2.2.1 HBUINT16.on_disk rfl).1,
   (Null_object_spec.2.2.2.1 HBUINT16.on_disk rfl).2,
   Null_object_spec.2.2.2.2.2.1 HBUINT16 (by decide)⟩

/-- C19: for every `len` with `1 ≤ len ≤ 65535`, `BinSearchHeader::set (len)` passes
its assertion, the stored `entrySelector` reads back as `⌊log₂ len⌋`, that is as the
`e` with `2 ^ e ≤ len < 2 ^ (e + 1)`, with `hb_bit_storage (len)` the number of bits
of `len`, and the stored `len` reads back as `len`. -/
theorem BinSearchHeader_entrySelector (v : Nat) (h1 : 1 ≤ v) (h2 : v ≤ 65535) (m : Memory)
    (this : Nat) :
    ∃ m2, BinSearchHeader.set v m this = some m2 ∧
      HBUINT16.get m2 (BinSearchHeader.entrySelector this) = ((Nat.log 2 v : Nat) : Int) ∧
      (∀ e : Nat, HBUINT16.get m2 (BinSearchHeader.entrySelector this) = (e : Int) →
        2 ^ e ≤ v ∧ v < 2 ^ (e + 1)) ∧
      hb_bit_storage v = Nat.log 2 v + 1 ∧
      HBUINT16.get m2 (BinSearchHeader.len this) = (v : Int) := by
  obtain ⟨m2, hs, hl, he, _, _, hlo, hhi, _⟩ := BinSearchHeader.set_spec v h1 h2 m this
  have hlog : Nat.log 2 v = hb_bit_storage v - 1 :=
    (Nat.log_eq_iff (Or.inr ⟨by decide, by omega⟩)).2 ⟨hlo, hhi⟩
  have hb : 1 ≤ hb_bit_storage v :=
    (hb_bit_storage_loop_spec 32 v (by norm_num; omega) (by omega)).1
  refine ⟨m2, hs, ?_, ?_, ?_, hl⟩
  · rw [he, hlog]
  · intro e hee
    rw [he] at hee
    have : hb_bit_storage v - 1 = e := by exact_mod_cast hee
    rw [← this]
    exact ⟨hlo, hhi⟩
  · omega

/-- C19 for `len = 5` on zero memory at address 1000: `entrySelector` reads back
as `⌊log₂ 5⌋` and `len` as 5. -/
theorem BinSearchHeader_entrySelector_witness :
    ∃ m2, BinSearchHeader.set 5 (Memory.of_bytes 1000 []) 1000 = some m2 ∧
      HBUINT16.get m2 (BinSearchHeader.entrySelector 1000) = ((Nat.log 2 5 : Nat) : Int) ∧
      HBUINT16.get m2 (BinSearchHeader.len 1000) = 5 :=
  match BinSearchHeader_entrySelector 5 (by decide) (by decide) (Memory.of_bytes 1000 []) 1000 with
  | ⟨m2, h, he, _, _, hl⟩ => ⟨m2, h, he, hl⟩

/-- C20, as stated, fails at `len = 4096`: `entrySelector` reads back as 12, but
`16 * 2 ^ 12 = 65536` does not fit the 16-bit `searchRange`, which reads back as 0,
and `rangeShift` reads back as 0 as well, not as `16 * 4096 - 0`. -/
theorem BinSearchHeader_4096_counterexample :
    (BinSearchHeader.set 4096 (Memory.of_bytes 1000 []) 1000).map
        (fun m2 => (HBUINT16.get m2 (BinSearchHeader.entrySelector 1000),
          HBUINT16.get m2 (BinSearchHeader.searchRange 1000),
          HBUINT16.get m2 (BinSearchHeader.rangeShift 1000))) = some (12, 0, 0) ∧
      ¬ (∃ m2, BinSearchHeader.set 4096 (Memory.of_bytes 1000 []) 1000 = some m2 ∧
        HBUINT16.get m2 (BinSearchHeader.searchRange 1000) =
          16 * 2 ^ (HBUINT16.get m2 (BinSearchHeader.entrySelector 1000)).toNat) := by
  have h : (BinSearchHeader.set 4096 (Memory.of_bytes 1000 []) 1000).map
        (fun m2 => (HBUINT16.get m2 (BinSearchHeader.entrySelector 1000),
          HBUINT16.get m2 (BinSearchHeader.searchRange 1000),
          HBUINT16.get m2 (BinSearchHeader.rangeShift 1000))) = some (12, 0, 0) := by decide
  refine ⟨h, ?_⟩
  rintro ⟨m2, hs, hsr⟩
  rw [hs] at h
  simp only [Option.map_some', Option.some.injEq, Prod.mk.injEq] at h
  rw [h.1, h.2.1] at hsr
  exact absurd hsr (by decide)

/-- C20, amended: for every `len` with `1 ≤ len ≤ 65535`, after `set (len)` the
stored 16-bit fields read back with `searchRange = 16 * 2 ^ entrySelector` and
`rangeShift = 16 * len - 16 * 2 ^ entrySelector`, both reduced modulo `2 ^ 16`. For
`len ≤ 4095` nothing is lost: `searchRange = 16 * 2 ^ entrySelector` and
`rangeShift = max (0, 16 * len - searchRange)`. For `len ≥ 4096`, `searchRange` reads
back as 0 and `rangeShift` as `16 * len` modulo `2 ^ 16`. -/
theorem BinSearchHeader_consistency (v : Nat) (h1 : 1 ≤ v) (h2 : v ≤ 65535) (m : Memory)
    (this : Nat) :
    ∃ m2, BinSearchHeader.set v m this = some m2 ∧
      HBUINT16.get m2 (BinSearchHeader.searchRange this) =
        (16 * 2 ^ (HBUINT16.get m2 (BinSearchHeader.entrySelector this)).toNat) % 65536 ∧
      HBUINT16.get m2 (BinSearchHeader.rangeShift this) =
        (16 * (v : Int) - 16 * 2 ^ (HBUINT16.get m2 (BinSearchHeader.entrySelector this)).toNat)
          % 65536 ∧
      (v ≤ 4095 →
        HBUINT16.get m2 (BinSearchHeader.searchRange this) =
          16 * 2 ^ (HBUINT16.get m2 (BinSearchHeader.entrySelector this)).toNat ∧
        HBUINT16.get m2 (BinSearchHeader.rangeShift this) =
          max 0 (16 * (v : Int) - HBUINT16.get m2 (BinSearchHeader.searchRange this))) ∧
      (4096 ≤ v →
        HBUINT16.get m2 (BinSearchHeader.searchRange this) = 0 ∧
        HBUINT16.get m2 (BinSearchHeader.rangeShift this) = (16 * (v : Int)) % 65536) := by
  obtain ⟨m2, hs, _, he, hsr, hrs, hlo, hhi, he15⟩ := BinSearchHeader.set_spec v h1 h2 m this
  refine ⟨m2, hs, ?_⟩
  rw [he, hsr, hrs, Int.toNat_ofNat]
  generalize hb_bit_storage v - 1 = e at *
  have hcast : ((2 : Int) ^ e) = ((2 ^ e : Nat) : Int) := by push_cast; rfl
  rw [hcast]
  by_cases hv : v ≤ 4095
  · generalize 2 ^ e = X at *
    have hS : 16 * X % 65536 = 16 * X := Nat.mod_eq_of_lt (by omega)
    rw [hS]
    refine ⟨by omega, ?_, ?_, fun h => absurd hv (by omega)⟩
    · split_ifs <;> omega
    · intro _
      refine ⟨by omega, ?_⟩
      split_ifs <;> omega
  · have he12 : 12 ≤ e := by
      by_contra hcon
      have : 2 ^ (e + 1) ≤ 2 ^ 12 := Nat.pow_le_pow_right (by decide) (by omega)
      have h12 : (2 : Nat) ^ 12 = 4096 := by norm_num
      omega
    refine ⟨?_, ?_, fun h => absurd h hv, fun _ => ⟨?_, ?_⟩⟩ <;>
      interval_cases e <;> norm_num at hlo hhi ⊢ <;> omega

/-- C20 for `len = 5` on zero memory at address 1000: `entrySelector = 2`,
`searchRange = 64` and `rangeShift = 16`. -/
theorem BinSearchHeader_consistency_witness :
    ∃ m2, BinSearchHeader.set 5 (Memory.of_bytes 1000 []) 1000 = some m2 ∧
      HBUINT16.get m2 (BinSearchHeader.searchRange 1000) =
        16 * 2 ^ (HBUINT16.get m2 (BinSearchHeader.entrySelector 1000)).toNat ∧
      HBUINT16.get m2 (BinSearchHeader.rangeShift 1000) =
        max 0 (16 * ((5 : Nat) : Int) - HBUINT16.get m2 (BinSearchHeader.searchRange 1000)) :=
  match BinSearchHeader_consistency 5 (by decide) (by decide) (Memory.of_bytes 1000 []) 1000 with
  | ⟨m2, h, _, _, hsmall, _⟩ => ⟨m2, h, (hsmall (by decide)).1, (hsmall (by decide)).2⟩

/-- C21: `allocate_size (n)`. If `ran_out_of_room` is set or `n > end - head`, it
sets `ran_out_of_room`, returns null and leaves `head`, the bounds and every byte
unchanged; so once the flag is set every later allocation returns null and keeps
the flag. Otherwise it sets the `n` bytes at the old head to zero, advances `head`
by exactly `n`, returns the old head, leaves the flag clear and leaves every byte
outside the `n` claimed ones, those of `[start, old head)` among them, unchanged. -/
theorem allocate_size_spec (c : hb_serialize_context_t) (m : Memory) (n : Nat) :
    ((c.ran_out_of_room = true ∨ (n : Int) > (c.end_ : Int) - (c.head : Int)) →
      (c.allocate_size m n).c.ran_out_of_room = true ∧
      (c.allocate_size m n).ret = 0 ∧
      (c.allocate_size m n).c.head = c.head ∧
      (c.allocate_size m n).c.start = c.start ∧
      (c.allocate_size m n).c.end_ = c.end_ ∧
      (c.allocate_size m n).mem = m) ∧
    (c.head ≤ c.end_ → n > c.end_ - c.head →
      (c.allocate_size m n).ret = 0 ∧ (c.allocate_size m n).c.ran_out_of_room = true) ∧
    (c.ran_out_of_room = true → ∀ k,
      (c.allocate_size m n).c.ran_out_of_room = true ∧
      ((c.allocate_size m n).c.allocate_size (c.allocate_size m n).mem k).ret = 0) ∧
    (¬ (c.ran_out_of_room = true ∨ (n : Int) > (c.end_ : Int) - (c.head : Int)) →
      (∀ a, c.head ≤ a → a < c.head + n → (c.allocate_size m n).mem a = 0) ∧
      (c.allocate_size m n).c.head = c.head + n ∧
      (c.allocate_size m n).ret = c.head ∧
      (c.allocate_size m n).c.ran_out_of_room = false ∧
      (c.allocate_size m n).c.start = c.start ∧
      (c.allocate_size m n).c.end_ = c.end_ ∧
      (∀ a, ¬ (c.head ≤ a ∧ a < c.head + n) → (c.allocate_size m n).mem a = m a) ∧
      (∀ a, c.start ≤ a → a < c.head → (c.allocate_size m n).mem a = m a)) := by
  have hfail : (c.ran_out_of_room = true ∨ (n : Int) > (c.end_ : Int) - (c.head : Int)) →
      c.allocate_size m n = ⟨0, { c with ran_out_of_room := true }, m⟩ := by
    intro h
    have h2 : c.ran_out_of_room = true ∨ (c.end_ : Int) - (c.head : Int) < (n : Int) := h
    simp only [hb_serialize_context_t.allocate_size, h2, if_true]
  have hok : ¬ (c.ran_out_of_room = true ∨ (n : Int) > (c.end_ : Int) - (c.head : Int)) →
      c.allocate_size m n = ⟨c.head, { c with head := c.head + n }, m.memset c.head 0 n⟩ := by
    intro h
    have h2 : ¬ (c.ran_out_of_room = true ∨ (c.end_ : Int) - (c.head : Int) < (n : Int)) := h
    simp only [hb_serialize_context_t.allocate_size, h2, if_false]
  refine ⟨?_, ?_, ?_, ?_⟩
  · intro h
    rw [hfail h]
    exact ⟨rfl, rfl, rfl, rfl, rfl, rfl⟩
  · intro hle hn
    rw [hfail (Or.inr (by omega))]
    exact ⟨rfl, rfl⟩
  · intro h k
    rw [hfail (Or.inl h)]
    refine ⟨rfl, ?_⟩
    simp only [hb_serialize_context_t.allocate_size, true_or, if_true]
  · intro h
    rw [hok h]
    have hflag : c.ran_out_of_room = false := by
      cases hc : c.ran_out_of_room
      · rfl
      · exact absurd (Or.inl hc) h
    refine ⟨?_, rfl, rfl, hflag, rfl, rfl, ?_, ?_⟩
    · intro a h1 h2
      simp only [Memory.memset, h1, h2, and_self, if_true]
    · intro a ha
      simp only [Memory.memset, ha, if_false]
    · intro a _ h2
      have : ¬ (c.head ≤ a ∧ a < c.head + n) := by omega
      simp only [Memory.memset, this, if_false]

/-- C21 on a 12-byte buffer at address 1000: 13 bytes are refused and the flag
stays set for the next call; on a fresh context 4 bytes are granted at 1000. -/
theorem allocate_size_spec_witness :
    (((hb_serialize_context_t.new 1000 12).allocate_size (Memory.of_bytes 1000 [1, 2]) 13).ret = 0 ∧
      ((hb_serialize_context_t.new 1000 12).allocate_size (Memory.of_bytes 1000 [1, 2]) 13).mem
        = Memory.of_bytes 1000 [1, 2]) ∧
    (((hb_serialize_context_t.new 1000 12).allocate_size (Memory.of_bytes 1000 [1, 2]) 4).ret
        = 1000 ∧
      ((hb_serialize_context_t.new 1000 12).allocate_size (Memory.of_bytes 1000 [1, 2]) 4).c.head
        = 1000 + 4) :=
  ⟨⟨((allocate_size_spec (hb_serialize_context_t.new 1000 12) (Memory.of_bytes 1000 [1, 2]) 13).1
      (Or.inr (by decide))).2.1,
    ((allocate_size_spec (hb_serialize_context_t.new 1000 12) (Memory.of_bytes 1000 [1, 2]) 13).1
      (Or.inr (by decide))).2.2.2.2.2⟩,
   ⟨((allocate_size_spec (hb_serialize_context_t.new 1000 12) (Memory.of_bytes 1000 [1, 2]) 4).2.2.2
      (by decide)).2.2.1,
    ((allocate_size_spec (hb_serialize_context_t.new 1000 12) (Memory.of_bytes 1000 [1, 2]) 4).2.2.2
      (by decide)).2.1⟩⟩

/-- C22, as stated, fails at `new_head = start`: on a 12-byte buffer at 1000 with 4
bytes allocated, 1000 lies within `[start, head]`, yet `truncate (1000)` trips the
assertion `start < new_head`. -/
theorem truncate_start_counterexample :
    (((hb_serialize_context_t.new 1000 12).allocate_size (Memory.of_bytes 1000 []) 4).c.start
        ≤ 1000 ∧
      1000 ≤ ((hb_serialize_context_t.new 1000 12).allocate_size
        (Memory.of_bytes 1000 []) 4).c.head) ∧
    ((hb_serialize_context_t.new 1000 12).allocate_size (Memory.of_bytes 1000 []) 4).c.truncate
      1000 = none := by
  decide

/-- C22, amended: `start ≤ head ≤ end` is an invariant of the serialize context. The
constructor establishes it; `allocate_size`, `allocate_min`, `embed`,
`start_embed` and `start_serialize` preserve it and never lower `head`, whether or
not they run out of room; `extend_min` and `extend` return once their assertion
holds and then do the same. `truncate (new_head)` is accepted for every `new_head`
with `start < new_head ≤ head`, and only for those: it sets `head` to `new_head`,
changes nothing else and keeps the invariant. -/
theorem serialize_invariant :
    (∀ start_ size, (hb_serialize_context_t.new start_ size).valid) ∧
    (∀ (c : hb_serialize_context_t) (m : Memory) (obj n : Nat), c.valid →
      ((c.allocate_size m n).c.valid ∧ c.head ≤ (c.allocate_size m n).c.head) ∧
      ((c.allocate_min m n).c.valid ∧ c.head ≤ (c.allocate_min m n).c.head) ∧
      ((c.embed m obj n).c.valid ∧ c.head ≤ (c.embed m obj n).c.head) ∧
      ((c.start_embed m).c.valid ∧ c.head ≤ (c.start_embed m).c.head) ∧
      ((c.start_serialize m).c.valid ∧ c.head ≤ (c.start_serialize m).c.head) ∧
      (c.start ≤ obj ∧ obj ≤ c.head ∧ obj + n ≥ c.head →
        ∃ r, c.extend_min m obj n = some r ∧ r.c.valid ∧ c.head ≤ r.c.head) ∧
      (c.start < obj ∧ obj ≤ c.head ∧ obj + n ≥ c.head →
        ∃ r, c.extend m obj n = some r ∧ r.c.valid ∧ c.head ≤ r.c.head)) ∧
    (∀ (c : hb_serialize_context_t) (new_head : Nat),
      (c.start < new_head ∧ new_head ≤ c.head →
        c.truncate new_head = some { c with head := new_head }) ∧
      (¬ (c.start < new_head ∧ new_head ≤ c.head) → c.truncate new_head = none) ∧
      (c.valid → ∀ d, c.truncate new_head = some d → d.valid ∧ d.head ≤ c.head)) := by
  refine ⟨?_, ?_, ?_⟩
  · intro s size
    show s ≤ s ∧ s ≤ s + size
    omega
  · intro c m obj n hc
    have ha := fun k => allocate_size_valid c m k hc
    have hembed : (c.embed m obj n).c = (c.allocate_size m n).c := by
      simp only [hb_serialize_context_t.embed]
      split_ifs <;> rfl
    refine ⟨⟨(ha n).1, (ha n).2.1⟩, ⟨(ha n).1, (ha n).2.1⟩, ?_, ⟨hc, le_refl _⟩, ⟨hc, le_refl _⟩,
      ?_, ?_⟩
    · rw [hembed]
      exact ⟨(ha n).1, (ha n).2.1⟩
    · intro hassert
      simp only [hb_serialize_context_t.extend_min, hassert, and_self, not_true_eq_false,
        if_false]
      split_ifs
      · exact ⟨_, rfl, (ha _).1, (ha _).2.1⟩
      · exact ⟨_, rfl, (ha _).1, (ha _).2.1⟩
    · intro hassert
      simp only [hb_serialize_context_t.extend, hassert, and_self, not_true_eq_false, if_false]
      split_ifs
      · exact ⟨_, rfl, (ha _).1, (ha _).2.1⟩
      · exact ⟨_, rfl, (ha _).1, (ha _).2.1⟩
  · intro c new_head
    refine ⟨?_, ?_, ?_⟩
    · intro h
      simp only [hb_serialize_context_t.truncate, h, and_self, not_true_eq_false, if_false]
    · intro h
      simp only [hb_serialize_context_t.truncate, h, not_false_eq_true, if_true]
    · intro hc d hd
      by_cases h : c.start < new_head ∧ new_head ≤ c.head
      · simp only [hb_serialize_context_t.truncate, h, and_self, not_true_eq_false, if_false,
          Option.some.injEq] at hd
        subst hd
        unfold hb_serialize_context_t.valid at *
        refine ⟨⟨?_, ?_⟩, ?_⟩
        · show c.start ≤ new_head
          omega
        · show new_head ≤ c.end_
          omega
        · show new_head ≤ c.head
          omega
      · simp only [hb_serialize_context_t.truncate, h, not_false_eq_true, if_true] at hd
        exact absurd hd (by simp)

/-- C22 on a 12-byte buffer at address 1000: the invariant holds after allocating 4
bytes, and `truncate (1002)` moves `head` back to 1002. -/
theorem serialize_invariant_witness :
    ((hb_serialize_context_t.new 1000 12).allocate_size (Memory.of_bytes 1000 []) 4).c.valid ∧
    ((hb_serialize_context_t.new 1000 12).allocate_size (Memory.of_bytes 1000 []) 4).c.truncate
      1002 = some { ((hb_serialize_context_t.new 1000 12).allocate_size
        (Memory.of_bytes 1000 []) 4).c with head := 1002 } :=
  ⟨((serialize_invariant.2.1 (hb_serialize_context_t.new 1000 12) (Memory.of_bytes 1000 []) 0 4
      (serialize_invariant.1 1000 12)).1).1,
   (serialize_invariant.2.2 ((hb_serialize_context_t.new 1000 12).allocate_size
      (Memory.of_bytes 1000 []) 4).c 1002).1 (by decide)⟩

/-- C23: serialize round-trip. For an object `x` at address `obj` of size `s`, a
context with the overflow flag clear and a buffer that is not at the null address:
with at least `s` bytes of room, `embed (x)` returns the old head, advances `head`
by `s`, and the `s` bytes at the returned address equal the bytes of `x`, which as
the source of a `memcpy` lies outside the bytes being claimed; with less room it
returns null, writes nothing and leaves `head` alone. -/
theorem embed_roundtrip (c : hb_serialize_context_t) (m : Memory) (obj s : Nat)
    (hflag : c.ran_out_of_room = false) (hbuf : c.head ≠ 0) :
    (c.head + s ≤ c.end_ → (obj + s ≤ c.head ∨ c.head + s ≤ obj) →
      (c.embed m obj s).ret = c.head ∧
      (c.embed m obj s).c.head = c.head + s ∧
      (c.embed m obj s).c.ran_out_of_room = false ∧
      (∀ k, k < s → (c.embed m obj s).mem ((c.embed m obj s).ret + k) = m (obj + k)) ∧
      (∀ a, ¬ (c.head ≤ a ∧ a < c.head + s) → (c.embed m obj s).mem a = m a)) ∧
    (c.end_ < c.head + s →
      (c.embed m obj s).ret = 0 ∧ (c.embed m obj s).mem = m ∧
      (c.embed m obj s).c.head = c.head) := by
  constructor
  · intro hroom hsep
    rcases allocate_size_cases c m s with ⟨_, hbad⟩ | ⟨h, _, _⟩
    · rcases hbad with hbad | hbad
      · rw [hflag] at hbad
        exact absurd hbad (by decide)
      · omega
    · have he : c.embed m obj s =
          ⟨c.head, { c with head := c.head + s }, (m.memset c.head 0 s).clone obj c.head s⟩ := by
        simp only [hb_serialize_context_t.embed, h, hbuf, if_false]
      rw [he]
      refine ⟨rfl, rfl, hflag, ?_, ?_⟩
      · intro k hk
        have h1 : c.head ≤ c.head + k ∧ c.head + k < c.head + s := by omega
        have h2 : ¬ (c.head ≤ obj + k ∧ obj + k < c.head + s) := by omega
        have h3 : c.head + k - c.head = k := by omega
        simp only [Memory.clone, Memory.memset, h1, and_self, if_true, h3, h2, if_false]
      · intro a ha
        simp only [Memory.clone, Memory.memset, ha, if_false]
  · intro hno
    rcases allocate_size_cases c m s with ⟨h, _⟩ | ⟨_, _, hroom⟩
    · have he : c.embed m obj s = ⟨0, { c with ran_out_of_room := true }, m⟩ := by
        simp only [hb_serialize_context_t.embed, h, if_true]
      rw [he]
      exact ⟨rfl, rfl, rfl⟩
    · omega

/-- C23 for the 4-byte object `DE AD BE EF` at address 2000 and a fresh 12-byte
buffer at address 1000. -/
theorem embed_roundtrip_witness :
    ((hb_serialize_context_t.new 1000 12).embed
        (Memory.of_bytes 2000 [0xDE, 0xAD, 0xBE, 0xEF]) 2000 4).ret = 1000 ∧
    (∀ k, k < 4 →
      ((hb_serialize_context_t.new 1000 12).embed
        (Memory.of_bytes 2000 [0xDE, 0xAD, 0xBE, 0xEF]) 2000 4).mem
        (((hb_serialize_context_t.new 1000 12).embed
          (Memory.of_bytes 2000 [0xDE, 0xAD, 0xBE, 0xEF]) 2000 4).ret + k) =
      (Memory.of_bytes 2000 [0xDE, 0xAD, 0xBE, 0xEF]) (2000 + k)) :=
  ⟨((embed_roundtrip (hb_serialize_context_t.new 1000 12)
      (Memory.of_bytes 2000 [0xDE, 0xAD, 0xBE, 0xEF]) 2000 4 rfl (by decide)).1
      (by decide) (by decide)).1,
   ((embed_roundtrip (hb_serialize_context_t.new 1000 12)
      (Memory.of_bytes 2000 [0xDE, 0xAD, 0xBE, 0xEF]) 2000 4 rfl (by decide)).1
      (by decide) (by decide)).2.2.2.1⟩

/-- C24 at its failing input: in a 12-byte buffer at address 1000, `extend_min` of an
object placed at `start` (2 bytes of `min_size`) returns the object and leaves
`head = 1002`, but the following `extend` of the same object to 6 bytes, as in
`ArrayOf::serialize`, trips the assertion `start < &obj`. So does `extend` of any
object placed at `start`, in any context. -/
theorem extend_at_start_asserts :
    ((hb_serialize_context_t.new 1000 12).extend_min (Memory.of_bytes 1000 []) 1000 2).map
        (fun r => (r.ret, r.c.head, r.c.ran_out_of_room)) = some (1000, 1002, false) ∧
    (({ debug_depth := 0, start := 1000, end_ := 1012, head := 1002, ran_out_of_room := false }
        : hb_serialize_context_t).extend (Memory.of_bytes 1000 []) 1000 6).map
        (fun r => r.ret) = none ∧
    (∀ (c : hb_serialize_context_t) (m : Memory) (size : Nat),
      (c.extend m c.start size).map (fun r => r.ret) = none) := by
  refine ⟨by decide, by decide, ?_⟩
  intro c m size
  simp [hb_serialize_context_t.extend]

/-- C25, as stated, fails. With `base = head = 1002` in a 12-byte buffer at 1000 the
`Offset16` at 1000 is set to 0 and dereferences to Null, not to the child that
`embed` places at 1002. With `head - base = 65536` the `Offset16` cannot hold the
distance: it is stored as 0 and dereferences to Null as well. -/
theorem Offset_serialize_counterexample :
    (((OffsetTo.serialize Offset16 1000
          { debug_depth := 0, start := 1000, end_ := 1012, head := 1002, ran_out_of_room := false }
          (Memory.of_bytes 2000 [0xAB, 0xCD]) 1002).c.embed
        (OffsetTo.serialize Offset16 1000
          { debug_depth := 0, start := 1000, end_ := 1012, head := 1002, ran_out_of_room := false }
          (Memory.of_bytes 2000 [0xAB, 0xCD]) 1002).mem 2000 2).ret = 1002 ∧
      OffsetTo.deref Offset16
        ((OffsetTo.serialize Offset16 1000
          { debug_depth := 0, start := 1000, end_ := 1012, head := 1002, ran_out_of_room := false }
          (Memory.of_bytes 2000 [0xAB, 0xCD]) 1002).c.embed
        (OffsetTo.serialize Offset16 1000
          { debug_depth := 0, start := 1000, end_ := 1012, head := 1002, ran_out_of_room := false }
          (Memory.of_bytes 2000 [0xAB, 0xCD]) 1002).mem 2000 2).mem 1000 1002 = ObjRef.Null) ∧
    (((OffsetTo.serialize Offset16 1000
          { debug_depth := 0, start := 1000, end_ := 70000, head := 66536,
            ran_out_of_room := false }
          (Memory.of_bytes 90000 [0xAB, 0xCD]) 1000).c.embed
        (OffsetTo.serialize Offset16 1000
          { debug_depth := 0, start := 1000, end_ := 70000, head := 66536,
            ran_out_of_room := false }
          (Memory.of_bytes 90000 [0xAB, 0xCD]) 1000).mem 90000 2).ret = 66536 ∧
      Offset16.get
        ((OffsetTo.serialize Offset16 1000
          { debug_depth := 0, start := 1000, end_ := 70000, head := 66536,
            ran_out_of_room := false }
          (Memory.of_bytes 90000 [0xAB, 0xCD]) 1000).c.embed
        (OffsetTo.serialize Offset16 1000
          { debug_depth := 0, start := 1000, end_ := 70000, head := 66536,
            ran_out_of_room := false }
          (Memory.of_bytes 90000 [0xAB, 0xCD]) 1000).mem 90000 2).mem 1000 = 0 ∧
      OffsetTo.deref Offset16
        ((OffsetTo.serialize Offset16 1000
          { debug_depth := 0, start := 1000, end_ := 70000, head := 66536,
            ran_out_of_room := false }
          (Memory.of_bytes 90000 [0xAB, 0xCD]) 1000).c.embed
        (OffsetTo.serialize Offset16 1000
          { debug_depth := 0, start := 1000, end_ := 70000, head := 66536,
            ran_out_of_room := false }
          (Memory.of_bytes 90000 [0xAB, 0xCD]) 1000).mem 90000 2).mem 1000 1000
        = ObjRef.Null) := by
  decide

/-- C25, amended: for `Offset16` and `Offset32`, a serialize context with the flag
clear and room for the child, a base pointer strictly before `head` with
`head - base` representable in the offset (below `2 ^ 16`, `2 ^ 32`), and the offset
field outside the bytes that `embed` claims: after `offset.serialize (ctx, base)`
followed by `embed (child)`, the stored offset equals `head - base` at that moment
and dereferencing it against `base` yields the address `embed` returned, not Null. -/
theorem Offset_serialize_deref (O : IntType) (hO : O = Offset16 ∨ O = Offset32) (this : Nat)
    (c : hb_serialize_context_t) (m : Memory) (base child s : Nat)
    (hbase : base < c.head) (hfit : c.head - base < 2 ^ (8 * O.Size))
    (hflag : c.ran_out_of_room = false) (hroom : c.head + s ≤ c.end_)
    (hfield : this + O.Size ≤ c.head ∨ c.head + s ≤ this) :
    (OffsetTo.serialize O this c m base).ret = c.head ∧
    ((OffsetTo.serialize O this c m base).c.embed
      (OffsetTo.serialize O this c m base).mem child s).ret = c.head ∧
    O.get ((OffsetTo.serialize O this c m base).c.embed
      (OffsetTo.serialize O this c m base).mem child s).mem this = ((c.head - base : Nat) : Int) ∧
    OffsetTo.deref O ((OffsetTo.serialize O this c m base).c.embed
      (OffsetTo.serialize O this c m base).mem child s).mem this base =
      ObjRef.At ((OffsetTo.serialize O this c m base).c.embed
        (OffsetTo.serialize O this c m base).mem child s).ret := by
  have hnamed : O ∈ named_scalars := by
    rcases hO with h | h <;> subst h <;> decide
  have hunsigned : O.type.is_signed = false := by
    rcases hO with h | h <;> subst h <;> rfl
  have hsz : O.Size = 2 ∨ O.Size = 4 := by
    rcases hO with h | h <;> subst h
    · left; rfl
    · right; rfl
  have hser : OffsetTo.serialize O this c m base =
      ⟨c.head, c, O.set ((c.head : Int) - (base : Int)) m this⟩ := rfl
  rw [hser]
  simp only
  have hcast : ((c.head : Int) - (base : Int)) = ((c.head - base : Nat) : Int) := by omega
  rcases allocate_size_cases c (O.set ((c.head : Int) - (base : Int)) m this) s with
    ⟨_, hbad⟩ | ⟨h, _, _⟩
  · rcases hbad with hbad | hbad
    · rw [hflag] at hbad
      exact absurd hbad (by decide)
    · omega
  · have hbuf : c.head ≠ 0 := by omega
    have he : c.embed (O.set ((c.head : Int) - (base : Int)) m this) child s =
        ⟨c.head, { c with head := c.head + s },
          ((O.set ((c.head : Int) - (base : Int)) m this).memset c.head 0 s).clone child c.head s⟩ := by
      simp only [hb_serialize_context_t.embed, h, hbuf, if_false]
    rw [he]
    simp only
    have hget : O.get (((O.set ((c.head : Int) - (base : Int)) m this).memset c.head 0 s).clone
        child c.head s) this = ((c.head - base : Nat) : Int) := by
      rw [IntType.get_congr O _ (O.set ((c.head : Int) - (base : Int)) m this) this]
      · rw [hcast]
        apply IntType.get_set O hnamed
        simp only [IntType.in_range, hunsigned, Bool.false_eq_true, if_false]
        constructor
        · omega
        · exact_mod_cast hfit
      · intro a ha1 ha2
        have hout : ¬ (c.head ≤ a ∧ a < c.head + s) := by omega
        simp only [Memory.clone, Memory.memset, hout, if_false]
    refine ⟨trivial, trivial, hget, ?_⟩
    have h32 : c.head - base < 2 ^ 32 := by
      rcases hsz with h2 | h4
      · rw [h2] at hfit
        norm_num at hfit
        omega
      · rw [h4] at hfit
        norm_num at hfit
        omega
    have hu : to_unsigned ((c.head - base : Nat) : Int) = c.head - base :=
      to_unsigned_natCast _ h32
    have hne : ¬ (c.head - base = 0) := by omega
    simp only [OffsetTo.deref, hget, hu, hne, if_false, StructAtOffset]
    congr 1
    omega

/-- C25 for an `Offset16` at address 1000 in a 12-byte buffer at 1000 with
`head = 1002` and `base = 1000`: the offset reads 2 and dereferences to the child
embedded at 1002. -/
theorem Offset_serialize_deref_witness :
    Offset16.get ((OffsetTo.serialize Offset16 1000
          { debug_depth := 0, start := 1000, end_ := 1012, head := 1002, ran_out_of_room := false }
          (Memory.of_bytes 2000 [0xAB, 0xCD]) 1000).c.embed
        (OffsetTo.serialize Offset16 1000
          { debug_depth := 0, start := 1000, end_ := 1012, head := 1002, ran_out_of_room := false }
          (Memory.of_bytes 2000 [0xAB, 0xCD]) 1000).mem 2000 2).mem 1000 = ((1002 - 1000 : Nat) : Int) :=
  (Offset_serialize_deref Offset16 (Or.inl rfl) 1000
    { debug_depth := 0, start := 1000, end_ := 1012, head := 1002, ran_out_of_room := false }
    (Memory.of_bytes 2000 [0xAB, 0xCD]) 1000 2000 2 (by decide) (by decide) rfl (by decide)
    (by decide)).2.2.1

/-- C27 at its failing inputs: the product `(end - start) * 8` is taken in
`unsigned int` without an overflow guard and stored in the `int` member `max_ops`.
For a blob of `2 ^ 28` bytes `max_ops` is `-2 ^ 31`, below the floor
`HB_SANITIZE_MAX_OPS_MIN` that the same statement sets, and the first check on the
blob already fails; for a blob of `2 ^ 29` bytes the product wraps to 0 and
`max_ops` is 16384. In both cases `max (16384, (end - start) * 8)` is another
number. -/
theorem start_processing_overflow :
    ((hb_sanitize_context_t.new.start_processing (hb_blob_t.mk_unlocked 1000 (2 ^ 28))).max_ops
        = -(2 ^ 31) ∧
      (hb_sanitize_context_t.new.start_processing (hb_blob_t.mk_unlocked 1000 (2 ^ 28))).max_ops
        < (HB_SANITIZE_MAX_OPS_MIN : Int) ∧
      (hb_sanitize_context_t.new.start_processing (hb_blob_t.mk_unlocked 1000 (2 ^ 28))).max_ops
        ≠ max 16384
          ((((hb_sanitize_context_t.new.start_processing
              (hb_blob_t.mk_unlocked 1000 (2 ^ 28))).end_ : Int) -
            (hb_sanitize_context_t.new.start_processing
              (hb_blob_t.mk_unlocked 1000 (2 ^ 28))).start) * 8) ∧
      ((hb_sanitize_context_t.new.start_processing
        (hb_blob_t.mk_unlocked 1000 (2 ^ 28))).check_range 1000 1).1 = false) ∧
    ((hb_sanitize_context_t.new.start_processing (hb_blob_t.mk_unlocked 1000 (2 ^ 29))).max_ops
        = 16384 ∧
      (hb_sanitize_context_t.new.start_processing (hb_blob_t.mk_unlocked 1000 (2 ^ 29))).max_ops
        ≠ max 16384
          ((((hb_sanitize_context_t.new.start_processing
              (hb_blob_t.mk_unlocked 1000 (2 ^ 29))).end_ : Int) -
            (hb_sanitize_context_t.new.start_processing
              (hb_blob_t.mk_unlocked 1000 (2 ^ 29))).start) * 8)) := by
  decide

/-- C28, as stated, fails: on the 4-byte blob `00 03 00 00`, whose parent structure
points at a structure that does not fit, the first pass fails after one invocation
of `T::sanitize`, and the pass on the writable copy neuters the offset, passes, and
sanitizes again: three invocations in two passes. -/
theorem sanitize_blob_three_calls_counterexample :
    (hb_sanitize_context_t.new.sanitize_blob_counted (parent_struct (plain_struct 2) HBUINT16)
      2000 2 (hb_blob_t.mk_unlocked 1000 4) (Memory.of_bytes 1000 [0, 3, 0, 0])).map
      (fun x => x.2) = some (2, 3) := by
  decide

/-- C28, amended: for every blob and every `T::sanitize` that leaves the context's
`writable` flag alone, as the context's own methods do, `sanitize_blob<T>`
terminates: two units of fuel, one per `goto retry`, always suffice and more fuel
changes nothing. It runs at most two validation passes, the retry with a writable
copy included; `T::sanitize` is invoked at most twice in a pass, so at most twice
when there is one pass and at most three times in all. -/
theorem sanitize_blob_terminates (T : TableType)
    (hT : ∀ p d mm, (T.sanitize p d mm).c.writable = d.writable) (heap fuel : Nat)
    (c : hb_sanitize_context_t) (blob : hb_blob_t) (m : Memory) (hfuel : 2 ≤ fuel) :
    ∃ r passes calls,
      c.sanitize_blob_counted T heap fuel blob m = some (r, passes, calls) ∧
      c.sanitize_blob T heap fuel blob m = some r ∧
      c.sanitize_blob T heap 2 blob m = some r ∧
      passes ≤ 2 ∧ calls ≤ 3 ∧ (passes = 1 → calls ≤ 2) := by
  obtain ⟨k, rfl⟩ : ∃ k, fuel = k + 2 := ⟨fuel - 2, by omega⟩
  obtain ⟨r, passes, calls, h, hp, hc, h1⟩ := sanitize_blob_retry_counted_bound T hT heap k
    (c.init blob).1 (c.init blob).2 m
  have hfst := sanitize_blob_retry_counted_fst T heap (k + 2) (c.init blob).1 (c.init blob).2 m
  have hfst2 := sanitize_blob_retry_counted_fst T heap 2 (c.init blob).1 (c.init blob).2 m
  have hfuel2 := sanitize_blob_retry_counted_fuel T hT heap k (c.init blob).1 (c.init blob).2 m
  rw [hfuel2] at h
  refine ⟨r, passes, calls, ?_, ?_, ?_, hp, hc, h1⟩
  · show hb_sanitize_context_t.sanitize_blob_retry_counted T heap (k + 2) (c.init blob).1 (c.init blob).2 m = _
    rw [hfuel2, h]
  · show hb_sanitize_context_t.sanitize_blob_retry T heap (k + 2) (c.init blob).1 (c.init blob).2 m = _
    rw [← hfst, hfuel2, h]
    rfl
  · show hb_sanitize_context_t.sanitize_blob_retry T heap 2 (c.init blob).1 (c.init blob).2 m = _
    rw [← hfst2, h]
    rfl

/-- C28 for a plain 4-byte structure on a 4-byte blob: one pass, one invocation. -/
theorem sanitize_blob_terminates_witness :
    ∃ r passes calls,
      hb_sanitize_context_t.new.sanitize_blob_counted (plain_struct 4) 2000 2
        (hb_blob_t.mk_unlocked 1000 4) (Memory.of_bytes 1000 [0, 3, 0, 0])
        = some (r, passes, calls) ∧
      hb_sanitize_context_t.new.sanitize_blob (plain_struct 4) 2000 2
        (hb_blob_t.mk_unlocked 1000 4) (Memory.of_bytes 1000 [0, 3, 0, 0]) = some r ∧
      passes ≤ 2 ∧ calls ≤ 3 :=
  match sanitize_blob_terminates (plain_struct 4) (fun _ _ _ => rfl) 2000 2
      hb_sanitize_context_t.new (hb_blob_t.mk_unlocked 1000 4)
      (Memory.of_bytes 1000 [0, 3, 0, 0]) (by decide) with
  | ⟨r, passes, calls, h1, h2, _, h3, h4, _⟩ => ⟨r, passes, calls, h1, h2, h3, h4⟩

/-- C29, as stated, fails at the cap: with `edit_count = 32`, `may_edit` returns
false and leaves `edit_count` at 32. -/
theorem may_edit_cap_counterexample :
    (({ hb_sanitize_context_t.new with edit_count := 32, writable := true }
        : hb_sanitize_context_t).may_edit 1000 2).1 = false ∧
      (({ hb_sanitize_context_t.new with edit_count := 32, writable := true }
        : hb_sanitize_context_t).may_edit 1000 2).2.edit_count = 32 := by
  decide

/-- C29, amended: for every context state, `may_edit (p, n)` returns
`writable ∧ edit_count < 32` with `edit_count` the value before the call, and
increments `edit_count` by one exactly when that value is below 32; at the cap it
returns false and leaves the context as it is. Nothing else changes. -/
theorem may_edit_spec (c : hb_sanitize_context_t) (p n : Nat) :
    (c.may_edit p n).1 = (c.writable && decide (c.edit_count < 32)) ∧
    (c.edit_count < 32 → (c.may_edit p n).2 = { c with edit_count := c.edit_count + 1 }) ∧
    (32 ≤ c.edit_count → (c.may_edit p n).1 = false ∧ (c.may_edit p n).2 = c) := by
  by_cases h : 32 ≤ c.edit_count
  · have h2 : HB_SANITIZE_MAX_EDITS ≤ c.edit_count := h
    have hlt : ¬ c.edit_count < 32 := by omega
    have e : c.may_edit p n = (false, c) := by
      simp only [hb_sanitize_context_t.may_edit, h2, if_true]
    rw [e]
    refine ⟨?_, fun h3 => absurd h3 hlt, fun _ => ⟨rfl, rfl⟩⟩
    simp only [hlt, decide_False, Bool.and_false]
  · have h2 : ¬ HB_SANITIZE_MAX_EDITS ≤ c.edit_count := h
    have hlt : c.edit_count < 32 := by omega
    have e : c.may_edit p n = (c.writable, { c with edit_count := c.edit_count + 1 }) := by
      simp only [hb_sanitize_context_t.may_edit, h2, if_false]
    rw [e]
    refine ⟨?_, fun _ => rfl, fun h3 => absurd h3 h⟩
    simp only [hlt, decide_True, Bool.and_true]

/-- C29 for a writable context with no edits yet: the edit is granted and counted. -/
theorem may_edit_spec_witness :
    (({ hb_sanitize_context_t.new with writable := true } : hb_sanitize_context_t).may_edit
        1000 2).2 =
      { ({ hb_sanitize_context_t.new with writable := true } : hb_sanitize_context_t) with
        edit_count := ({ hb_sanitize_context_t.new with writable := true }
          : hb_sanitize_context_t).edit_count + 1 } :=
  (may_edit_spec ({ hb_sanitize_context_t.new with writable := true } : hb_sanitize_context_t)
    1000 2).2.1 (by decide)

/-- C33: for every `SortedArrayOf<T, HBUINT16>`, whatever the order of its elements
and whatever `cmp` answers, and every key `x`: `bsearch (x)` terminates, with fuel
above `len` it returns after at most `len` reads; every index it reads lies in
`[0, len)`; and its result is either `-1` or an index `i` with `0 ≤ i < len` and
`arr[i].cmp (x) = 0`. -/
theorem bsearch_safe {Key : Type} (E : KeyedType Key) (m : Memory) (this : Nat) (x : Key)
    (fuel : Nat) (hfuel : ArrayOf.len HBUINT16 m this < fuel) :
    ∃ r reads,
      SortedArrayOf.bsearch_traced HBUINT16 E m this x fuel = some (r, reads) ∧
      SortedArrayOf.bsearch HBUINT16 E m this x fuel = some r ∧
      (∀ i ∈ reads, 0 ≤ i ∧ i < (ArrayOf.len HBUINT16 m this : Int)) ∧
      reads.length ≤ ArrayOf.len HBUINT16 m this ∧
      (r = -1 ∨ ∃ k : Nat, r = k ∧ k < ArrayOf.len HBUINT16 m this ∧
        E.cmp m (ArrayOf.arrayZ HBUINT16 this + k * E.static_size) x = 0) := by
  have hlen := ArrayOf.len_HBUINT16_lt m this
  have hti : to_int (ArrayOf.len HBUINT16 m this) = (ArrayOf.len HBUINT16 m this : Int) :=
    to_int_of_lt _ (by omega)
  obtain ⟨r, reads, hr, hreads, hres, hl⟩ := bsearch_loop_traced_safe
    (fun mid : Int => E.cmp m (ArrayOf.arrayZ HBUINT16 this + mid.toNat * E.static_size) x)
    (ArrayOf.len HBUINT16 m this) fuel 0 (to_int (ArrayOf.len HBUINT16 m this) - 1)
    (le_refl _) (by rw [hti]; omega) (by rw [hti]; omega)
  have hfst := bsearch_loop_traced_fst
    (fun mid : Int => E.cmp m (ArrayOf.arrayZ HBUINT16 this + mid.toNat * E.static_size) x)
    fuel 0 (to_int (ArrayOf.len HBUINT16 m this) - 1)
  refine ⟨r, reads, hr, ?_, hreads, ?_, ?_⟩
  · show SortedArrayOf.bsearch_loop _ fuel 0 _ = some r
    rw [← hfst, hr]
    rfl
  · rw [hti] at hl
    omega
  · rcases hres with e | ⟨a, b, c0, _⟩
    · left; exact e
    · right
      refine ⟨r.toNat, by omega, by omega, ?_⟩
      exact c0

/-- C33 on the unsorted array of `HBUINT16` values 9, 3, 7 at address 1000 and the
key 9: the search reads index 1, then index 2, and returns -1 without leaving the
array, although 9 is stored at index 0. -/
theorem bsearch_safe_witness :
    ∃ r reads,
      SortedArrayOf.bsearch_traced HBUINT16 HBUINT16.keyed
        (Memory.of_bytes 1000 [0, 3, 0, 9, 0, 3, 0, 7]) 1000 (9 : Int) 4 = some (r, reads) ∧
      SortedArrayOf.bsearch HBUINT16 HBUINT16.keyed
        (Memory.of_bytes 1000 [0, 3, 0, 9, 0, 3, 0, 7]) 1000 (9 : Int) 4 = some r ∧
      (∀ i ∈ reads, 0 ≤ i ∧
        i < (ArrayOf.len HBUINT16 (Memory.of_bytes 1000 [0, 3, 0, 9, 0, 3, 0, 7]) 1000 : Int)) :=
  match bsearch_safe HBUINT16.keyed (Memory.of_bytes 1000 [0, 3, 0, 9, 0, 3, 0, 7]) 1000
      (9 : Int) 4 (by decide) with
  | ⟨r, reads, h1, h2, h3, _, _⟩ => ⟨r, reads, h1, h2, h3⟩

/-- C31, as stated, fails once the op budget is short. With two ops left and three
16-bit elements inside the blob the aggregate check passes, while per-element
sanitization spends its two ops on the length and the first element and fails at
the second. With one op left and an empty array it is the other way round: the
aggregate check has no op left for `check_array`, per-element sanitization has no
element to check. -/
theorem ArrayOf_budget_counterexample :
    ((ArrayOf.sanitize HBUINT16 2 1000
        { (hb_sanitize_context_t.new.start_processing (hb_blob_t.mk_unlocked 1000 12)) with
          max_ops := 2 }
        (Memory.of_bytes 1000 [0, 3, 0, 1, 0, 2, 0, 3])).1 = true ∧
      (ArrayOf.sanitize_per_element HBUINT16 2 1000
        { (hb_sanitize_context_t.new.start_processing (hb_blob_t.mk_unlocked 1000 12)) with
          max_ops := 2 }
        (Memory.of_bytes 1000 [0, 3, 0, 1, 0, 2, 0, 3])).1 = false) ∧
    ((ArrayOf.sanitize HBUINT16 2 1000
        { (hb_sanitize_context_t.new.start_processing (hb_blob_t.mk_unlocked 1000 12)) with
          max_ops := 1 }
        (Memory.of_bytes 1000 [0, 0])).1 = false ∧
      (ArrayOf.sanitize_per_element HBUINT16 2 1000
        { (hb_sanitize_context_t.new.start_processing (hb_blob_t.mk_unlocked 1000 12)) with
          max_ops := 1 }
        (Memory.of_bytes 1000 [0, 0])).1 = true) := by
  decide

/-- C31, amended: for every context spanning a blob whose remaining op budget covers
both ways of checking, at least two ops and at least one op for the length plus one
per element, and every `ArrayOf<T>` whose element type contains no offsets, the
single aggregate check made by `ArrayOf::sanitize (c)` returns the same boolean as
per-element sanitization: both accept exactly when the length field and the `len`
elements lie inside the blob. -/
theorem ArrayOf_sanitize_refines (L : IntType) (static_size p : Nat)
    (c : hb_sanitize_context_t) (m : Memory) (hc : c.spans_blob) (hops : 2 ≤ c.max_ops)
    (hbudget : (ArrayOf.len L m p : Int) + 1 ≤ c.max_ops) :
    (ArrayOf.sanitize L static_size p c m).1 =
      (ArrayOf.sanitize_per_element L static_size p c m).1 ∧
    ((ArrayOf.sanitize L static_size p c m).1 = true ↔
      (c.start ≤ p ∧ p + L.Size ≤ c.end_) ∧
        p + L.Size + ArrayOf.len L m p * static_size ≤ c.end_) := by
  have ha := ArrayOf.sanitize_true_iff L static_size p c m hc hops
  have hp := ArrayOf.sanitize_per_element_true_iff L static_size p c m hc hbudget
  refine ⟨?_, ha⟩
  rw [Bool.eq_iff_iff, ha, hp]

/-- C31 on a 12-byte blob at address 1000 holding three 16-bit elements, with the
budget `start_processing` grants: both checks accept. -/
theorem ArrayOf_sanitize_refines_witness :
    (ArrayOf.sanitize HBUINT16 2 1000
        (hb_sanitize_context_t.new.start_processing (hb_blob_t.mk_unlocked 1000 12))
        (Memory.of_bytes 1000 [0, 3, 0, 1, 0, 2, 0, 3])).1 =
      (ArrayOf.sanitize_per_element HBUINT16 2 1000
        (hb_sanitize_context_t.new.start_processing (hb_blob_t.mk_unlocked 1000 12))
        (Memory.of_bytes 1000 [0, 3, 0, 1, 0, 2, 0, 3])).1 :=
  (ArrayOf_sanitize_refines HBUINT16 2 1000
    (hb_sanitize_context_t.new.start_processing (hb_blob_t.mk_unlocked 1000 12))
    (Memory.of_bytes 1000 [0, 3, 0, 1, 0, 2, 0, 3]) (by decide) (by decide) (by decide)).1

end OT
